import Mathlib

set_option autoImplicit false

/-!
# Memory manager and ready queue of the simulated operating system

Shallow embedding of `src/mem.c` and `src/queue.c`.

* C arrays are total functions on indices (`Nat → α`); the declared bound of an
  array is carried by the layout parameters.
* `uint32_t` / `addr_t` values are `Nat`, with `% 2^32` written at every
  operation that can wrap.
* `int` fields of the frame table are `Int`.
* A `NULL` pointer to a page table is `none`.
* Functions that can spin forever, dereference `NULL` or exhaust the iteration
  budget of the model return a `Res`.
* A local variable that the C code declares without an initialiser and may read
  before assigning it is a parameter `junk` of the function that reads it: the
  value the variable happens to hold.  Every theorem about runs of the program
  is for all such values.
-/

namespace OSim

/-! ## Layout parameters -/

/-- Compile-time constants of `mem.h` and `queue.h`.  The headers fix them; every
definition below takes them as a parameter. -/
structure Config where
  /-- Number of bits of the segment index. -/
  SEGMENT_LEN : Nat
  /-- Number of bits of the page index. -/
  PAGE_LEN : Nat
  /-- Number of bits of the offset inside a page. -/
  OFFSET_LEN : Nat
  /-- Number of physical frames. -/
  NUM_PAGES : Nat
  /-- Capacity of the ready queue. -/
  MAX_QUEUE_SIZE : Nat

/-- Width of a virtual address: segment bits, page bits and offset bits. -/
def Config.ADDRESS_SIZE (cfg : Config) : Nat :=
  cfg.SEGMENT_LEN + cfg.PAGE_LEN + cfg.OFFSET_LEN

/-- Size of a page in bytes, `1 << OFFSET_LEN`. -/
def Config.PAGE_SIZE (cfg : Config) : Nat :=
  2 ^ cfg.OFFSET_LEN

/-- Side conditions under which the `uint32_t` arithmetic of `mem.c` is defined:
the modulus `size % PAGE_LEN` has a non-zero divisor, the shifts are by less than
32 bits, and physical memory is at most 2 GiB, so that the sum of a virtual
address and the size of an allocation that fits in physical memory does not
wrap. -/
structure Config.WF (cfg : Config) : Prop where
  page_len_pos : 0 < cfg.PAGE_LEN
  addr_lt : cfg.ADDRESS_SIZE < 32
  ram_fits : cfg.NUM_PAGES * cfg.PAGE_SIZE ≤ 2 ^ 31

/-- The standard layout: five segment bits and five page bits, as the comment of
`set_page_table_entry` says; the headers are not among the sources, and the
other values are taken as 20-bit addresses (ten offset bits, 1024-byte pages),
one frame per virtual page and ten queue slots. -/
def stdConfig : Config := ⟨5, 5, 10, 1024, 10⟩

/-- The layout of the scenario of the specification: 256-byte pages and four
frames (one segment bit and one page bit), three queue slots. -/
def tinyConfig : Config := ⟨1, 1, 8, 4, 3⟩

/-! ## Machine arithmetic -/

/-- Truncation to 32 bits. -/
def u32 (x : Nat) : Nat := x % 4294967296

/-- Bitwise complement of a 32-bit value. -/
def u32_not (x : Nat) : Nat := 4294967295 - u32 x

/-- Left shift of a 32-bit value. -/
def u32_shl (x k : Nat) : Nat := u32 (x <<< k)

/-- Wrapping subtraction of 32-bit values. -/
def u32_sub (x y : Nat) : Nat := u32 (u32 x + 4294967296 - u32 y)

/-- Result of running a piece of C code. -/
inductive Res (α : Type) where
  /-- The function returned. -/
  | ok : α → Res α
  /-- The function entered its `while (1);` error loop. -/
  | fatal : Res α
  /-- The function dereferenced `NULL`: the program is killed. -/
  | undef : Res α
  /-- The iteration budget given to the model ran out. -/
  | timeout : Res α

/-- The value of a run that returned. -/
def Res.val {α : Type} : Res α → Option α
  | .ok a => some a
  | _ => none

/-! ## Data model -/

/-- One row of a page table. -/
structure page_entry where
  v_index : Nat
  p_index : Nat

/-- `struct page_table_t`. -/
structure page_table_t where
  table : Nat → page_entry
  size : Int

/-- `struct seg_table_t`; `pages i` is `table[i].pages`. -/
structure seg_table_t where
  pages : Nat → Option page_table_t
  size : Int

/-- `struct pcb_t`, restricted to the fields the two files use. -/
structure pcb_t where
  pid : Nat
  priority : Nat
  bp : Nat
  seg_table : seg_table_t

/-- One element of `_mem_stat`. -/
structure frame_stat where
  proc : Nat
  index : Int
  next : Int

/-- The file-scope variables of `mem.c`. -/
structure Mem where
  _ram : Nat → Nat
  free_frame_left : Nat
  _mem_stat : Nat → frame_stat

/-- `struct queue_t`. -/
structure queue_t where
  proc : Nat → pcb_t
  size : Nat

/-! ## queue.c -/

/-- `swap_elem(&a[i], &a[j])`. -/
def swap_elem (a : Nat → pcb_t) (i j : Nat) : Nat → pcb_t :=
  Function.update (Function.update a i (a j)) j (a i)

def compare_pcb_smaller (p_elem1 p_elem2 : pcb_t) : Bool :=
  decide (p_elem1.priority < p_elem2.priority)

def add_to_end (queue : queue_t) (proc : pcb_t) : queue_t :=
  ⟨Function.update queue.proc queue.size proc, queue.size + 1⟩

def swap_start_with_end (queue : queue_t) : queue_t :=
  ⟨swap_elem queue.proc 0 (queue.size - 1), queue.size⟩

def get_parent_index (child_index : Nat) : Nat :=
  if child_index = 0 then 0 else (child_index - 1) / 2

def get_left_child_index (parent_index : Nat) : Nat :=
  2 * parent_index + 1

def get_right_child_index (parent_index : Nat) : Nat :=
  2 * parent_index + 2

/-- The `while` loop of `sift_up`; the first argument bounds the number of times
the loop condition is evaluated. -/
def sift_up_loop : Nat → queue_t → Nat → Option queue_t
  | 0, _, _ => none
  | fuel + 1, queue, current_index =>
    if current_index > 0 then
      let current_parent_index := get_parent_index current_index
      let current_parent := queue.proc current_parent_index
      let current := queue.proc current_index
      if compare_pcb_smaller current_parent current then
        sift_up_loop fuel
          ⟨swap_elem queue.proc current_parent_index current_index, queue.size⟩
          current_parent_index
      else
        some queue
    else
      some queue

/-- `sift_up`: the index at least halves at every round, so `index + 1` rounds
are enough (`sift_up_loop_total`). -/
def sift_up (queue : queue_t) (index : Nat) : Option queue_t :=
  sift_up_loop (index + 1) queue index

/-- The `while` loop of `sift_down`; the first argument bounds the number of
times the loop condition is evaluated. -/
def sift_down_loop : Nat → queue_t → Nat → Option queue_t
  | 0, _, _ => none
  | fuel + 1, queue, current_index =>
    if current_index < queue.size then
      let current := queue.proc current_index
      let left_child_index := get_left_child_index current_index
      if left_child_index ≥ queue.size then
        some queue
      else
        let left_child := queue.proc left_child_index
        let right_child_index := get_right_child_index current_index
        if right_child_index ≥ queue.size then
          if compare_pcb_smaller current left_child then
            some ⟨swap_elem queue.proc current_index left_child_index, queue.size⟩
          else
            some queue
        else
          let right_child := queue.proc right_child_index
          let max_child_index :=
            if compare_pcb_smaller left_child right_child then right_child_index
            else left_child_index
          let max_child := queue.proc max_child_index
          if compare_pcb_smaller current max_child then
            sift_down_loop fuel
              ⟨swap_elem queue.proc current_index max_child_index, queue.size⟩
              max_child_index
          else
            some queue
    else
      some queue

/-- `sift_down`: the index grows at every round and stays below `size`, so
`size + 1` rounds are enough (`sift_down_loop_total`). -/
def sift_down (queue : queue_t) (index : Nat) : Option queue_t :=
  sift_down_loop (queue.size + 1) queue index

def empty (q : queue_t) : Bool :=
  q.size == 0

/-- `enqueue`; `none` only if a sift loop exceeded its budget. -/
def enqueue (cfg : Config) (q : queue_t) (proc : pcb_t) : Option queue_t :=
  if q.size ≥ cfg.MAX_QUEUE_SIZE then
    some q
  else
    sift_up (add_to_end q proc) ((add_to_end q proc).size - 1)

/-- `dequeue`; the first component is the returned pointer (`none` for `NULL`). -/
def dequeue (q : queue_t) : Option (Option pcb_t × queue_t) :=
  if q.size = 0 then
    some (none, q)
  else
    let top := q.proc 0
    let q1 := swap_start_with_end q
    let q2 : queue_t := ⟨q1.proc, q1.size - 1⟩
    (sift_down q2 0).map (fun q3 => (some top, q3))

/-- Queue states that a driver can reach from an empty queue. -/
inductive QReach (cfg : Config) : queue_t → Prop where
  | init (a : Nat → pcb_t) : QReach cfg ⟨a, 0⟩
  | enq (q : queue_t) (p : pcb_t) (q1 : queue_t) :
      QReach cfg q → enqueue cfg q p = some q1 → QReach cfg q1
  | deq (q : queue_t) (r : Option pcb_t) (q1 : queue_t) :
      QReach cfg q → dequeue q = some (r, q1) → QReach cfg q1

/-- Max-heap order of the occupied slots. -/
def max_heap (q : queue_t) : Prop :=
  ∀ i, 0 < i → i < q.size → (q.proc i).priority ≤ (q.proc ((i - 1) / 2)).priority

/-- Loop invariant of `sift_up`: the heap order holds at every slot except
possibly between `ci` and its parent, and the children of `ci` are dominated by
the parent of `ci`. -/
def up_inv (q : queue_t) (ci : Nat) : Prop :=
  (∀ i, 0 < i → i < q.size → i ≠ ci →
      (q.proc i).priority ≤ (q.proc ((i - 1) / 2)).priority) ∧
  (∀ c, 0 < c → c < q.size → (c - 1) / 2 = ci → 0 < ci →
      (q.proc c).priority ≤ (q.proc ((ci - 1) / 2)).priority)

/-- Loop invariant of `sift_down`: the heap order holds at every slot except
possibly between `ci` and its children, and the children of `ci` are dominated
by the parent of `ci`. -/
def down_inv (q : queue_t) (ci : Nat) : Prop :=
  (∀ i, 0 < i → i < q.size → (i - 1) / 2 ≠ ci →
      (q.proc i).priority ≤ (q.proc ((i - 1) / 2)).priority) ∧
  (∀ c, 0 < c → c < q.size → (c - 1) / 2 = ci → 0 < ci →
      (q.proc c).priority ≤ (q.proc ((ci - 1) / 2)).priority)

/-! ## mem.c -/

/-- Number of bytes of `_ram`: one page per frame. -/
def Config.RAM_SIZE (cfg : Config) : Nat :=
  cfg.NUM_PAGES * cfg.PAGE_SIZE

/-- `max_virtual_addr = ~(~0u << ADDRESS_SIZE)`. -/
def max_virtual_addr (cfg : Config) : Nat :=
  u32_not (u32_shl (u32_not 0) cfg.ADDRESS_SIZE)

/-- The file-scope variables at program start: static storage is zeroed and
`free_frame_left` carries its initialiser `NUM_PAGES`. -/
def start_mem (cfg : Config) : Mem :=
  ⟨fun _ => 0, cfg.NUM_PAGES, fun _ => ⟨0, 0, 0⟩⟩

/-- `init_mem`: both `memset` calls; `free_frame_left` is not touched. -/
def init_mem (cfg : Config) (m : Mem) : Mem :=
  ⟨fun i => if i < cfg.RAM_SIZE then 0 else m._ram i,
   m.free_frame_left,
   fun i => if i < cfg.NUM_PAGES then ⟨0, 0, 0⟩ else m._mem_stat i⟩

def init_segment_table (cfg : Config) (s_table : seg_table_t) : seg_table_t :=
  ⟨fun i => if i < 2 ^ cfg.SEGMENT_LEN then none else s_table.pages i, 0⟩

def init_page_table (cfg : Config) (p_table : page_table_t) : page_table_t :=
  ⟨fun i => if i < 2 ^ cfg.PAGE_LEN then ⟨0, (p_table.table i).p_index⟩
            else p_table.table i, 0⟩

/-- The block returned by `malloc(sizeof(struct page_table_t))`.  Its contents
are indeterminate in C; no function reads a field of it that it has not written
first, and the model fixes them to zero. -/
def malloc_page_table : page_table_t :=
  ⟨fun _ => ⟨0, 0⟩, 0⟩

def get_offset (cfg : Config) (addr : Nat) : Nat :=
  addr &&& u32_not (u32_shl (u32_not 0) cfg.OFFSET_LEN)

def get_first_lv (cfg : Config) (addr : Nat) : Nat :=
  addr >>> (cfg.OFFSET_LEN + cfg.PAGE_LEN)

def get_second_lv (cfg : Config) (addr : Nat) : Nat :=
  u32_sub (addr >>> cfg.OFFSET_LEN) (u32_shl (get_first_lv cfg addr) cfg.PAGE_LEN)

def set_page_table_entry (cfg : Config) (proc : pcb_t) (page_num virt_addr : Nat) : pcb_t :=
  let segment_index := get_first_lv cfg virt_addr
  let page_index := get_second_lv cfg virt_addr
  let stab := proc.seg_table
  -- `if (*ptab == NULL)`: the page table is allocated, initialised and counted
  let ptab : page_table_t :=
    match stab.pages segment_index with
    | none => init_page_table cfg malloc_page_table
    | some t => t
  let stab_size : Int :=
    match stab.pages segment_index with
    | none => stab.size + 1
    | some _ => stab.size
  -- `if ((*ptab)->table[page_index].v_index == 0)`: the row is written
  let ptab1 : page_table_t :=
    if (ptab.table page_index).v_index = 0 then
      ⟨Function.update ptab.table page_index
          ⟨virt_addr >>> cfg.OFFSET_LEN, page_num⟩, ptab.size + 1⟩
    else ptab
  ⟨proc.pid, proc.priority, proc.bp,
    ⟨Function.update stab.pages segment_index (some ptab1), stab_size⟩⟩

/-- `free_page_table_entry`; `none` when the page table pointer is `NULL`. -/
def free_page_table_entry (cfg : Config) (addr : Nat) (proc : pcb_t) : Option pcb_t :=
  let segment_index := get_first_lv cfg addr
  let page_index := get_second_lv cfg addr
  let stab := proc.seg_table
  match stab.pages segment_index with
  | none => none
  | some ptab =>
    let ptab1 : page_table_t :=
      ⟨Function.update ptab.table page_index ⟨0, (ptab.table page_index).p_index⟩,
        ptab.size - 1⟩
    some ⟨proc.pid, proc.priority, proc.bp,
      ⟨Function.update stab.pages segment_index (some ptab1), stab.size⟩⟩

def get_page_table (index : Nat) (seg_table : seg_table_t) : Option page_table_t :=
  seg_table.pages index

/-- `translate`: `some pa` stands for return value 1 with `*physical_addr = pa`,
`none` for return value 0 (`*physical_addr` is left untouched). -/
def translate (cfg : Config) (virtual_addr : Nat) (proc : pcb_t) : Option Nat :=
  let first_lv := get_first_lv cfg virtual_addr
  let second_lv := get_second_lv cfg virtual_addr
  match get_page_table first_lv proc.seg_table with
  | none => none
  | some page_table =>
    if (page_table.table second_lv).v_index = 0 then
      none
    else
      let offset := get_offset cfg virtual_addr
      let physical_frame_index := (page_table.table second_lv).p_index
      some (u32_shl physical_frame_index cfg.OFFSET_LEN ||| offset)

/-- The page count computed at the top of `alloc_mem`. -/
def num_pages_of (cfg : Config) (size : Nat) : Nat :=
  u32 (size / cfg.PAGE_SIZE + (if size % cfg.PAGE_LEN ≠ 0 then 1 else 0))

/-- The flag `mem_avail` of `alloc_mem` after both checks. -/
def mem_avail (cfg : Config) (size : Nat) (proc : pcb_t) (mem : Mem) : Bool :=
  let num_pages := num_pages_of cfg size
  let mem_avail1 := if mem.free_frame_left < num_pages then false else true
  let required_alloc_size := u32 (num_pages * cfg.PAGE_SIZE)
  if u32 (proc.bp + required_alloc_size) > max_virtual_addr cfg then false else mem_avail1

/-- The variables the `for` loop of `alloc_mem` works on.  The flag
`is_first_frame_encountered` is 1 exactly as long as `last_frame_index` has not
been assigned, so the pair is one `Option`. -/
structure alloc_scan where
  _mem_stat : Nat → frame_stat
  proc : pcb_t
  alloc_frame_count : Nat
  last_frame_index : Option Nat

/-- Body of `if (_mem_stat[i].proc == 0)` inside the loop of `alloc_mem`. -/
def alloc_claim (cfg : Config) (st : alloc_scan) (i : Nat) : alloc_scan :=
  let ms1 := Function.update st._mem_stat i
    ⟨st.proc.pid, (st.alloc_frame_count : Int), (st._mem_stat i).next⟩
  let ms2 :=
    match st.last_frame_index with
    | none => ms1
    | some l => Function.update ms1 l ⟨(ms1 l).proc, (ms1 l).index, (i : Int)⟩
  let proc1 := set_page_table_entry cfg st.proc i st.proc.bp
  ⟨ms2, ⟨proc1.pid, proc1.priority, u32 (proc1.bp + cfg.PAGE_SIZE), proc1.seg_table⟩,
    u32 (st.alloc_frame_count + 1), some i⟩

/-- The `for` loop of `alloc_mem`; the first argument is `NUM_PAGES - i`. -/
def alloc_loop (cfg : Config) (num_pages : Nat) : Nat → Nat → alloc_scan → alloc_scan
  | 0, _, st => st
  | k + 1, i, st =>
    if st.alloc_frame_count < num_pages then
      alloc_loop cfg num_pages k (i + 1)
        (if (st._mem_stat i).proc = 0 then alloc_claim cfg st i else st)
    else st

/-- `alloc_mem`: returned address, updated process and updated globals.  The
local `last_frame_index` is declared without an initialiser; `junk` is the value
it holds until the loop assigns it.  When the loop claims no frame (a request
counted as 0 pages), the store `_mem_stat[last_frame_index].next = -1` after the
loop goes through that value, and the call returns.  An index outside the table
addresses a cell of the total function that no access inside the table reads. -/
def alloc_mem (cfg : Config) (junk size : Nat) (proc : pcb_t) (mem : Mem) :
    Res (Nat × pcb_t × Mem) :=
  let num_pages := num_pages_of cfg size
  if mem_avail cfg size proc mem then
    let ret_mem := proc.bp
    let st := alloc_loop cfg num_pages cfg.NUM_PAGES 0 ⟨mem._mem_stat, proc, 0, none⟩
    let last_frame_index := st.last_frame_index.getD junk
    let ms := Function.update st._mem_stat last_frame_index
      ⟨(st._mem_stat last_frame_index).proc, (st._mem_stat last_frame_index).index, -1⟩
    if st.alloc_frame_count < num_pages then
      .fatal
    else
      .ok (ret_mem, st.proc, ⟨mem._ram, u32_sub mem.free_frame_left num_pages, ms⟩)
  else
    .ok (0, proc, mem)

/-- `free_mem`: return value, updated process and updated globals.  The first
argument bounds the number of rounds of the `while (1)` loop.  The result of
`translate` is not tested by the code, and the local `physical_addr` is declared
without an initialiser inside the loop body: when `translate` fails, the round
goes on with the value the variable happens to hold, which is `junk 0` in the
first round of the call, `junk 1` in the second, and so on.  As in `alloc_mem`,
an index outside the table addresses a cell of the total function that no
access inside the table reads.  A `NULL` page table in `free_page_table_entry`
is `undef`. -/
def free_mem (cfg : Config) :
    Nat → (Nat → Nat) → Nat → pcb_t → Mem → Res (Nat × pcb_t × Mem)
  | 0, _, _, _, _ => .timeout
  | fuel + 1, junk, address, proc, mem =>
    let physical_addr := (translate cfg address proc).getD (junk 0)
    let current_frame_index := physical_addr >>> cfg.OFFSET_LEN
    let ms := Function.update mem._mem_stat current_frame_index
      ⟨0, (mem._mem_stat current_frame_index).index,
        (mem._mem_stat current_frame_index).next⟩
    match free_page_table_entry cfg address proc with
    | none => .undef
    | some proc1 =>
      if (ms current_frame_index).next = -1 then
        .ok (0, proc1, ⟨mem._ram, mem.free_frame_left, ms⟩)
      else
        let address1 := u32 (address + cfg.PAGE_SIZE)
        if address1 > max_virtual_addr cfg then
          .fatal
        else
          free_mem cfg fuel (fun i => junk (i + 1)) address1 proc1
            ⟨mem._ram, mem.free_frame_left, ms⟩

/-- `read_mem`: return value and the content of `*data` afterwards. -/
def read_mem (cfg : Config) (address : Nat) (proc : pcb_t) (data : Nat) (mem : Mem) :
    Nat × Nat :=
  match translate cfg address proc with
  | some physical_addr => (0, mem._ram physical_addr)
  | none => (1, data)

/-- `write_mem`: return value and the globals afterwards. -/
def write_mem (cfg : Config) (address : Nat) (proc : pcb_t) (data : Nat) (mem : Mem) :
    Nat × Mem :=
  match translate cfg address proc with
  | some physical_addr =>
    (0, ⟨Function.update mem._ram physical_addr data, mem.free_frame_left, mem._mem_stat⟩)
  | none => (1, mem)

/-- Virtual page number stored in the page-table row that serves virtual page
`v` (0 when the segment has no page table). -/
def vidx (cfg : Config) (p : pcb_t) (v : Nat) : Nat :=
  match p.seg_table.pages (v / 2 ^ cfg.PAGE_LEN) with
  | none => 0
  | some pt => (pt.table (v % 2 ^ cfg.PAGE_LEN)).v_index

/-- Frame number stored in the page-table row that serves virtual page `v`
(0 when the segment has no page table). -/
def pidx (cfg : Config) (p : pcb_t) (v : Nat) : Nat :=
  match p.seg_table.pages (v / 2 ^ cfg.PAGE_LEN) with
  | none => 0
  | some pt => (pt.table (v % 2 ^ cfg.PAGE_LEN)).p_index

/-- Loop invariant of the `for` loop of `alloc_mem`, relative to the frame table
`ms0` and the process `p0` at loop entry: `i` is the loop counter, `fs` lists the
frames claimed so far and `n` is the requested page count. -/
structure AllocInv (cfg : Config) (n : Nat) (ms0 : Nat → frame_stat) (p0 : pcb_t)
    (i : Nat) (st : alloc_scan) (fs : List Nat) : Prop where
  count : st.alloc_frame_count = fs.length
  count_le : fs.length ≤ n
  last : st.last_frame_index = fs.getLast?
  below : ∀ f ∈ fs, f < i
  was_free : ∀ f ∈ fs, (ms0 f).proc = 0
  complete : ∀ f, f < i → (ms0 f).proc = 0 → f ∈ fs
  sorted : fs.Pairwise (fun a b => a < b)
  stat : ∀ (j f : Nat), fs[j]? = some f → st._mem_stat f =
    ⟨p0.pid, (j : Int),
      match fs[j + 1]? with
      | some g => (g : Int)
      | none => (ms0 f).next⟩
  other : ∀ f, f ∉ fs → st._mem_stat f = ms0 f
  bp : st.proc.bp = p0.bp + fs.length * cfg.PAGE_SIZE
  pid : st.proc.pid = p0.pid
  priority : st.proc.priority = p0.priority
  vmap : ∀ v, vidx cfg st.proc v =
    if p0.bp / cfg.PAGE_SIZE ≤ v ∧ v < p0.bp / cfg.PAGE_SIZE + fs.length then v
    else vidx cfg p0 v
  pmap : ∀ v, pidx cfg st.proc v =
    if p0.bp / cfg.PAGE_SIZE ≤ v ∧ v < p0.bp / cfg.PAGE_SIZE + fs.length then
      (fs[v - p0.bp / cfg.PAGE_SIZE]?).getD 0
    else pidx cfg p0 v

/-- Effect of a call of `alloc_mem` that took the allocation branch and
returned: `fs` lists the claimed frames in the order of the scan, `n` is the page
count, `p`, `m` are the process and the globals before the call and `ret`, `p1`,
`m1` the returned address, the process and the globals after it. -/
structure AllocPost (cfg : Config) (n : Nat) (p : pcb_t) (m : Mem) (ret : Nat)
    (p1 : pcb_t) (m1 : Mem) (fs : List Nat) : Prop where
  len : fs.length = n
  pos : 0 < n
  ret_eq : ret = p.bp
  bp : p1.bp = p.bp + n * cfg.PAGE_SIZE
  bp_le : p.bp + n * cfg.PAGE_SIZE ≤ max_virtual_addr cfg
  pid : p1.pid = p.pid
  priority : p1.priority = p.priority
  lt_num : ∀ f ∈ fs, f < cfg.NUM_PAGES
  was_free : ∀ f ∈ fs, (m._mem_stat f).proc = 0
  lowest : ∀ f g, g ∈ fs → f < g → (m._mem_stat f).proc = 0 → f ∈ fs
  sorted : fs.Pairwise (fun a b => a < b)
  stat : ∀ (j f : Nat), fs[j]? = some f → m1._mem_stat f =
    ⟨p.pid, (j : Int),
      match fs[j + 1]? with
      | some g => (g : Int)
      | none => -1⟩
  other : ∀ f, f ∉ fs → m1._mem_stat f = m._mem_stat f
  ram : m1._ram = m._ram
  ffl_le : n ≤ m.free_frame_left
  ffl : m1.free_frame_left = m.free_frame_left - n
  vmap : ∀ v, vidx cfg p1 v =
    if p.bp / cfg.PAGE_SIZE ≤ v ∧ v < p.bp / cfg.PAGE_SIZE + n then v else vidx cfg p v
  pmap : ∀ v, pidx cfg p1 v =
    if p.bp / cfg.PAGE_SIZE ≤ v ∧ v < p.bp / cfg.PAGE_SIZE + n then
      (fs[v - p.bp / cfg.PAGE_SIZE]?).getD 0
    else pidx cfg p v

/-- Preconditon of a walk of `free_mem` from the page-aligned address `a` along
the chain `fs`: the pages from `a` on are mapped to the frames of `fs` in order,
and the `next` fields of these frames link them and end with -1. -/
def ChainAt (cfg : Config) (a : Nat) (fs : List Nat) (p : pcb_t) (m : Mem) : Prop :=
  ∀ (j f : Nat), fs[j]? = some f →
    vidx cfg p (a / cfg.PAGE_SIZE + j) ≠ 0 ∧
    pidx cfg p (a / cfg.PAGE_SIZE + j) = f ∧
    f < cfg.NUM_PAGES ∧
    (m._mem_stat f).next =
      match fs[j + 1]? with
      | some g => (g : Int)
      | none => -1

/-- Effect of a call of `free_mem` that walked the chain `fs` from address `a`
and returned: `p`, `m` are the process and the globals before the call, `p1`,
`m1` after it. -/
structure FreePost (cfg : Config) (a : Nat) (fs : List Nat) (p : pcb_t) (m : Mem)
    (p1 : pcb_t) (m1 : Mem) : Prop where
  bp : p1.bp = p.bp
  pid : p1.pid = p.pid
  priority : p1.priority = p.priority
  ram : m1._ram = m._ram
  ffl : m1.free_frame_left = m.free_frame_left
  stat : ∀ f, f ∈ fs →
    m1._mem_stat f = ⟨0, (m._mem_stat f).index, (m._mem_stat f).next⟩
  other : ∀ f, f ∉ fs → m1._mem_stat f = m._mem_stat f
  vmap : ∀ v, vidx cfg p1 v =
    if a / cfg.PAGE_SIZE ≤ v ∧ v < a / cfg.PAGE_SIZE + fs.length then 0 else vidx cfg p v
  pmap : ∀ v, pidx cfg p1 v = pidx cfg p v

/-! ## The machine: globals, processes and the allocations made so far -/

/-- Record of one successful allocation: the process slot, the returned address
and the frames its pages were given, in page order (no frame for a request that
was counted as 0 pages). -/
structure alloc_rec where
  slot : Nat
  addr : Nat
  frames : List Nat
deriving DecidableEq, Repr

/-- State of the simulated machine.  `procs k` is the control block of the
process in slot `k`.  `hist` and `live` are bookkeeping of the proofs, not of the
program: every successful allocation so far (newest first), and those among
them that have not been freed. -/
structure World where
  mem : Mem
  procs : Nat → pcb_t
  hist : List alloc_rec
  live : List alloc_rec

/-- Frames that the page table of `p` records for the `n` pages from address `a`. -/
def frames_of (cfg : Config) (p : pcb_t) (a n : Nat) : List Nat :=
  (List.range n).map (fun j => pidx cfg p (a / cfg.PAGE_SIZE + j))

/-- Machine states right after `init_mem`: no allocation yet; the processes have
pairwise distinct non-zero pids, segment tables as `init_segment_table` leaves
them, and a page-aligned break pointer inside the address space (0 included). -/
structure Boot (cfg : Config) (w : World) : Prop where
  mem : w.mem = init_mem cfg (start_mem cfg)
  hist : w.hist = []
  live : w.live = []
  pid_ne : ∀ k, (w.procs k).pid ≠ 0
  pid_inj : ∀ k k1, (w.procs k).pid = (w.procs k1).pid → k = k1
  seg : ∀ k, (w.procs k).seg_table = init_segment_table cfg ⟨fun _ => none, 0⟩
  bp_al : ∀ k, (w.procs k).bp % cfg.PAGE_SIZE = 0
  bp_le : ∀ k, (w.procs k).bp ≤ max_virtual_addr cfg

/-- One call into the memory manager.  Every call that returns is a step,
whatever value an unassigned local holds. -/
inductive Step (cfg : Config) : World → World → Prop where
  /-- `alloc_mem` by the process in slot `k` that takes the allocation branch. -/
  | alloc_ok (w : World) (k junk size ret : Nat) (p1 : pcb_t) (m1 : Mem) :
      mem_avail cfg size (w.procs k) w.mem = true →
      alloc_mem cfg junk size (w.procs k) w.mem = .ok (ret, p1, m1) →
      Step cfg w ⟨m1, Function.update w.procs k p1,
        ⟨k, ret, frames_of cfg p1 ret (num_pages_of cfg size)⟩ :: w.hist,
        ⟨k, ret, frames_of cfg p1 ret (num_pages_of cfg size)⟩ :: w.live⟩
  /-- `alloc_mem` by the process in slot `k` that is refused. -/
  | alloc_fail (w : World) (k junk size ret : Nat) (p1 : pcb_t) (m1 : Mem) :
      mem_avail cfg size (w.procs k) w.mem = false →
      alloc_mem cfg junk size (w.procs k) w.mem = .ok (ret, p1, m1) →
      Step cfg w ⟨m1, Function.update w.procs k p1, w.hist, w.live⟩
  /-- `free_mem` on the start address of a live allocation, by its owner. -/
  | free (w : World) (r : alloc_rec) (junk : Nat → Nat) (fuel ret : Nat) (p1 : pcb_t)
      (m1 : Mem) :
      r ∈ w.live →
      free_mem cfg fuel junk r.addr (w.procs r.slot) w.mem = .ok (ret, p1, m1) →
      Step cfg w ⟨m1, Function.update w.procs r.slot p1, w.hist, w.live.erase r⟩
  /-- `write_mem` by the process in slot `k`. -/
  | write (w : World) (k address data : Nat) :
      Step cfg w ⟨(write_mem cfg address (w.procs k) data w.mem).2, w.procs, w.hist, w.live⟩

/-- Machine states reachable from `init_mem` by calls of `alloc_mem`, `free_mem`
(on live allocations) and `write_mem`. -/
inductive Reach (cfg : Config) : World → Prop where
  | boot (w : World) : Boot cfg w → Reach cfg w
  | step (w w1 : World) : Reach cfg w → Step cfg w w1 → Reach cfg w1

/-- The steps in which `free_mem` is called only on a live allocation that has at
least one page and does not start at address 0.  Requests of any size are
steps, also those counted as 0 pages. -/
inductive TameStep (cfg : Config) : World → World → Prop where
  | alloc_ok (w : World) (k junk size ret : Nat) (p1 : pcb_t) (m1 : Mem) :
      mem_avail cfg size (w.procs k) w.mem = true →
      alloc_mem cfg junk size (w.procs k) w.mem = .ok (ret, p1, m1) →
      TameStep cfg w ⟨m1, Function.update w.procs k p1,
        ⟨k, ret, frames_of cfg p1 ret (num_pages_of cfg size)⟩ :: w.hist,
        ⟨k, ret, frames_of cfg p1 ret (num_pages_of cfg size)⟩ :: w.live⟩
  | alloc_fail (w : World) (k junk size ret : Nat) (p1 : pcb_t) (m1 : Mem) :
      mem_avail cfg size (w.procs k) w.mem = false →
      alloc_mem cfg junk size (w.procs k) w.mem = .ok (ret, p1, m1) →
      TameStep cfg w ⟨m1, Function.update w.procs k p1, w.hist, w.live⟩
  | free (w : World) (r : alloc_rec) (junk : Nat → Nat) (fuel ret : Nat) (p1 : pcb_t)
      (m1 : Mem) :
      r ∈ w.live → r.addr ≠ 0 → r.frames ≠ [] →
      free_mem cfg fuel junk r.addr (w.procs r.slot) w.mem = .ok (ret, p1, m1) →
      TameStep cfg w ⟨m1, Function.update w.procs r.slot p1, w.hist, w.live.erase r⟩
  | write (w : World) (k address data : Nat) :
      TameStep cfg w
        ⟨(write_mem cfg address (w.procs k) data w.mem).2, w.procs, w.hist, w.live⟩

/-- Machine states reachable from `init_mem` by steps of `TameStep`. -/
inductive TameReach (cfg : Config) : World → Prop where
  | boot (w : World) : Boot cfg w → TameReach cfg w
  | step (w w1 : World) : TameReach cfg w → TameStep cfg w w1 → TameReach cfg w1

/-- The steps in which no request that takes the allocation branch is counted as
0 pages and `free_mem` is called only on a live allocation that does not start
at address 0; every live allocation then has at least one page. -/
inductive CleanStep (cfg : Config) : World → World → Prop where
  | alloc_ok (w : World) (k junk size ret : Nat) (p1 : pcb_t) (m1 : Mem) :
      1 ≤ num_pages_of cfg size →
      mem_avail cfg size (w.procs k) w.mem = true →
      alloc_mem cfg junk size (w.procs k) w.mem = .ok (ret, p1, m1) →
      CleanStep cfg w ⟨m1, Function.update w.procs k p1,
        ⟨k, ret, frames_of cfg p1 ret (num_pages_of cfg size)⟩ :: w.hist,
        ⟨k, ret, frames_of cfg p1 ret (num_pages_of cfg size)⟩ :: w.live⟩
  | alloc_fail (w : World) (k junk size ret : Nat) (p1 : pcb_t) (m1 : Mem) :
      mem_avail cfg size (w.procs k) w.mem = false →
      alloc_mem cfg junk size (w.procs k) w.mem = .ok (ret, p1, m1) →
      CleanStep cfg w ⟨m1, Function.update w.procs k p1, w.hist, w.live⟩
  | free (w : World) (r : alloc_rec) (junk : Nat → Nat) (fuel ret : Nat) (p1 : pcb_t)
      (m1 : Mem) :
      r ∈ w.live → r.addr ≠ 0 →
      free_mem cfg fuel junk r.addr (w.procs r.slot) w.mem = .ok (ret, p1, m1) →
      CleanStep cfg w ⟨m1, Function.update w.procs r.slot p1, w.hist, w.live.erase r⟩
  | write (w : World) (k address data : Nat) :
      CleanStep cfg w
        ⟨(write_mem cfg address (w.procs k) data w.mem).2, w.procs, w.hist, w.live⟩

/-- Machine states reachable from `init_mem` by steps of `CleanStep`. -/
inductive CleanReach (cfg : Config) : World → Prop where
  | boot (w : World) : Boot cfg w → CleanReach cfg w
  | step (w w1 : World) : CleanReach cfg w → CleanStep cfg w w1 → CleanReach cfg w1

/-- Number of frame records whose owner field is non-zero. -/
def owned_count (cfg : Config) (m : Mem) : Nat :=
  ((List.range cfg.NUM_PAGES).filter (fun f => decide ((m._mem_stat f).proc ≠ 0))).length

/-- Number of frame records whose owner field is zero. -/
def free_count (cfg : Config) (m : Mem) : Nat :=
  ((List.range cfg.NUM_PAGES).filter (fun f => decide ((m._mem_stat f).proc = 0))).length

/-- Invariant of all reachable machine states, whatever values the unassigned
locals held: break pointers are page-aligned and inside the address space, the
free counter is at most the number of frame records with owner 0, a page-table
row in use stores its own page number and lies below the break pointer, and the
recorded allocations of one process lie one after the other below its break
pointer. -/
structure BaseInv (cfg : Config) (w : World) : Prop where
  pid_ne : ∀ k, (w.procs k).pid ≠ 0
  pid_inj : ∀ k k1, (w.procs k).pid = (w.procs k1).pid → k = k1
  bp_al : ∀ k, (w.procs k).bp % cfg.PAGE_SIZE = 0
  bp_le : ∀ k, (w.procs k).bp ≤ max_virtual_addr cfg
  ffl_free : w.mem.free_frame_left ≤ free_count cfg w.mem
  rows : ∀ k v, vidx cfg (w.procs k) v ≠ 0 →
    vidx cfg (w.procs k) v = v ∧ v < (w.procs k).bp / cfg.PAGE_SIZE
  hist_al : ∀ r ∈ w.hist, r.addr % cfg.PAGE_SIZE = 0
  hist_bp : ∀ r ∈ w.hist,
    r.addr + r.frames.length * cfg.PAGE_SIZE ≤ (w.procs r.slot).bp
  hist_sep : w.hist.Pairwise (fun r r1 => r.slot = r1.slot →
    r1.addr + r1.frames.length * cfg.PAGE_SIZE ≤ r.addr)
  live_sub : w.live.Sublist w.hist

/-- Invariant of the machine states reachable by steps of `CleanStep`. -/
structure Inv (cfg : Config) (w : World) : Prop where
  pid_ne : ∀ k, (w.procs k).pid ≠ 0
  pid_inj : ∀ k k1, (w.procs k).pid = (w.procs k1).pid → k = k1
  bp_al : ∀ k, (w.procs k).bp % cfg.PAGE_SIZE = 0
  bp_le : ∀ k, (w.procs k).bp ≤ max_virtual_addr cfg
  ffl_le : w.mem.free_frame_left ≤ cfg.NUM_PAGES
  hist_al : ∀ r ∈ w.hist, r.addr % cfg.PAGE_SIZE = 0
  hist_ne : ∀ r ∈ w.hist, r.frames ≠ []
  hist_bp : ∀ r ∈ w.hist,
    r.addr + r.frames.length * cfg.PAGE_SIZE ≤ (w.procs r.slot).bp
  hist_disj : ∀ r ∈ w.hist, ∀ r1 ∈ w.hist, r ≠ r1 → r.slot = r1.slot →
    r.addr + r.frames.length * cfg.PAGE_SIZE ≤ r1.addr ∨
    r1.addr + r1.frames.length * cfg.PAGE_SIZE ≤ r.addr
  hist_nodup : w.hist.Nodup
  live_sub : ∀ r ∈ w.live, r ∈ w.hist
  live_nodup : w.live.Nodup
  mapped : ∀ k v, vidx cfg (w.procs k) v ≠ 0 →
    vidx cfg (w.procs k) v = v ∧
    ∃ r ∈ w.live, r.slot = k ∧
      ∃ j, r.frames[j]? = some (pidx cfg (w.procs k) v) ∧ v = r.addr / cfg.PAGE_SIZE + j
  live_stat : ∀ r ∈ w.live, ∀ (j f : Nat), r.frames[j]? = some f →
    f < cfg.NUM_PAGES ∧
    w.mem._mem_stat f =
      ⟨(w.procs r.slot).pid, (j : Int),
        match r.frames[j + 1]? with
        | some g => (g : Int)
        | none => -1⟩
  live_map : ∀ r ∈ w.live, ∀ (j f : Nat), r.frames[j]? = some f →
    r.addr / cfg.PAGE_SIZE + j ≠ 0 →
    vidx cfg (w.procs r.slot) (r.addr / cfg.PAGE_SIZE + j) = r.addr / cfg.PAGE_SIZE + j ∧
    pidx cfg (w.procs r.slot) (r.addr / cfg.PAGE_SIZE + j) = f
  live_disj : ∀ r ∈ w.live, ∀ r1 ∈ w.live, ∀ (j j1 f : Nat),
    r.frames[j]? = some f → r1.frames[j1]? = some f → r = r1 ∧ j = j1
  owned : ∀ f, f < cfg.NUM_PAGES → (w.mem._mem_stat f).proc ≠ 0 →
    ∃ r ∈ w.live, f ∈ r.frames

/-! ## Concrete runs -/

/-- A freshly created process: segment table as `init_segment_table` leaves it. -/
def boot_pcb (cfg : Config) (pid priority bp : Nat) : pcb_t :=
  ⟨pid, priority, bp, init_segment_table cfg ⟨fun _ => none, 0⟩⟩

/-- The machine right after `init_mem`, with process `k + 1` in slot `k` and every
break pointer at `bp0`. -/
def boot_world (cfg : Config) (bp0 : Nat) : World :=
  ⟨init_mem cfg (start_mem cfg), fun k => boot_pcb cfg (k + 1) 0 bp0, [], []⟩

/-- The machine after the process in slot `k` calls `alloc_mem(size)`, the
unassigned local holding 0; unchanged when the call does not return. -/
def World.alloc (cfg : Config) (w : World) (k size : Nat) : World :=
  match alloc_mem cfg 0 size (w.procs k) w.mem with
  | .ok (ret, p1, m1) =>
    if mem_avail cfg size (w.procs k) w.mem then
      ⟨m1, Function.update w.procs k p1,
        ⟨k, ret, frames_of cfg p1 ret (num_pages_of cfg size)⟩ :: w.hist,
        ⟨k, ret, frames_of cfg p1 ret (num_pages_of cfg size)⟩ :: w.live⟩
    else
      ⟨m1, Function.update w.procs k p1, w.hist, w.live⟩
  | _ => w

/-- The machine after the owner of the allocation `r` calls `free_mem(r.addr)`,
the loop being given `fuel` rounds and the unassigned local holding 0 in every
round; unchanged when the call does not return. -/
def World.free (cfg : Config) (w : World) (r : alloc_rec) (fuel : Nat) : World :=
  match free_mem cfg fuel (fun _ => 0) r.addr (w.procs r.slot) w.mem with
  | .ok (_, p1, m1) => ⟨m1, Function.update w.procs r.slot p1, w.hist, w.live.erase r⟩
  | _ => w

/-- Scenario on the small layout: process 1 allocates 256 bytes. -/
def tiny1 : World := (boot_world tinyConfig 0).alloc tinyConfig 0 256

/-- Scenario on the small layout: process 1 allocates 512 more bytes. -/
def tiny2 : World := tiny1.alloc tinyConfig 0 512

/-- Scenario on the small layout: process 2 allocates 256 bytes; memory is full. -/
def tiny3 : World := tiny2.alloc tinyConfig 1 256

/-- Scenario on the small layout: process 1 frees its second allocation. -/
def tiny4 : World := tiny3.free tinyConfig ⟨0, 256, [1, 2]⟩ 2

/-- Scenario on the standard layout: process 1 allocates one byte. -/
def std1 : World := (boot_world stdConfig 0).alloc stdConfig 0 1

/-- Scenario on the standard layout: process 1 allocates one more byte. -/
def std2 : World := std1.alloc stdConfig 0 1

/-- Scenario on the standard layout: process 2 allocates one byte. -/
def std3 : World := std2.alloc stdConfig 1 1

/-- Scenario on the standard layout: process 2 allocates one more byte. -/
def std4 : World := std3.alloc stdConfig 1 1

/-- Scenario on the standard layout: a fresh process allocates exactly one page
worth of bytes. -/
def std_page : World := (boot_world stdConfig 0).alloc stdConfig 0 1024

/-- Page count in the words of the specification: the ceiling of
`size / PAGE_SIZE`. -/
def ceil_pages (cfg : Config) (size : Nat) : Nat :=
  (size + cfg.PAGE_SIZE - 1) / cfg.PAGE_SIZE

/-- The reading of the chain invariant of the frame table in the words of the
specification: the frames whose owner is `pid` are exactly the members of one
list `chain` without repetition, the record of the `j`-th member has `index = j` and
its `next` is the following member, or -1 for the last. -/
def OneChain (cfg : Config) (m : Mem) (pid : Nat) : Prop :=
  ∃ chain : List Nat,
    (∀ f, f < cfg.NUM_PAGES → (f ∈ chain ↔ (m._mem_stat f).proc = pid)) ∧
    chain.Nodup ∧
    ∀ (j f : Nat), chain[j]? = some f →
      (m._mem_stat f).index = (j : Int) ∧
      (m._mem_stat f).next =
        match chain[j + 1]? with
        | some g => (g : Int)
        | none => -1

/-- A process control block as the loader leaves it: empty segment table,
break pointer `bp`. -/
def new_pcb (pid priority bp : Nat) : pcb_t :=
  ⟨pid, priority, bp, ⟨fun _ => none, 0⟩⟩

/-- The empty ready queue. -/
def empty_queue : queue_t := ⟨fun _ => new_pcb 0 0 0, 0⟩

/-- Run `enqueue` and keep the old queue if the model gave no result. -/
def enqueue_run (cfg : Config) (q : queue_t) (p : pcb_t) : queue_t :=
  (enqueue cfg q p).getD q

/-- First queue of the scenario of the specification: handle 7 (priority 5). -/
def demo_queue1 : queue_t := enqueue_run tinyConfig empty_queue (new_pcb 7 5 0)

/-- Second queue of the scenario: handle 9 (priority 9) added. -/
def demo_queue2 : queue_t := enqueue_run tinyConfig demo_queue1 (new_pcb 9 9 0)

/-- Third queue of the scenario: handle 3 (priority 1) added. -/
def demo_queue : queue_t := enqueue_run tinyConfig demo_queue2 (new_pcb 3 1 0)

/-- A three-slot queue whose root (handle 1, priority 1) has two children of
equal priority 5: handle 2 on the left, handle 3 on the right. -/
def tie_queue : queue_t :=
  ⟨fun i => if i = 0 then new_pcb 1 1 0 else if i = 1 then new_pcb 2 5 0 else new_pcb 3 5 0, 3⟩

/-- A four-slot heap: handle 4 (priority 9) at the root, handles 2 and 3 (both
priority 5) below it and handle 1 (priority 1) in the last slot. -/
def tie_heap : queue_t :=
  ⟨fun i => if i = 0 then new_pcb 4 9 0 else if i = 1 then new_pcb 2 5 0
    else if i = 2 then new_pcb 3 5 0 else new_pcb 1 1 0, 4⟩

/-- The handles in the occupied slots `proc[0..size-1]`, in slot order. -/
def queue_handles (q : queue_t) : List pcb_t :=
  (List.range q.size).map q.proc

/-- The frames with owner 0, in ascending order of their index. -/
def free_frames (cfg : Config) (m : Mem) : List Nat :=
  (List.range cfg.NUM_PAGES).filter (fun f => decide ((m._mem_stat f).proc = 0))

/-- The `n` lowest-indexed frames with owner 0. -/
def first_free (cfg : Config) (m : Mem) (n : Nat) : List Nat :=
  (free_frames cfg m).take n

/-- Scenario on the standard layout: process 2 allocates one byte (address 0,
frame 0). -/
def za1 : World := (boot_world stdConfig 0).alloc stdConfig 1 1

/-- Scenario on the standard layout: process 1 then allocates one byte
(address 0, frame 1). -/
def za2 : World := za1.alloc stdConfig 0 1

/-- Scenario on the standard layout: process 1 then calls `free_mem(0)` on its
allocation; `translate` fails on virtual page 0 and the unassigned
`physical_addr` holds 0. -/
def za3 : World := za2.free stdConfig ⟨0, 0, [1]⟩ 1

/-- Second scenario on the standard layout: process 2 allocates one byte
(address 0, frame 0) and calls `free_mem(0)`, the unassigned `physical_addr`
holding 0. -/
def zf2 : World := za1.free stdConfig ⟨1, 0, [0]⟩ 1

/-- Second scenario: process 2 allocates one byte again (address 1024,
frame 0). -/
def zf3 : World := zf2.alloc stdConfig 1 1

/-- Second scenario: process 1 allocates one byte (address 0, frame 1). -/
def zf4 : World := zf3.alloc stdConfig 0 1

/-- Second scenario: process 1 calls `free_mem(0)` on its allocation, the
unassigned `physical_addr` holding 0. -/
def zf5 : World := zf4.free stdConfig ⟨0, 0, [1]⟩ 1

/-- Second scenario, other ending: process 1 allocates 1024 bytes, which are
counted as two pages (address 1024, frames 0 and 2). -/
def zf7 : World := zf5.alloc stdConfig 0 1024

/-- Third scenario, on the standard layout with every break pointer at 1024
at the start: process 1 allocates 1024 bytes, which are counted as two pages
(address 1024, frames 0 and 1). -/
def zc1 : World := (boot_world stdConfig 1024).alloc stdConfig 0 1024

/-- Third scenario: process 1 then asks for 5 bytes, which are counted as 0
pages; the unassigned `last_frame_index` holds 0. -/
def zc2 : World := zc1.alloc stdConfig 0 5

/-- Third scenario: process 1 then frees its allocation at address 1024. -/
def zc3 : World := zc2.free stdConfig ⟨0, 1024, [0, 1]⟩ 1

theorem swap_elem_apply (a : Nat → pcb_t) (i j k : Nat) :
    swap_elem a i j k = if k = j then a i else if k = i then a j else a k := by
  unfold swap_elem
  by_cases h1 : k = j
  · subst h1; simp
  · by_cases h2 : k = i
    · subst h2; simp [Function.update_noteq h1, h1]
    · simp [Function.update_noteq h1, Function.update_noteq h2, h1, h2]

theorem sift_up_loop_total (fuel : Nat) :
    ∀ (q : queue_t) (ci : Nat), ci < fuel → ∃ q1, sift_up_loop fuel q ci = some q1 := by
  induction fuel with
  | zero => intro q ci h; omega
  | succ n ih =>
    intro q ci h
    unfold sift_up_loop
    by_cases hc : ci > 0
    · simp only [hc, if_true]
      by_cases hs : compare_pcb_smaller (q.proc (get_parent_index ci)) (q.proc ci) = true
      · simp only [hs, if_true]
        apply ih
        unfold get_parent_index
        have : ¬ ci = 0 := by omega
        simp only [this, if_false]
        omega
      · simp only [hs]
        exact ⟨q, rfl⟩
    · simp only [hc, if_false]
      exact ⟨q, rfl⟩

theorem sift_up_loop_heap (fuel : Nat) :
    ∀ (q : queue_t) (ci : Nat) (q1 : queue_t), up_inv q ci →
      sift_up_loop fuel q ci = some q1 → max_heap q1 ∧ q1.size = q.size := by
  induction fuel with
  | zero => intro q ci q1 _ h; simp [sift_up_loop] at h
  | succ n ih =>
    intro q ci q1 hinv h
    obtain ⟨hA, hB⟩ := hinv
    unfold sift_up_loop at h
    by_cases hc : ci > 0
    · simp only [hc, if_true] at h
      have hpar : get_parent_index ci = (ci - 1) / 2 := by
        unfold get_parent_index
        have : ¬ ci = 0 := by omega
        simp only [this, if_false]
      rw [hpar] at h
      by_cases hs : compare_pcb_smaller (q.proc ((ci - 1) / 2)) (q.proc ci) = true
      · simp only [hs, if_true] at h
        have hlt : (q.proc ((ci - 1) / 2)).priority < (q.proc ci).priority := by
          simpa [compare_pcb_smaller] using hs
        have hres := ih _ _ q1 ?_ h
        · exact hres
        · constructor
          · intro i hi0 hisz hine
            simp only [swap_elem_apply]
            have hsz : i < q.size := hisz
            by_cases e1 : i = ci
            · subst e1
              have e2 : ¬ (i - 1) / 2 = i := by omega
              simp only [if_true, e2, if_false]
              omega
            · have e3 : ¬ (i - 1) / 2 = (ci - 1) / 2 ∨ (i - 1) / 2 = (ci - 1) / 2 := by tauto
              simp only [e1, hine, if_false]
              have hi := hA i hi0 hsz e1
              by_cases e4 : (i - 1) / 2 = ci
              · simp only [e4, if_true]
                exact hB i hi0 hsz e4 hc
              · simp only [e4, if_false]
                by_cases e5 : (i - 1) / 2 = (ci - 1) / 2
                · simp only [e5, if_true]
                  rw [e5] at hi
                  omega
                · simp only [e5, if_false]
                  exact hi
          · intro c hc0 hcsz hcp hp0
            simp only [swap_elem_apply]
            have hsz : c < q.size := hcsz
            have e1 : ¬ ((ci - 1) / 2 - 1) / 2 = ci := by omega
            have e2 : ¬ ((ci - 1) / 2 - 1) / 2 = (ci - 1) / 2 := by omega
            have e3 : ¬ c = (ci - 1) / 2 := by omega
            simp only [e1, e2, e3, if_false]
            have hpp := hA ((ci - 1) / 2) hp0 (by omega) (by omega)
            by_cases e4 : c = ci
            · simp only [e4, if_true]
              exact hpp
            · simp only [e4, if_false]
              have := hA c hc0 hsz e4
              rw [hcp] at this
              omega
      · simp only [hs] at h
        have hge : (q.proc ci).priority ≤ (q.proc ((ci - 1) / 2)).priority := by
          simpa [compare_pcb_smaller] using hs
        injection h with h
        subst h
        refine ⟨?_, rfl⟩
        intro i hi0 hisz
        by_cases e1 : i = ci
        · subst e1; exact hge
        · exact hA i hi0 hisz e1
    · simp only [hc, if_false] at h
      injection h with h
      subst h
      refine ⟨?_, rfl⟩
      intro i hi0 hisz
      exact hA i hi0 hisz (by omega)

theorem sift_down_loop_total (fuel : Nat) :
    ∀ (q : queue_t) (ci : Nat), ci ≤ q.size → q.size < fuel + ci →
      ∃ q1, sift_down_loop fuel q ci = some q1 := by
  induction fuel with
  | zero => intro q ci h1 h2; omega
  | succ n ih =>
    intro q ci h1 h2
    unfold sift_down_loop
    simp only [get_left_child_index, get_right_child_index]
    split_ifs
    all_goals first
      | exact ⟨_, rfl⟩
      | (apply ih
         · simp only []; omega
         · simp only []; omega)

theorem sift_down_loop_heap (fuel : Nat) :
    ∀ (q : queue_t) (ci : Nat) (q1 : queue_t), down_inv q ci →
      sift_down_loop fuel q ci = some q1 → max_heap q1 ∧ q1.size = q.size := by
  induction fuel with
  | zero => intro q ci q1 _ h; simp [sift_down_loop] at h
  | succ n ih =>
    intro q ci q1 hinv h
    obtain ⟨hA, hB⟩ := hinv
    unfold sift_down_loop at h
    simp only [get_left_child_index, get_right_child_index, compare_pcb_smaller,
      decide_eq_true_eq, ge_iff_le] at h
    by_cases hc : ci < q.size
    swap
    · simp only [hc, if_false] at h
      injection h with h; subst h
      exact ⟨fun i hi0 hisz => hA i hi0 hisz (by omega), rfl⟩
    simp only [hc, if_true] at h
    by_cases hl : q.size ≤ 2 * ci + 1
    · simp only [hl, if_true] at h
      injection h with h; subst h
      exact ⟨fun i hi0 hisz => hA i hi0 hisz (by omega), rfl⟩
    simp only [hl, if_false] at h
    by_cases hr : q.size ≤ 2 * ci + 2
    · simp only [hr, if_true] at h
      by_cases hs : (q.proc ci).priority < (q.proc (2 * ci + 1)).priority
      · simp only [hs, if_true] at h
        injection h with h; subst h
        refine ⟨?_, rfl⟩
        intro i hi0 hisz
        have hsz : i < q.size := hisz
        simp only [swap_elem_apply]
        by_cases e1 : i = 2 * ci + 1
        · subst e1
          have e2 : ¬ (2 * ci + 1 - 1) / 2 = 2 * ci + 1 := by omega
          have e3 : (2 * ci + 1 - 1) / 2 = ci := by omega
          have e0 : ¬ ci = 2 * ci + 1 := by omega
          simp only [e2, e3, e0, if_true, if_false]
          omega
        · have e2 : ¬ (i - 1) / 2 = 2 * ci + 1 := by omega
          have e3 : ¬ (i - 1) / 2 = ci := by omega
          simp only [e1, e2, e3, if_false]
          by_cases e4 : i = ci
          · simp only [e4, if_true]
            have := hB (2 * ci + 1) (by omega) (by omega) (by omega) (by omega)
            rw [e4] at e3
            exact this
          · simp only [e4, if_false]
            exact hA i hi0 hsz e3
      · simp only [hs, if_false] at h
        injection h with h; subst h
        refine ⟨?_, rfl⟩
        intro i hi0 hisz
        by_cases e3 : (i - 1) / 2 = ci
        · have e1 : i = 2 * ci + 1 := by omega
          rw [e3, e1]
          omega
        · exact hA i hi0 hisz e3
    simp only [hr, if_false] at h
    -- both children exist
    generalize hmc : (if (q.proc (2 * ci + 1)).priority < (q.proc (2 * ci + 2)).priority
      then 2 * ci + 2 else 2 * ci + 1) = mc at h
    have hmc_cases : (mc = 2 * ci + 2 ∧
          (q.proc (2 * ci + 1)).priority < (q.proc (2 * ci + 2)).priority) ∨
        (mc = 2 * ci + 1 ∧
          (q.proc (2 * ci + 2)).priority ≤ (q.proc (2 * ci + 1)).priority) := by
      by_cases hlr : (q.proc (2 * ci + 1)).priority < (q.proc (2 * ci + 2)).priority
      · left; simp only [hlr, if_true] at hmc; exact ⟨hmc.symm, hlr⟩
      · right; simp only [hlr, if_false] at hmc; exact ⟨hmc.symm, by omega⟩
    have hmax1 : (q.proc (2 * ci + 1)).priority ≤ (q.proc mc).priority := by
      rcases hmc_cases with ⟨e, hh⟩ | ⟨e, hh⟩ <;> subst e <;> omega
    have hmax2 : (q.proc (2 * ci + 2)).priority ≤ (q.proc mc).priority := by
      rcases hmc_cases with ⟨e, hh⟩ | ⟨e, hh⟩ <;> subst e <;> omega
    have hmcr : mc = 2 * ci + 1 ∨ mc = 2 * ci + 2 := by
      rcases hmc_cases with ⟨e, _⟩ | ⟨e, _⟩ <;> omega
    by_cases hs : (q.proc ci).priority < (q.proc mc).priority
    · simp only [hs, if_true] at h
      refine ih ⟨swap_elem q.proc ci mc, q.size⟩ mc q1 ?_ h
      constructor
      · intro i hi0 hisz hpar
        have hsz : i < q.size := hisz
        simp only [swap_elem_apply]
        by_cases e1 : i = mc
        · subst e1
          have e2 : ¬ (i - 1) / 2 = i := by omega
          have e3 : (i - 1) / 2 = ci := by omega
          have e0 : ¬ ci = i := by omega
          simp only [e2, e3, e0, if_true, if_false]
          omega
        · simp only [e1, if_false, hpar]
          by_cases e4 : i = ci
          · have e5 : ¬ (i - 1) / 2 = ci := by omega
            simp only [e4, if_true]
            rw [e4] at e5
            simp only [e5, if_false]
            exact hB mc (by omega) (by omega) (by omega) (by omega)
          · simp only [e4, if_false]
            by_cases e5 : (i - 1) / 2 = ci
            · simp only [e5, if_true]
              have : i = 2 * ci + 1 ∨ i = 2 * ci + 2 := by omega
              rcases this with e | e <;> rw [e] <;> assumption
            · simp only [e5, if_false]
              exact hA i hi0 hsz e5
      · intro c hc0 hcsz hcp hp0
        have hsz : c < q.size := hcsz
        simp only [swap_elem_apply]
        have e1 : ¬ c = mc := by omega
        have e2 : ¬ c = ci := by omega
        have e3 : ¬ (mc - 1) / 2 = mc := by omega
        have e4 : (mc - 1) / 2 = ci := by omega
        have e0 : ¬ ci = mc := by omega
        simp only [e1, e2, e3, e4, e0, if_true, if_false]
        have := hA c hc0 hsz (by omega)
        rw [hcp] at this
        exact this
    · simp only [hs, if_false] at h
      injection h with h; subst h
      refine ⟨?_, rfl⟩
      intro i hi0 hisz
      by_cases e3 : (i - 1) / 2 = ci
      · have : i = 2 * ci + 1 ∨ i = 2 * ci + 2 := by omega
        rw [e3]
        rcases this with e | e <;> rw [e] <;> omega
      · exact hA i hi0 hisz e3

theorem sift_down_loop_forall (P : pcb_t → Prop) (fuel : Nat) :
    ∀ (q : queue_t) (ci : Nat) (q1 : queue_t), (∀ i, i < q.size → P (q.proc i)) →
      sift_down_loop fuel q ci = some q1 → ∀ i, i < q1.size → P (q1.proc i) := by
  induction fuel with
  | zero => intro q ci q1 _ h; simp [sift_down_loop] at h
  | succ n ih =>
    intro q ci q1 hP h
    unfold sift_down_loop at h
    simp only [get_left_child_index, get_right_child_index, ge_iff_le] at h
    have hswap : ∀ a b, a < q.size → b < q.size →
        ∀ i, i < q.size → P (swap_elem q.proc a b i) := by
      intro a b ha hb i hi
      rw [swap_elem_apply]
      split_ifs
      · exact hP a ha
      · exact hP b hb
      · exact hP i hi
    split_ifs at h
    all_goals first
      | (injection h with h; subst h; exact hP)
      | (injection h with h; subst h; exact hswap _ _ (by omega) (by omega))
      | (refine ih ⟨_, q.size⟩ _ q1 ?_ h; exact hswap _ _ (by omega) (by omega))

theorem max_heap_root_max (q : queue_t) (h : max_heap q) :
    ∀ i, i < q.size → (q.proc i).priority ≤ (q.proc 0).priority := by
  intro i
  induction i using Nat.strong_induction_on with
  | _ i ih =>
    intro hi
    by_cases h0 : i = 0
    · subst h0; exact le_refl _
    · have h1 := h i (by omega) hi
      have h2 := ih ((i - 1) / 2) (by omega) (by omega)
      omega

theorem enqueue_total (cfg : Config) (q : queue_t) (p : pcb_t) :
    ∃ q1, enqueue cfg q p = some q1 := by
  unfold enqueue
  split_ifs
  · exact ⟨q, rfl⟩
  · exact sift_up_loop_total _ _ _ (Nat.lt_succ_self _)

theorem dequeue_total (q : queue_t) : ∃ r q1, dequeue q = some (r, q1) := by
  unfold dequeue
  split_ifs
  · exact ⟨none, q, rfl⟩
  · obtain ⟨q1, h1⟩ := sift_down_loop_total ((swap_start_with_end q).size - 1 + 1)
      ⟨(swap_start_with_end q).proc, (swap_start_with_end q).size - 1⟩ 0
      (Nat.zero_le _) (by simp)
    refine ⟨some (q.proc 0), q1, ?_⟩
    simp only [sift_down]
    rw [h1]
    rfl

theorem enqueue_heap (cfg : Config) (q : queue_t) (p : pcb_t) (q1 : queue_t)
    (hq : max_heap q) (h : enqueue cfg q p = some q1) : max_heap q1 := by
  unfold enqueue at h
  split_ifs at h
  · injection h with h; subst h; exact hq
  · refine (sift_up_loop_heap _ _ _ q1 ?_ h).1
    simp only [add_to_end, Nat.add_sub_cancel]
    constructor
    · intro i hi0 hisz hne
      have hisz1 : i < q.size + 1 := hisz
      have h1 : i ≠ q.size := hne
      have h2 : (i - 1) / 2 ≠ q.size := by omega
      simp only [Function.update_noteq h1, Function.update_noteq h2]
      exact hq i hi0 (by omega)
    · intro c hc0 hcsz hcp _
      have hcsz1 : c < q.size + 1 := hcsz
      omega

theorem dequeue_spec (q : queue_t) (r : Option pcb_t) (q1 : queue_t)
    (hq : max_heap q) (h : dequeue q = some (r, q1)) :
    max_heap q1 ∧
    (q.size = 0 → r = none ∧ q1 = q) ∧
    (0 < q.size → r = some (q.proc 0) ∧ q1.size = q.size - 1 ∧
      ∀ i, i < q1.size → (q1.proc i).priority ≤ (q.proc 0).priority) := by
  unfold dequeue at h
  by_cases hz : q.size = 0
  · simp only [hz, if_true] at h
    injection h with h
    injection h with h1 h2
    subst h1; subst h2
    exact ⟨hq, fun _ => ⟨rfl, rfl⟩, fun h0 => absurd hz (by omega)⟩
  · simp only [hz, if_false, sift_down, swap_start_with_end] at h
    cases hsd : sift_down_loop (q.size - 1 + 1) ⟨swap_elem q.proc 0 (q.size - 1), q.size - 1⟩ 0 with
    | none => rw [hsd] at h; simp at h
    | some q3 =>
      rw [hsd] at h
      simp only [Option.map_some'] at h
      injection h with h
      injection h with h1 h2
      subst h1; subst h2
      have hinv : down_inv ⟨swap_elem q.proc 0 (q.size - 1), q.size - 1⟩ 0 := by
        constructor
        · intro i hi0 hisz hpar
          have hisz1 : i < q.size - 1 := hisz
          simp only [swap_elem_apply]
          have e1 : ¬ i = q.size - 1 := by omega
          have e2 : ¬ i = 0 := by omega
          have e3 : ¬ (i - 1) / 2 = q.size - 1 := by omega
          have e4 : ¬ (i - 1) / 2 = 0 := hpar
          simp only [e1, e2, e3, e4, if_false]
          exact hq i hi0 (by omega)
        · intro c _ _ _ h0
          omega
      have hheap := sift_down_loop_heap _ _ _ q3 hinv hsd
      have hroot := max_heap_root_max q hq
      have hall := sift_down_loop_forall (fun x => x.priority ≤ (q.proc 0).priority) _ _ _ q3
        (by
          intro i hi
          have hi1 : i < q.size - 1 := hi
          simp only [swap_elem_apply]
          split_ifs
          · exact hroot 0 (by omega)
          · exact hroot (q.size - 1) (by omega)
          · exact hroot i (by omega)) hsd
      refine ⟨hheap.1, fun h0 => absurd h0 hz, fun _ => ⟨rfl, hheap.2, ?_⟩⟩
      intro i hi
      exact hall i hi

theorem QReach_max_heap (cfg : Config) (q : queue_t) (h : QReach cfg q) : max_heap q := by
  induction h with
  | init a => intro i _ hi; exact absurd hi (Nat.not_lt_zero _)
  | enq q p q1 _ he ih => exact enqueue_heap cfg q p q1 ih he
  | deq q r q1 _ hd ih => exact (dequeue_spec q r q1 ih hd).1

/-- C1: every queue state reached from the empty queue by `enqueue` and `dequeue`
satisfies the max-heap order on `proc[0..size-1]`, and `dequeue` on a non-empty
reachable queue returns the handle at the root, whose priority is at least the
priority of every handle that remains in the queue. -/
theorem C1_queue_heap_order (cfg : Config) (q : queue_t) (h : QReach cfg q) :
    (∀ i, 0 < i → i < q.size →
        (q.proc ((i - 1) / 2)).priority ≥ (q.proc i).priority) ∧
    (0 < q.size → ∃ top q1, dequeue q = some (some top, q1) ∧
        q1.size = q.size - 1 ∧
        ∀ i, i < q1.size → top.priority ≥ (q1.proc i).priority) := by
  have hq := QReach_max_heap cfg q h
  refine ⟨hq, fun hpos => ?_⟩
  obtain ⟨r, q1, hd⟩ := dequeue_total q
  obtain ⟨_, _, h3⟩ := dequeue_spec q r q1 hq hd
  obtain ⟨hr, hs, hall⟩ := h3 hpos
  subst hr
  exact ⟨q.proc 0, q1, hd, hs, hall⟩

theorem demo_queue_reach : QReach tinyConfig demo_queue := by
  have h1 : QReach tinyConfig demo_queue1 :=
    QReach.enq empty_queue (new_pcb 7 5 0) demo_queue1 (QReach.init _) rfl
  have h2 : QReach tinyConfig demo_queue2 :=
    QReach.enq demo_queue1 (new_pcb 9 9 0) demo_queue2 h1 rfl
  exact QReach.enq demo_queue2 (new_pcb 3 1 0) demo_queue h2 rfl

theorem C1_queue_heap_order_witness :
    QReach tinyConfig demo_queue ∧
    ((∀ i, 0 < i → i < demo_queue.size →
        (demo_queue.proc ((i - 1) / 2)).priority ≥ (demo_queue.proc i).priority) ∧
      (0 < demo_queue.size → ∃ top q1, dequeue demo_queue = some (some top, q1) ∧
        q1.size = demo_queue.size - 1 ∧
        ∀ i, i < q1.size → top.priority ≥ (q1.proc i).priority)) :=
  ⟨demo_queue_reach, C1_queue_heap_order tinyConfig demo_queue demo_queue_reach⟩

/-! # Proofs: address arithmetic -/

theorem mask_eq (k : Nat) (h : k < 32) : u32_not (u32_shl (u32_not 0) k) = 2 ^ k - 1 := by
  interval_cases k <;> rfl

theorem max_virtual_addr_eq (cfg : Config) (h : cfg.ADDRESS_SIZE < 32) :
    max_virtual_addr cfg = 2 ^ cfg.ADDRESS_SIZE - 1 :=
  mask_eq _ h

theorem u32_of_lt {x : Nat} (h : x < 4294967296) : u32 x = x :=
  Nat.mod_eq_of_lt h

theorem get_offset_eq (cfg : Config) (h : cfg.OFFSET_LEN < 32) (addr : Nat) :
    get_offset cfg addr = addr % 2 ^ cfg.OFFSET_LEN := by
  unfold get_offset
  rw [mask_eq _ h, Nat.and_pow_two_sub_one_eq_mod]

theorem get_first_lv_eq (cfg : Config) (addr : Nat) :
    get_first_lv cfg addr = addr / 2 ^ cfg.OFFSET_LEN / 2 ^ cfg.PAGE_LEN := by
  unfold get_first_lv
  rw [Nat.shiftRight_eq_div_pow, Nat.pow_add, Nat.div_div_eq_div_mul]

theorem get_second_lv_eq (cfg : Config) (addr : Nat) (h : addr < 4294967296) :
    get_second_lv cfg addr = addr / 2 ^ cfg.OFFSET_LEN % 2 ^ cfg.PAGE_LEN := by
  unfold get_second_lv u32_sub u32_shl
  rw [get_first_lv_eq, Nat.shiftRight_eq_div_pow, Nat.shiftLeft_eq]
  have hx : addr / 2 ^ cfg.OFFSET_LEN < 4294967296 :=
    lt_of_le_of_lt (Nat.div_le_self _ _) h
  have hy : addr / 2 ^ cfg.OFFSET_LEN / 2 ^ cfg.PAGE_LEN * 2 ^ cfg.PAGE_LEN ≤
      addr / 2 ^ cfg.OFFSET_LEN := Nat.div_mul_le_self _ _
  have hm := Nat.div_add_mod (addr / 2 ^ cfg.OFFSET_LEN) (2 ^ cfg.PAGE_LEN)
  rw [Nat.mul_comm] at hm
  rw [u32_of_lt hx, u32_of_lt (lt_of_le_of_lt hy hx)]
  unfold u32
  omega

theorem page_split (cfg : Config) (v w : Nat) :
    (v / 2 ^ cfg.PAGE_LEN = w / 2 ^ cfg.PAGE_LEN ∧ v % 2 ^ cfg.PAGE_LEN = w % 2 ^ cfg.PAGE_LEN)
      ↔ v = w := by
  constructor
  · rintro ⟨h1, h2⟩
    rw [← Nat.div_add_mod v (2 ^ cfg.PAGE_LEN), ← Nat.div_add_mod w (2 ^ cfg.PAGE_LEN), h1, h2]
  · rintro rfl
    exact ⟨rfl, rfl⟩

theorem frame_of_phys (cfg : Config) (f off : Nat)
    (hf : f * 2 ^ cfg.OFFSET_LEN < 4294967296) (hoff : off < 2 ^ cfg.OFFSET_LEN) :
    u32_shl f cfg.OFFSET_LEN ||| off = f * 2 ^ cfg.OFFSET_LEN + off ∧
    (u32_shl f cfg.OFFSET_LEN ||| off) >>> cfg.OFFSET_LEN = f := by
  have h1 : u32_shl f cfg.OFFSET_LEN ||| off = f * 2 ^ cfg.OFFSET_LEN + off := by
    unfold u32_shl
    rw [Nat.shiftLeft_eq, u32_of_lt hf, Nat.mul_comm, ← Nat.mul_add_lt_is_or hoff]
  refine ⟨h1, ?_⟩
  rw [h1, Nat.shiftRight_eq_div_pow]
  have hpos : 0 < 2 ^ cfg.OFFSET_LEN := Nat.two_pow_pos _
  rw [Nat.add_comm, Nat.add_mul_div_right _ _ hpos, Nat.div_eq_of_lt hoff, Nat.zero_add]

/-! # Proofs: page tables seen through `vidx` and `pidx` -/

theorem translate_eq (cfg : Config) (hO : cfg.OFFSET_LEN < 32) (va : Nat)
    (hva : va < 4294967296) (p : pcb_t) :
    translate cfg va p =
      if vidx cfg p (va / 2 ^ cfg.OFFSET_LEN) = 0 then none
      else some (u32_shl (pidx cfg p (va / 2 ^ cfg.OFFSET_LEN)) cfg.OFFSET_LEN
                  ||| va % 2 ^ cfg.OFFSET_LEN) := by
  unfold translate get_page_table vidx pidx
  simp only [get_first_lv_eq, get_second_lv_eq cfg va hva, get_offset_eq cfg hO]
  cases p.seg_table.pages (va / 2 ^ cfg.OFFSET_LEN / 2 ^ cfg.PAGE_LEN) with
  | none => simp
  | some pt => simp

theorem set_page_fields (cfg : Config) (p : pcb_t) (f va : Nat) :
    (set_page_table_entry cfg p f va).pid = p.pid ∧
    (set_page_table_entry cfg p f va).priority = p.priority ∧
    (set_page_table_entry cfg p f va).bp = p.bp := by
  unfold set_page_table_entry
  cases hpt : p.seg_table.pages (get_first_lv cfg va) <;> simp [hpt]

theorem set_page_vidx (cfg : Config) (p : pcb_t) (f va : Nat) (hva : va < 4294967296)
    (v : Nat) :
    vidx cfg (set_page_table_entry cfg p f va) v =
      if v = va / 2 ^ cfg.OFFSET_LEN ∧ vidx cfg p v = 0 then va / 2 ^ cfg.OFFSET_LEN
      else vidx cfg p v := by
  unfold set_page_table_entry vidx
  dsimp only
  generalize hs : get_first_lv cfg va = seg
  generalize hg : get_second_lv cfg va = pg
  rw [get_first_lv_eq] at hs
  rw [get_second_lv_eq cfg va hva] at hg
  subst hs
  subst hg
  simp only [Nat.shiftRight_eq_div_pow]
  have hsp := page_split cfg v (va / 2 ^ cfg.OFFSET_LEN)
  by_cases hseg : v / 2 ^ cfg.PAGE_LEN = va / 2 ^ cfg.OFFSET_LEN / 2 ^ cfg.PAGE_LEN
  · by_cases hpg : v % 2 ^ cfg.PAGE_LEN = va / 2 ^ cfg.OFFSET_LEN % 2 ^ cfg.PAGE_LEN
    · have hv : v = va / 2 ^ cfg.OFFSET_LEN := hsp.1 ⟨hseg, hpg⟩
      subst hv
      cases hpt : p.seg_table.pages (va / 2 ^ cfg.OFFSET_LEN / 2 ^ cfg.PAGE_LEN) with
      | none => simp [init_page_table, malloc_page_table]
      | some pt =>
        by_cases hz : (pt.table (va / 2 ^ cfg.OFFSET_LEN % 2 ^ cfg.PAGE_LEN)).v_index = 0
        · simp [hpt, hz]
        · simp [hpt, hz]
    · have hv : ¬ v = va / 2 ^ cfg.OFFSET_LEN := fun e => hpg (hsp.2 e).2
      rw [hseg]
      cases hpt : p.seg_table.pages (va / 2 ^ cfg.OFFSET_LEN / 2 ^ cfg.PAGE_LEN) with
      | none => simp [init_page_table, malloc_page_table, hv, Function.update_noteq hpg]
      | some pt =>
        by_cases hz : (pt.table (va / 2 ^ cfg.OFFSET_LEN % 2 ^ cfg.PAGE_LEN)).v_index = 0
        · simp [hpt, hz, hv, Function.update_noteq hpg]
        · simp [hpt, hz, hv]
  · have hv : ¬ v = va / 2 ^ cfg.OFFSET_LEN := fun e => hseg (hsp.2 e).1
    cases hpt : p.seg_table.pages (va / 2 ^ cfg.OFFSET_LEN / 2 ^ cfg.PAGE_LEN) with
    | none => simp [hv, Function.update_noteq hseg]
    | some pt => simp [hpt, hv, Function.update_noteq hseg]

theorem set_page_pidx (cfg : Config) (p : pcb_t) (f va : Nat) (hva : va < 4294967296)
    (v : Nat) :
    pidx cfg (set_page_table_entry cfg p f va) v =
      if v = va / 2 ^ cfg.OFFSET_LEN ∧ vidx cfg p v = 0 then f else pidx cfg p v := by
  unfold set_page_table_entry vidx pidx
  dsimp only
  generalize hs : get_first_lv cfg va = seg
  generalize hg : get_second_lv cfg va = pg
  rw [get_first_lv_eq] at hs
  rw [get_second_lv_eq cfg va hva] at hg
  subst hs
  subst hg
  simp only [Nat.shiftRight_eq_div_pow]
  have hsp := page_split cfg v (va / 2 ^ cfg.OFFSET_LEN)
  by_cases hseg : v / 2 ^ cfg.PAGE_LEN = va / 2 ^ cfg.OFFSET_LEN / 2 ^ cfg.PAGE_LEN
  · by_cases hpg : v % 2 ^ cfg.PAGE_LEN = va / 2 ^ cfg.OFFSET_LEN % 2 ^ cfg.PAGE_LEN
    · have hv : v = va / 2 ^ cfg.OFFSET_LEN := hsp.1 ⟨hseg, hpg⟩
      subst hv
      cases hpt : p.seg_table.pages (va / 2 ^ cfg.OFFSET_LEN / 2 ^ cfg.PAGE_LEN) with
      | none => simp [init_page_table, malloc_page_table]
      | some pt =>
        by_cases hz : (pt.table (va / 2 ^ cfg.OFFSET_LEN % 2 ^ cfg.PAGE_LEN)).v_index = 0
        · simp [hpt, hz]
        · simp [hpt, hz]
    · have hv : ¬ v = va / 2 ^ cfg.OFFSET_LEN := fun e => hpg (hsp.2 e).2
      rw [hseg]
      cases hpt : p.seg_table.pages (va / 2 ^ cfg.OFFSET_LEN / 2 ^ cfg.PAGE_LEN) with
      | none => simp [init_page_table, malloc_page_table, hv, Function.update_noteq hpg]
      | some pt =>
        by_cases hz : (pt.table (va / 2 ^ cfg.OFFSET_LEN % 2 ^ cfg.PAGE_LEN)).v_index = 0
        · simp [hpt, hz, hv, Function.update_noteq hpg]
        · simp [hpt, hz, hv]
  · have hv : ¬ v = va / 2 ^ cfg.OFFSET_LEN := fun e => hseg (hsp.2 e).1
    cases hpt : p.seg_table.pages (va / 2 ^ cfg.OFFSET_LEN / 2 ^ cfg.PAGE_LEN) with
    | none => simp [hv, Function.update_noteq hseg]
    | some pt => simp [hpt, hv, Function.update_noteq hseg]

theorem free_page_spec (cfg : Config) (p : pcb_t) (va : Nat) (hva : va < 4294967296)
    (hmapped : vidx cfg p (va / 2 ^ cfg.OFFSET_LEN) ≠ 0) :
    ∃ p1, free_page_table_entry cfg va p = some p1 ∧
      p1.pid = p.pid ∧ p1.priority = p.priority ∧ p1.bp = p.bp ∧
      (∀ v, vidx cfg p1 v = if v = va / 2 ^ cfg.OFFSET_LEN then 0 else vidx cfg p v) ∧
      (∀ v, pidx cfg p1 v = pidx cfg p v) := by
  unfold free_page_table_entry
  simp only [get_first_lv_eq, get_second_lv_eq cfg va hva]
  unfold vidx at hmapped
  cases hpt : p.seg_table.pages (va / 2 ^ cfg.OFFSET_LEN / 2 ^ cfg.PAGE_LEN) with
  | none => rw [hpt] at hmapped; exact absurd rfl hmapped
  | some pt =>
    refine ⟨_, rfl, rfl, rfl, rfl, ?_, ?_⟩
    · intro v
      have hsp := page_split cfg v (va / 2 ^ cfg.OFFSET_LEN)
      unfold vidx
      by_cases hseg : v / 2 ^ cfg.PAGE_LEN = va / 2 ^ cfg.OFFSET_LEN / 2 ^ cfg.PAGE_LEN
      · by_cases hpg : v % 2 ^ cfg.PAGE_LEN = va / 2 ^ cfg.OFFSET_LEN % 2 ^ cfg.PAGE_LEN
        · have hv : v = va / 2 ^ cfg.OFFSET_LEN := hsp.1 ⟨hseg, hpg⟩
          subst hv
          simp
        · have hv : ¬ v = va / 2 ^ cfg.OFFSET_LEN := fun e => hpg (hsp.2 e).2
          rw [hseg]
          simp [hpt, hv, Function.update_noteq hpg]
      · have hv : ¬ v = va / 2 ^ cfg.OFFSET_LEN := fun e => hseg (hsp.2 e).1
        simp [hv, Function.update_noteq hseg]
    · intro v
      have hsp := page_split cfg v (va / 2 ^ cfg.OFFSET_LEN)
      unfold pidx
      by_cases hseg : v / 2 ^ cfg.PAGE_LEN = va / 2 ^ cfg.OFFSET_LEN / 2 ^ cfg.PAGE_LEN
      · by_cases hpg : v % 2 ^ cfg.PAGE_LEN = va / 2 ^ cfg.OFFSET_LEN % 2 ^ cfg.PAGE_LEN
        · have hv : v = va / 2 ^ cfg.OFFSET_LEN := hsp.1 ⟨hseg, hpg⟩
          subst hv
          simp [hpt]
        · rw [hseg]
          simp [hpt, Function.update_noteq hpg]
      · simp [Function.update_noteq hseg]

/-! # Proofs: the allocation loop -/

theorem page_of_bp (cfg : Config) (b k : Nat) :
    (b + k * cfg.PAGE_SIZE) / 2 ^ cfg.OFFSET_LEN = b / cfg.PAGE_SIZE + k := by
  unfold Config.PAGE_SIZE at *
  have hpos : 0 < 2 ^ cfg.OFFSET_LEN := Nat.two_pow_pos _
  rw [Nat.add_mul_div_right _ _ hpos]

theorem alloc_inv_init (cfg : Config) (n : Nat) (ms0 : Nat → frame_stat) (p0 : pcb_t) :
    AllocInv cfg n ms0 p0 0 ⟨ms0, p0, 0, none⟩ [] where
  count := rfl
  count_le := Nat.zero_le _
  last := rfl
  below := by intro f hf; cases hf
  was_free := by intro f hf; cases hf
  complete := by intro f hf; omega
  sorted := List.Pairwise.nil
  stat := by intro j f h; simp at h
  other := by intro f _; rfl
  bp := by simp
  pid := rfl
  priority := rfl
  vmap := by
    intro v
    have : ¬ (p0.bp / cfg.PAGE_SIZE ≤ v ∧ v < p0.bp / cfg.PAGE_SIZE + ([] : List Nat).length) := by
      simp
    rw [if_neg this]
  pmap := by
    intro v
    have : ¬ (p0.bp / cfg.PAGE_SIZE ≤ v ∧ v < p0.bp / cfg.PAGE_SIZE + ([] : List Nat).length) := by
      simp
    rw [if_neg this]

theorem alloc_inv_skip (cfg : Config) (n : Nat) (ms0 : Nat → frame_stat) (p0 : pcb_t)
    (i : Nat) (st : alloc_scan) (fs : List Nat) (h : AllocInv cfg n ms0 p0 i st fs)
    (hbusy : (st._mem_stat i).proc ≠ 0) : AllocInv cfg n ms0 p0 (i + 1) st fs := by
  have hi : i ∉ fs := fun hm => absurd (h.below i hm) (lt_irrefl _)
  have hms : st._mem_stat i = ms0 i := h.other i hi
  refine { h with below := ?_, complete := ?_ }
  · intro f hf
    exact Nat.lt_succ_of_lt (h.below f hf)
  · intro f hf hfree
    by_cases e : f = i
    · subst e
      rw [hms] at hbusy
      exact absurd hfree hbusy
    · exact h.complete f (by omega) hfree

theorem sorted_nodup (fs : List Nat) (h : fs.Pairwise (fun a b => a < b)) : fs.Nodup :=
  h.imp (fun hab => Nat.ne_of_lt hab)

theorem alloc_inv_claim (cfg : Config) (n : Nat) (ms0 : Nat → frame_stat) (p0 : pcb_t)
    (i : Nat) (st : alloc_scan) (fs : List Nat) (h : AllocInv cfg n ms0 p0 i st fs)
    (hfree : (st._mem_stat i).proc = 0) (hlt : fs.length < n)
    (hn : p0.bp + n * cfg.PAGE_SIZE < 4294967296)
    (hunset : ∀ j, j < n → vidx cfg p0 (p0.bp / cfg.PAGE_SIZE + j) = 0) :
    AllocInv cfg n ms0 p0 (i + 1) (alloc_claim cfg st i) (fs ++ [i]) := by
  have hi : i ∉ fs := fun hm => absurd (h.below i hm) (lt_irrefl _)
  have hms : st._mem_stat i = ms0 i := h.other i hi
  have hPS : 0 < cfg.PAGE_SIZE := Nat.two_pow_pos _
  have hmul1 : (fs.length + 1) * cfg.PAGE_SIZE ≤ n * cfg.PAGE_SIZE :=
    Nat.mul_le_mul_right _ hlt
  have hmul2 : (fs.length + 1) * cfg.PAGE_SIZE = fs.length * cfg.PAGE_SIZE + cfg.PAGE_SIZE :=
    Nat.succ_mul _ _
  have hnle : n ≤ n * cfg.PAGE_SIZE := Nat.le_mul_of_pos_right _ hPS
  have hva : st.proc.bp < 4294967296 := by rw [h.bp]; omega
  have hpage : st.proc.bp / 2 ^ cfg.OFFSET_LEN = p0.bp / cfg.PAGE_SIZE + fs.length := by
    rw [h.bp]; exact page_of_bp cfg _ _
  have hcur : vidx cfg st.proc (p0.bp / cfg.PAGE_SIZE + fs.length) = 0 := by
    rw [h.vmap]
    have : ¬ (p0.bp / cfg.PAGE_SIZE ≤ p0.bp / cfg.PAGE_SIZE + fs.length ∧
        p0.bp / cfg.PAGE_SIZE + fs.length < p0.bp / cfg.PAGE_SIZE + fs.length) := by omega
    rw [if_neg this]
    exact hunset _ hlt
  have hnd := sorted_nodup fs h.sorted
  have hflds := set_page_fields cfg st.proc i st.proc.bp
  constructor
  · -- count
    show u32 (st.alloc_frame_count + 1) = (fs ++ [i]).length
    rw [h.count, List.length_append, List.length_singleton]
    exact u32_of_lt (by omega)
  · -- count_le
    rw [List.length_append, List.length_singleton]; omega
  · -- last
    show some i = (fs ++ [i]).getLast?
    rw [List.getLast?_concat]
  · -- below
    intro f hf
    rcases List.mem_append.1 hf with hf | hf
    · exact Nat.lt_succ_of_lt (h.below f hf)
    · rw [List.mem_singleton.1 hf]; exact Nat.lt_succ_self _
  · -- was_free
    intro f hf
    rcases List.mem_append.1 hf with hf | hf
    · exact h.was_free f hf
    · rw [List.mem_singleton.1 hf, ← hms]; exact hfree
  · -- complete
    intro f hf hfr
    by_cases e : f = i
    · rw [e]; exact List.mem_append.2 (Or.inr (List.mem_singleton.2 rfl))
    · exact List.mem_append.2 (Or.inl (h.complete f (by omega) hfr))
  · -- sorted
    rw [List.pairwise_append]
    refine ⟨h.sorted, List.pairwise_singleton _ _, ?_⟩
    intro a ha b hb
    rw [List.mem_singleton.1 hb]
    exact h.below a ha
  · -- stat
    intro j f hj
    show (match st.last_frame_index with
      | none => Function.update st._mem_stat i
          ⟨st.proc.pid, (st.alloc_frame_count : Int), (st._mem_stat i).next⟩
      | some l => Function.update (Function.update st._mem_stat i
          ⟨st.proc.pid, (st.alloc_frame_count : Int), (st._mem_stat i).next⟩) l
          ⟨((Function.update st._mem_stat i
            ⟨st.proc.pid, (st.alloc_frame_count : Int), (st._mem_stat i).next⟩) l).proc,
           ((Function.update st._mem_stat i
            ⟨st.proc.pid, (st.alloc_frame_count : Int), (st._mem_stat i).next⟩) l).index,
           (i : Int)⟩) f = _
    by_cases hjl : j < fs.length
    · rw [List.getElem?_append_left hjl] at hj
      have hfm : f ∈ fs := List.getElem?_mem hj
      have hfi : f ≠ i := fun e => hi (e ▸ hfm)
      have hold := h.stat j f hj
      obtain ⟨ys, hys⟩ : ∃ ys, fs = ys ++ [fs.getLast (List.ne_nil_of_length_pos (by omega))] :=
        ⟨fs.dropLast, (List.dropLast_append_getLast _).symm⟩
      generalize fs.getLast (List.ne_nil_of_length_pos (by omega)) = l at hys
      have hlast : st.last_frame_index = some l := by
        rw [h.last, hys, List.getLast?_concat]
      have hlm : l ∈ fs := by rw [hys]; simp
      have hli : l ≠ i := fun e => hi (e ▸ hlm)
      have hlidx : fs[fs.length - 1]? = some l := by
        rw [← List.getLast?_eq_getElem?, hys, List.getLast?_concat]
      rw [hlast]
      simp only []
      by_cases hfl : f = l
      · have hjeq : j = fs.length - 1 := by
          apply List.getElem?_inj hjl hnd
          rw [hj, hlidx, hfl]
        subst hfl
        rw [Function.update_same, Function.update_noteq hfi, hold]
        have hnext : (fs ++ [i])[j + 1]? = some i := by
          have : j + 1 = fs.length := by omega
          rw [this, List.getElem?_concat_length]
        rw [hnext]
      · have hjne : j ≠ fs.length - 1 := by
          intro e
          rw [e, hlidx] at hj
          exact hfl (Option.some.inj hj).symm
        rw [Function.update_noteq hfl, Function.update_noteq hfi, hold]
        have hnext : (fs ++ [i])[j + 1]? = fs[j + 1]? :=
          List.getElem?_append_left (by omega)
        rw [hnext]
    · rw [List.getElem?_append_right (by omega)] at hj
      have hj0 : j - fs.length = 0 := by
        by_contra hne
        have : ([i] : List Nat)[j - fs.length]? = none :=
          List.getElem?_eq_none (by simp; omega)
        rw [this] at hj
        cases hj
      rw [hj0] at hj
      have hfi : f = i := by simpa using hj.symm
      subst hfi
      have hjeq : j = fs.length := by omega
      have hnext : (fs ++ [f])[j + 1]? = none :=
        List.getElem?_eq_none (by simp; omega)
      rw [hnext]
      have hval : Function.update st._mem_stat f
          ⟨st.proc.pid, (st.alloc_frame_count : Int), (st._mem_stat f).next⟩ f =
          ⟨p0.pid, (j : Int), (ms0 f).next⟩ := by
        rw [Function.update_same, h.pid, h.count, hms, hjeq]
      cases hl : st.last_frame_index with
      | none => simp only []; exact hval
      | some l =>
        simp only []
        have hlm : l ∈ fs := by
          have := h.last
          rw [hl] at this
          exact List.mem_of_getLast?_eq_some this.symm
        have hfl : f ≠ l := fun e => hi (e ▸ hlm)
        rw [Function.update_noteq hfl]
        exact hval
  · -- other
    intro f hf
    have hf1 : f ∉ fs := fun hm => hf (List.mem_append.2 (Or.inl hm))
    have hf2 : f ≠ i := fun e => hf (List.mem_append.2 (Or.inr (List.mem_singleton.2 e)))
    show (match st.last_frame_index with
      | none => Function.update st._mem_stat i
          ⟨st.proc.pid, (st.alloc_frame_count : Int), (st._mem_stat i).next⟩
      | some l => Function.update (Function.update st._mem_stat i
          ⟨st.proc.pid, (st.alloc_frame_count : Int), (st._mem_stat i).next⟩) l
          ⟨((Function.update st._mem_stat i
            ⟨st.proc.pid, (st.alloc_frame_count : Int), (st._mem_stat i).next⟩) l).proc,
           ((Function.update st._mem_stat i
            ⟨st.proc.pid, (st.alloc_frame_count : Int), (st._mem_stat i).next⟩) l).index,
           (i : Int)⟩) f = _
    cases hl : st.last_frame_index with
    | none =>
      simp only []
      rw [Function.update_noteq hf2]
      exact h.other f hf1
    | some l =>
      simp only []
      have hlm : l ∈ fs := by
        have := h.last
        rw [hl] at this
        exact List.mem_of_getLast?_eq_some this.symm
      have hfl : f ≠ l := fun e => hf1 (e ▸ hlm)
      rw [Function.update_noteq hfl, Function.update_noteq hf2]
      exact h.other f hf1
  · -- bp
    show u32 ((set_page_table_entry cfg st.proc i st.proc.bp).bp + cfg.PAGE_SIZE) = _
    rw [hflds.2.2, h.bp, List.length_append, List.length_singleton, hmul2]
    rw [u32_of_lt (by omega)]
    omega
  · -- pid
    show (set_page_table_entry cfg st.proc i st.proc.bp).pid = _
    rw [hflds.1, h.pid]
  · -- priority
    show (set_page_table_entry cfg st.proc i st.proc.bp).priority = _
    rw [hflds.2.1, h.priority]
  · -- vmap
    intro v
    have hv : vidx cfg (alloc_claim cfg st i).proc v =
        vidx cfg (set_page_table_entry cfg st.proc i st.proc.bp) v := rfl
    rw [hv, set_page_vidx cfg st.proc i st.proc.bp hva v, hpage, h.vmap v,
      List.length_append, List.length_singleton]
    by_cases e : v = p0.bp / cfg.PAGE_SIZE + fs.length
    · subst e
      rw [h.vmap] at hcur
      rw [if_pos ⟨rfl, hcur⟩, if_pos ⟨by omega, by omega⟩]
    · have h1 : ¬ (v = p0.bp / cfg.PAGE_SIZE + fs.length ∧
          (if p0.bp / cfg.PAGE_SIZE ≤ v ∧ v < p0.bp / cfg.PAGE_SIZE + fs.length then v
            else vidx cfg p0 v) = 0) := fun hh => e hh.1
      rw [if_neg h1]
      by_cases hr : p0.bp / cfg.PAGE_SIZE ≤ v ∧ v < p0.bp / cfg.PAGE_SIZE + fs.length
      · rw [if_pos hr, if_pos ⟨hr.1, by omega⟩]
      · rw [if_neg hr, if_neg (by omega)]
  · -- pmap
    intro v
    have hv : pidx cfg (alloc_claim cfg st i).proc v =
        pidx cfg (set_page_table_entry cfg st.proc i st.proc.bp) v := rfl
    rw [hv, set_page_pidx cfg st.proc i st.proc.bp hva v, hpage, h.pmap v, h.vmap v,
      List.length_append, List.length_singleton]
    by_cases e : v = p0.bp / cfg.PAGE_SIZE + fs.length
    · subst e
      rw [h.vmap] at hcur
      rw [if_pos ⟨rfl, hcur⟩, if_pos ⟨by omega, by omega⟩]
      have : p0.bp / cfg.PAGE_SIZE + fs.length - p0.bp / cfg.PAGE_SIZE = fs.length := by omega
      rw [this, List.getElem?_concat_length]
      rfl
    · have h1 : ¬ (v = p0.bp / cfg.PAGE_SIZE + fs.length ∧
          (if p0.bp / cfg.PAGE_SIZE ≤ v ∧ v < p0.bp / cfg.PAGE_SIZE + fs.length then v
            else vidx cfg p0 v) = 0) := fun hh => e hh.1
      rw [if_neg h1]
      by_cases hr : p0.bp / cfg.PAGE_SIZE ≤ v ∧ v < p0.bp / cfg.PAGE_SIZE + fs.length
      · rw [if_pos hr, if_pos ⟨hr.1, by omega⟩, List.getElem?_append_left (by omega)]
      · rw [if_neg hr, if_neg (by omega)]

theorem alloc_loop_inv (cfg : Config) (n : Nat) (ms0 : Nat → frame_stat) (p0 : pcb_t)
    (hn : p0.bp + n * cfg.PAGE_SIZE < 4294967296)
    (hunset : ∀ j, j < n → vidx cfg p0 (p0.bp / cfg.PAGE_SIZE + j) = 0) :
    ∀ (k i : Nat) (st : alloc_scan) (fs : List Nat), AllocInv cfg n ms0 p0 i st fs →
      ∃ i1 fs1, i1 ≤ i + k ∧ AllocInv cfg n ms0 p0 i1 (alloc_loop cfg n k i st) fs1 ∧
        (fs1.length = n ∨ i1 = i + k) := by
  intro k
  induction k with
  | zero =>
    intro i st fs h
    exact ⟨i, fs, Nat.le_refl _, h, Or.inr rfl⟩
  | succ k ih =>
    intro i st fs h
    unfold alloc_loop
    by_cases hc : st.alloc_frame_count < n
    · rw [if_pos hc]
      by_cases hfree : (st._mem_stat i).proc = 0
      · rw [if_pos hfree]
        have hlt : fs.length < n := by rw [← h.count]; exact hc
        obtain ⟨i1, fs1, h1, h2, h3⟩ := ih (i + 1) _ _
          (alloc_inv_claim cfg n ms0 p0 i st fs h hfree hlt hn hunset)
        refine ⟨i1, fs1, by omega, h2, ?_⟩
        rcases h3 with h3 | h3
        · exact Or.inl h3
        · exact Or.inr (by omega)
      · rw [if_neg hfree]
        obtain ⟨i1, fs1, h1, h2, h3⟩ := ih (i + 1) _ _
          (alloc_inv_skip cfg n ms0 p0 i st fs h hfree)
        refine ⟨i1, fs1, by omega, h2, ?_⟩
        rcases h3 with h3 | h3
        · exact Or.inl h3
        · exact Or.inr (by omega)
    · rw [if_neg hc]
      refine ⟨i, fs, by omega, h, Or.inl ?_⟩
      have := h.count
      have := h.count_le
      omega

theorem mem_avail_true (cfg : Config) (size : Nat) (p : pcb_t) (m : Mem)
    (h : mem_avail cfg size p m = true) :
    num_pages_of cfg size ≤ m.free_frame_left ∧
    u32 (p.bp + u32 (num_pages_of cfg size * cfg.PAGE_SIZE)) ≤ max_virtual_addr cfg := by
  unfold mem_avail at h
  simp only [] at h
  by_cases h1 : u32 (p.bp + u32 (num_pages_of cfg size * cfg.PAGE_SIZE)) > max_virtual_addr cfg
  · rw [if_pos h1] at h; cases h
  · rw [if_neg h1] at h
    by_cases h2 : m.free_frame_left < num_pages_of cfg size
    · rw [if_pos h2] at h; cases h
    · exact ⟨by omega, by omega⟩

theorem alloc_mem_spec (cfg : Config) (hwf : cfg.WF) (junk size : Nat) (p : pcb_t) (m : Mem)
    (hav : mem_avail cfg size p m = true)
    (hn1 : 0 < num_pages_of cfg size)
    (hbp : p.bp ≤ max_virtual_addr cfg)
    (hffl : m.free_frame_left ≤ cfg.NUM_PAGES)
    (hunset : ∀ v, p.bp / cfg.PAGE_SIZE ≤ v → vidx cfg p v = 0)
    (ret : Nat) (p1 : pcb_t) (m1 : Mem)
    (h : alloc_mem cfg junk size p m = .ok (ret, p1, m1)) :
    ∃ fs, AllocPost cfg (num_pages_of cfg size) p m ret p1 m1 fs := by
  obtain ⟨hle, hchk⟩ := mem_avail_true cfg size p m hav
  generalize hnn : num_pages_of cfg size = n at *
  have hPS : 0 < cfg.PAGE_SIZE := Nat.two_pow_pos _
  have hmax := max_virtual_addr_eq cfg hwf.addr_lt
  have hA : 2 ^ cfg.ADDRESS_SIZE ≤ 2 ^ 31 :=
    Nat.pow_le_pow_right (by decide) (by have := hwf.addr_lt; omega)
  have hApos : 0 < 2 ^ cfg.ADDRESS_SIZE := Nat.two_pow_pos _
  have hnps : n * cfg.PAGE_SIZE ≤ cfg.NUM_PAGES * cfg.PAGE_SIZE :=
    Nat.mul_le_mul_right _ (le_trans hle hffl)
  have hram := hwf.ram_fits
  have hsum : p.bp + n * cfg.PAGE_SIZE < 4294967296 := by omega
  rw [u32_of_lt (x := n * cfg.PAGE_SIZE) (by omega), u32_of_lt hsum] at hchk
  unfold alloc_mem at h
  rw [hnn, hav] at h
  simp only [if_true] at h
  obtain ⟨i1, fs, hi1, hinv, hexit⟩ := alloc_loop_inv cfg n m._mem_stat p hsum
    (fun j _ => hunset _ (Nat.le_add_right _ _)) cfg.NUM_PAGES 0 _ _
    (alloc_inv_init cfg n m._mem_stat p)
  generalize alloc_loop cfg n cfg.NUM_PAGES 0 ⟨m._mem_stat, p, 0, none⟩ = st at h hinv
  cases hl : st.last_frame_index with
  | none =>
    have hnil : fs = [] := by
      have := hinv.last
      rw [hl] at this
      exact List.getLast?_eq_none_iff.1 this.symm
    have hc : st.alloc_frame_count < n := by
      rw [hinv.count, hnil]
      exact hn1
    simp only [if_pos hc] at h
    cases h
  | some l =>
    rw [hl] at h
    simp only [Option.getD_some] at h
    by_cases hc : st.alloc_frame_count < n
    · rw [if_pos hc] at h; cases h
    · rw [if_neg hc] at h
      injection h with h
      injection h with hret h
      injection h with hp1 hm1
      subst hret; subst hp1; subst hm1
      have hlen : fs.length = n := by
        have := hinv.count
        have := hinv.count_le
        omega
      have hlast : fs.getLast? = some l := by rw [← hinv.last, hl]
      have hlm : l ∈ fs := List.mem_of_getLast?_eq_some hlast
      have hpos : 0 < n := by
        rw [← hlen]
        exact List.length_pos_of_mem hlm
      have hlidx : fs[fs.length - 1]? = some l := by
        rw [← List.getLast?_eq_getElem?, hlast]
      have hnd := sorted_nodup fs hinv.sorted
      refine ⟨fs, ?_⟩
      constructor
      · exact hlen
      · exact hpos
      · rfl
      · rw [hinv.bp, hlen]
      · exact hchk
      · exact hinv.pid
      · exact hinv.priority
      · intro f hf
        have := hinv.below f hf
        omega
      · exact hinv.was_free
      · intro f g hg hfg hfr
        exact hinv.complete f (lt_trans hfg (hinv.below g hg)) hfr
      · exact hinv.sorted
      · intro j f hj
        have hjl : j < fs.length := (List.getElem?_eq_some_iff.1 hj).1
        have hold := hinv.stat j f hj
        show Function.update st._mem_stat l _ f = _
        by_cases hfl : f = l
        · have hjeq : j = fs.length - 1 := by
            apply List.getElem?_inj hjl hnd
            rw [hj, hlidx, hfl]
          subst hfl
          rw [Function.update_same, hold]
          have hnext : fs[j + 1]? = none := List.getElem?_eq_none (by omega)
          rw [hnext]
        · have hjne : j ≠ fs.length - 1 := by
            intro e
            rw [e, hlidx] at hj
            exact hfl (Option.some.inj hj).symm
          rw [Function.update_noteq hfl, hold]
          obtain ⟨g, hg⟩ : ∃ g, fs[j + 1]? = some g :=
            ⟨_, List.getElem?_eq_getElem (by omega)⟩
          rw [hg]
      · intro f hf
        have hfl : f ≠ l := fun e => hf (e ▸ hlm)
        show Function.update st._mem_stat l _ f = _
        rw [Function.update_noteq hfl]
        exact hinv.other f hf
      · rfl
      · exact hle
      · show u32_sub m.free_frame_left n = _
        unfold u32_sub
        have h1 : cfg.NUM_PAGES ≤ cfg.NUM_PAGES * cfg.PAGE_SIZE :=
          Nat.le_mul_of_pos_right _ hPS
        rw [u32_of_lt (x := m.free_frame_left) (by omega), u32_of_lt (x := n) (by omega)]
        unfold u32
        omega
      · intro v
        rw [hinv.vmap, hlen]
      · intro v
        rw [hinv.pmap, hlen]

/-! # Proofs: the walk of `free_mem` -/

theorem free_mem_step (cfg : Config) (hwf : cfg.WF) (a f : Nat) (p : pcb_t)
    (ha : a < 4294967296) (hv : vidx cfg p (a / cfg.PAGE_SIZE) ≠ 0)
    (hp : pidx cfg p (a / cfg.PAGE_SIZE) = f) (hf : f < cfg.NUM_PAGES) :
    ∃ p1, translate cfg a p = some (u32_shl f cfg.OFFSET_LEN ||| a % 2 ^ cfg.OFFSET_LEN) ∧
      (u32_shl f cfg.OFFSET_LEN ||| a % 2 ^ cfg.OFFSET_LEN) >>> cfg.OFFSET_LEN = f ∧
      free_page_table_entry cfg a p = some p1 ∧
      p1.pid = p.pid ∧ p1.priority = p.priority ∧ p1.bp = p.bp ∧
      (∀ v, vidx cfg p1 v = if v = a / cfg.PAGE_SIZE then 0 else vidx cfg p v) ∧
      (∀ v, pidx cfg p1 v = pidx cfg p v) := by
  have hO : cfg.OFFSET_LEN < 32 := by
    have := hwf.addr_lt
    unfold Config.ADDRESS_SIZE at this
    omega
  have hfs : f * 2 ^ cfg.OFFSET_LEN < 4294967296 := by
    have h1 := hwf.ram_fits
    have h2 : f * cfg.PAGE_SIZE < cfg.NUM_PAGES * cfg.PAGE_SIZE :=
      Nat.mul_lt_mul_of_pos_right hf (Nat.two_pow_pos _)
    unfold Config.PAGE_SIZE at h1 h2
    omega
  have hoff : a % 2 ^ cfg.OFFSET_LEN < 2 ^ cfg.OFFSET_LEN := Nat.mod_lt _ (Nat.two_pow_pos _)
  obtain ⟨p1, h1, h2, h3, h4, h5, h6⟩ := free_page_spec cfg p a ha hv
  refine ⟨p1, ?_, (frame_of_phys cfg f _ hfs hoff).2, h1, h2, h3, h4, h5, h6⟩
  rw [translate_eq cfg hO a ha p]
  unfold Config.PAGE_SIZE at hv hp
  rw [if_neg hv, hp]

theorem free_mem_chain (cfg : Config) (hwf : cfg.WF) (fs : List Nat) :
    ∀ (a : Nat) (p : pcb_t) (m : Mem) (junk : Nat → Nat), fs ≠ [] →
      a + fs.length * cfg.PAGE_SIZE ≤ max_virtual_addr cfg →
      ChainAt cfg a fs p m →
      ∀ fuel,
        (fuel < fs.length → free_mem cfg fuel junk a p m = .timeout) ∧
        (fs.length ≤ fuel → ∃ p1 m1, free_mem cfg fuel junk a p m = .ok (0, p1, m1) ∧
          FreePost cfg a fs p m p1 m1) := by
  have hmax := max_virtual_addr_eq cfg hwf.addr_lt
  have hA : 2 ^ cfg.ADDRESS_SIZE ≤ 2 ^ 31 :=
    Nat.pow_le_pow_right (by decide) (by have := hwf.addr_lt; omega)
  have hPS : 0 < cfg.PAGE_SIZE := Nat.two_pow_pos _
  induction fs with
  | nil => intro a p m junk hne; exact absurd rfl hne
  | cons f rest ih =>
    intro a p m junk _ hbound hch fuel
    rw [List.length_cons, Nat.succ_mul] at hbound
    have ha : a < 4294967296 := by omega
    obtain ⟨hv0, hp0, hf0, hnx0⟩ := hch 0 f (List.getElem?_cons_zero ..)
    simp only [Nat.zero_add, List.getElem?_cons_succ] at hnx0
    rw [Nat.add_zero] at hv0 hp0
    obtain ⟨p1, htr, hfr, hfp, hpid, hprio, hbp, hvm, hpm⟩ :=
      free_mem_step cfg hwf a f p ha hv0 hp0 hf0
    cases fuel with
    | zero =>
      refine ⟨fun _ => rfl, fun h => ?_⟩
      rw [List.length_cons] at h
      omega
    | succ fuel =>
      unfold free_mem
      rw [htr]
      simp only [Option.getD_some, hfr, hfp, Function.update_same]
      cases rest with
      | nil =>
        have hnx : (m._mem_stat f).next = -1 := hnx0
        rw [if_pos hnx]
        refine ⟨fun h => ?_, fun _ => ⟨p1, _, rfl, ?_⟩⟩
        · rw [List.length_singleton] at h; omega
        · constructor
          · exact hbp
          · exact hpid
          · exact hprio
          · rfl
          · rfl
          · intro x hx
            rw [List.mem_singleton.1 hx]
            show Function.update m._mem_stat f _ f = _
            rw [Function.update_same]
          · intro x hx
            have : x ≠ f := fun e => hx (List.mem_singleton.2 e)
            show Function.update m._mem_stat f _ x = _
            rw [Function.update_noteq this]
          · intro v
            rw [hvm v, List.length_singleton]
            by_cases e : v = a / cfg.PAGE_SIZE
            · rw [if_pos e, if_pos (by omega)]
            · rw [if_neg e, if_neg (by omega)]
          · exact hpm
      | cons g rest1 =>
        have hnx : (m._mem_stat f).next = (g : Int) := by
          rw [List.getElem?_cons_zero] at hnx0; exact hnx0
        have hne1 : ¬ (m._mem_stat f).next = -1 := by rw [hnx]; omega
        rw [if_neg hne1]
        rw [List.length_cons] at hbound
        have ha1 : u32 (a + cfg.PAGE_SIZE) = a + cfg.PAGE_SIZE := u32_of_lt (by omega)
        simp only [ha1]
        have hnf : ¬ a + cfg.PAGE_SIZE > max_virtual_addr cfg := by
          have : 0 < (rest1.length + 1) * cfg.PAGE_SIZE := Nat.mul_pos (Nat.succ_pos _) hPS
          omega
        rw [if_neg hnf]
        have hpage : (a + cfg.PAGE_SIZE) / cfg.PAGE_SIZE = a / cfg.PAGE_SIZE + 1 :=
          Nat.add_div_right _ hPS
        have hch1 : ChainAt cfg (a + cfg.PAGE_SIZE) (g :: rest1) p1
            ⟨m._ram, m.free_frame_left, Function.update m._mem_stat f
              ⟨0, (m._mem_stat f).index, (m._mem_stat f).next⟩⟩ := by
          intro j x hj
          obtain ⟨c1, c2, c3, c4⟩ := hch (j + 1) x (by rw [List.getElem?_cons_succ]; exact hj)
          rw [List.getElem?_cons_succ] at c4
          rw [hpage, Nat.add_assoc, Nat.add_comm 1 j]
          refine ⟨?_, ?_, c3, ?_⟩
          · rw [hvm, if_neg (by omega)]; exact c1
          · rw [hpm]; exact c2
          · show (Function.update m._mem_stat f _ x).next = _
            by_cases e : x = f
            · rw [e, Function.update_same]
              rw [e] at c4
              exact c4
            · rw [Function.update_noteq e]
              exact c4
        have hb1 : a + cfg.PAGE_SIZE + (g :: rest1).length * cfg.PAGE_SIZE ≤
            max_virtual_addr cfg := by
          rw [List.length_cons]; omega
        obtain ⟨ih1, ih2⟩ := ih (a + cfg.PAGE_SIZE) p1 _ (fun i => junk (i + 1))
          (List.cons_ne_nil _ _) hb1 hch1 fuel
        constructor
        · intro h
          apply ih1
          simp only [List.length_cons] at h ⊢
          omega
        · intro h
          obtain ⟨p2, m2, hres, hpost⟩ := ih2 (by simp only [List.length_cons] at h ⊢; omega)
          refine ⟨p2, m2, hres, ?_⟩
          constructor
          · rw [hpost.bp, hbp]
          · rw [hpost.pid, hpid]
          · rw [hpost.priority, hprio]
          · rw [hpost.ram]
          · rw [hpost.ffl]
          · intro x hx
            by_cases hx1 : x ∈ g :: rest1
            · rw [hpost.stat x hx1]
              show (⟨0, (Function.update m._mem_stat f _ x).index,
                (Function.update m._mem_stat f _ x).next⟩ : frame_stat) = _
              by_cases e : x = f
              · rw [e, Function.update_same]
              · rw [Function.update_noteq e]
            · have e : x = f := by
                rcases List.mem_cons.1 hx with e | e
                · exact e
                · exact absurd e hx1
              rw [hpost.other x hx1]
              show Function.update m._mem_stat f _ x = _
              rw [e, Function.update_same]
          · intro x hx
            have hx1 : x ∉ g :: rest1 := fun hm => hx (List.mem_cons_of_mem _ hm)
            have e : x ≠ f := fun e => hx (e ▸ List.mem_cons_self _ _)
            rw [hpost.other x hx1]
            show Function.update m._mem_stat f _ x = _
            rw [Function.update_noteq e]
          · intro v
            rw [hpost.vmap v, hpage, hvm v]
            simp only [List.length_cons]
            by_cases e : v = a / cfg.PAGE_SIZE
            · rw [if_neg (by omega), if_pos e, if_pos (by omega)]
            · by_cases e2 : a / cfg.PAGE_SIZE + 1 ≤ v ∧
                  v < a / cfg.PAGE_SIZE + 1 + (rest1.length + 1)
              · rw [if_pos e2, if_pos (by omega)]
              · rw [if_neg e2, if_neg e, if_neg (by omega)]
          · intro v
            rw [hpost.pmap v, hpm v]

/-! # Proofs: the invariant of the runs in which no call reads an unassigned local -/

theorem inv_boot (cfg : Config) (w : World) (h : Boot cfg w) : Inv cfg w := by
  have hv : ∀ k v, vidx cfg (w.procs k) v = 0 := by
    intro k v
    unfold vidx
    rw [h.seg k]
    unfold init_segment_table
    simp
  constructor
  · exact h.pid_ne
  · exact h.pid_inj
  · exact h.bp_al
  · exact h.bp_le
  · rw [h.mem]; exact Nat.le_refl _
  · intro r hr; rw [h.hist] at hr; cases hr
  · intro r hr; rw [h.hist] at hr; cases hr
  · intro r hr; rw [h.hist] at hr; cases hr
  · intro r hr; rw [h.hist] at hr; cases hr
  · rw [h.hist]; exact List.nodup_nil
  · intro r hr; rw [h.live] at hr; cases hr
  · rw [h.live]; exact List.nodup_nil
  · intro k v hne; exact absurd (hv k v) hne
  · intro r hr; rw [h.live] at hr; cases hr
  · intro r hr; rw [h.live] at hr; cases hr
  · intro r hr; rw [h.live] at hr; cases hr
  · intro f _ hne
    rw [h.mem] at hne
    unfold init_mem start_mem at hne
    simp at hne

theorem alloc_mem_refused (cfg : Config) (junk size : Nat) (p : pcb_t) (m : Mem)
    (h : mem_avail cfg size p m = false) : alloc_mem cfg junk size p m = .ok (0, p, m) := by
  unfold alloc_mem
  rw [h]
  rfl

theorem inv_same (cfg : Config) (w : World) (h : Inv cfg w) (ram : Nat → Nat) :
    Inv cfg ⟨⟨ram, w.mem.free_frame_left, w.mem._mem_stat⟩, w.procs, w.hist, w.live⟩ :=
  ⟨h.pid_ne, h.pid_inj, h.bp_al, h.bp_le, h.ffl_le, h.hist_al, h.hist_ne, h.hist_bp,
    h.hist_disj, h.hist_nodup, h.live_sub, h.live_nodup, h.mapped, h.live_stat, h.live_map,
    h.live_disj, h.owned⟩

theorem inv_alloc_fail (cfg : Config) (w : World) (h : Inv cfg w) (k junk size ret : Nat)
    (p1 : pcb_t) (m1 : Mem) (hav : mem_avail cfg size (w.procs k) w.mem = false)
    (hres : alloc_mem cfg junk size (w.procs k) w.mem = .ok (ret, p1, m1)) :
    Inv cfg ⟨m1, Function.update w.procs k p1, w.hist, w.live⟩ := by
  rw [alloc_mem_refused cfg junk size _ _ hav] at hres
  injection hres with hres
  injection hres with _ hres
  injection hres with hp hm
  subst hp; subst hm
  rw [Function.update_eq_self]
  exact h

theorem inv_write (cfg : Config) (w : World) (h : Inv cfg w) (k address data : Nat) :
    Inv cfg ⟨(write_mem cfg address (w.procs k) data w.mem).2, w.procs, w.hist, w.live⟩ := by
  unfold write_mem
  cases translate cfg address (w.procs k) with
  | none => exact h
  | some pa => exact inv_same cfg w h _

theorem page_end_le (cfg : Config) (a L b : Nat) (h : a + L * cfg.PAGE_SIZE ≤ b) :
    a / cfg.PAGE_SIZE + L ≤ b / cfg.PAGE_SIZE := by
  have hPS : 0 < cfg.PAGE_SIZE := Nat.two_pow_pos _
  rw [← Nat.add_mul_div_right _ _ hPS]
  exact Nat.div_le_div_right h

theorem getElem?_lt {fs : List Nat} {j f : Nat} (h : fs[j]? = some f) : j < fs.length :=
  (List.getElem?_eq_some_iff.1 h).1

theorem inv_unset (cfg : Config) (w : World) (h : Inv cfg w) (k v : Nat)
    (hv : (w.procs k).bp / cfg.PAGE_SIZE ≤ v) : vidx cfg (w.procs k) v = 0 := by
  by_contra hne
  obtain ⟨_, r, hr, hslot, j, hj, hvj⟩ := h.mapped k v hne
  have h1 := h.hist_bp r (h.live_sub r hr)
  rw [hslot] at h1
  have h2 := page_end_le cfg _ _ _ h1
  have h3 := getElem?_lt hj
  omega

theorem frames_of_post (cfg : Config) (n : Nat) (p : pcb_t) (m : Mem) (ret : Nat)
    (p1 : pcb_t) (m1 : Mem) (fs : List Nat) (h : AllocPost cfg n p m ret p1 m1 fs) :
    frames_of cfg p1 ret n = fs := by
  apply List.ext_getElem?
  intro i
  unfold frames_of
  rw [List.getElem?_map]
  by_cases hi : i < n
  · rw [List.getElem?_range hi]
    simp only [Option.map_some']
    rw [h.ret_eq, h.pmap, if_pos ⟨by omega, by omega⟩]
    have : p.bp / cfg.PAGE_SIZE + i - p.bp / cfg.PAGE_SIZE = i := by omega
    rw [this, List.getElem?_eq_getElem (by rw [h.len]; exact hi)]
    rfl
  · rw [List.getElem?_eq_none (by simp; omega), List.getElem?_eq_none (by rw [h.len]; omega)]
    rfl

theorem inv_alloc_post (cfg : Config) (w : World) (h : Inv cfg w) (k n ret : Nat)
    (p1 : pcb_t) (m1 : Mem) (fs : List Nat)
    (post : AllocPost cfg n (w.procs k) w.mem ret p1 m1 fs) :
    Inv cfg ⟨m1, Function.update w.procs k p1, ⟨k, ret, fs⟩ :: w.hist,
      ⟨k, ret, fs⟩ :: w.live⟩ := by
  have hPS : 0 < cfg.PAGE_SIZE := Nat.two_pow_pos _
  have hnpos : 0 < n * cfg.PAGE_SIZE := Nat.mul_pos post.pos hPS
  have hpid : ∀ k1, (Function.update w.procs k p1 k1).pid = (w.procs k1).pid := by
    intro k1
    by_cases e : k1 = k
    · subst e; rw [Function.update_same, post.pid]
    · rw [Function.update_noteq e]
  have hbp : ∀ k1, (w.procs k1).bp ≤ (Function.update w.procs k p1 k1).bp := by
    intro k1
    by_cases e : k1 = k
    · subst e; rw [Function.update_same, post.bp]; omega
    · rw [Function.update_noteq e]
  have hfresh : ∀ r ∈ w.live, ∀ (j f : Nat), r.frames[j]? = some f → f ∉ fs := by
    intro r hr j f hj hf
    have h1 := (h.live_stat r hr j f hj).2
    have h2 := post.was_free f hf
    rw [h1] at h2
    exact h.pid_ne _ h2
  have hnot_hist : (⟨k, ret, fs⟩ : alloc_rec) ∉ w.hist := by
    intro hm
    have := h.hist_bp _ hm
    simp only [post.len, post.ret_eq] at this
    omega
  have hfsj : ∀ (j f : Nat), fs[j]? = some f → j < n := by
    intro j f hj
    rw [← post.len]; exact getElem?_lt hj
  constructor
  all_goals (try dsimp only)
  · -- pid_ne
    intro k1; rw [hpid]; exact h.pid_ne k1
  · -- pid_inj
    intro k1 k2; rw [hpid, hpid]; exact h.pid_inj k1 k2
  · -- bp_al
    intro k1
    by_cases e : k1 = k
    · subst e
      rw [Function.update_same, post.bp, Nat.add_mul_mod_self_right]
      exact h.bp_al k1
    · rw [Function.update_noteq e]; exact h.bp_al k1
  · -- bp_le
    intro k1
    by_cases e : k1 = k
    · subst e
      rw [Function.update_same, post.bp]
      exact post.bp_le
    · rw [Function.update_noteq e]; exact h.bp_le k1
  · -- ffl_le
    show m1.free_frame_left ≤ cfg.NUM_PAGES
    rw [post.ffl]
    have := h.ffl_le
    omega
  · -- hist_al
    intro r hr
    rcases List.mem_cons.1 hr with e | hr
    · rw [e]; show ret % cfg.PAGE_SIZE = 0
      rw [post.ret_eq]; exact h.bp_al k
    · exact h.hist_al r hr
  · -- hist_ne
    intro r hr
    rcases List.mem_cons.1 hr with e | hr
    · rw [e]; show fs ≠ []
      intro e2
      have := post.len
      rw [e2] at this
      have := post.pos
      simp at *
      omega
    · exact h.hist_ne r hr
  · -- hist_bp
    intro r hr
    rcases List.mem_cons.1 hr with e | hr
    · rw [e]
      show ret + fs.length * cfg.PAGE_SIZE ≤ (Function.update w.procs k p1 k).bp
      rw [Function.update_same, post.bp, post.len, post.ret_eq]
    · exact le_trans (h.hist_bp r hr) (hbp _)
  · -- hist_disj
    intro r hr r1 hr1 hne hslot
    rcases List.mem_cons.1 hr with e | hr
    · rcases List.mem_cons.1 hr1 with e1 | hr1
      · exact absurd (e.trans e1.symm) hne
      · right
        rw [e] at hslot ⊢
        have := h.hist_bp r1 hr1
        rw [← hslot] at this
        show _ ≤ ret
        rw [post.ret_eq]
        exact this
    · rcases List.mem_cons.1 hr1 with e1 | hr1
      · left
        rw [e1] at hslot ⊢
        have := h.hist_bp r hr
        rw [hslot] at this
        show _ ≤ ret
        rw [post.ret_eq]
        exact this
      · exact h.hist_disj r hr r1 hr1 hne hslot
  · -- hist_nodup
    exact List.nodup_cons.2 ⟨hnot_hist, h.hist_nodup⟩
  · -- live_sub
    intro r hr
    rcases List.mem_cons.1 hr with e | hr
    · rw [e]; exact List.mem_cons_self _ _
    · exact List.mem_cons_of_mem _ (h.live_sub r hr)
  · -- live_nodup
    exact List.nodup_cons.2 ⟨fun hm => hnot_hist (h.live_sub _ hm), h.live_nodup⟩
  · -- mapped
    intro k1 v hne
    by_cases e : k1 = k
    · subst e
      rw [Function.update_same] at hne ⊢
      rw [post.vmap] at hne ⊢
      rw [post.pmap]
      by_cases hr : (w.procs k1).bp / cfg.PAGE_SIZE ≤ v ∧ v < (w.procs k1).bp / cfg.PAGE_SIZE + n
      · rw [if_pos hr] at hne ⊢
        rw [if_pos hr]
        refine ⟨rfl, ⟨k1, ret, fs⟩, List.mem_cons_self _ _, rfl,
          v - (w.procs k1).bp / cfg.PAGE_SIZE, ?_, ?_⟩
        · show fs[v - (w.procs k1).bp / cfg.PAGE_SIZE]? = _
          rw [List.getElem?_eq_getElem (by rw [post.len]; omega)]
          rfl
        · show v = ret / cfg.PAGE_SIZE + _
          rw [post.ret_eq]
          omega
      · rw [if_neg hr] at hne ⊢
        rw [if_neg hr]
        obtain ⟨h1, r, hrl, h2, h3⟩ := h.mapped k1 v hne
        exact ⟨h1, r, List.mem_cons_of_mem _ hrl, h2, h3⟩
    · rw [Function.update_noteq e] at hne ⊢
      obtain ⟨h1, r, hrl, h2, h3⟩ := h.mapped k1 v hne
      exact ⟨h1, r, List.mem_cons_of_mem _ hrl, h2, h3⟩
  · -- live_stat
    intro r hr j f hj
    rcases List.mem_cons.1 hr with e | hr
    · subst e
      refine ⟨post.lt_num f (List.getElem?_mem hj), ?_⟩
      show m1._mem_stat f = ⟨(Function.update w.procs k p1 k).pid, _, _⟩
      rw [hpid]
      exact post.stat j f hj
    · obtain ⟨h1, h2⟩ := h.live_stat r hr j f hj
      refine ⟨h1, ?_⟩
      show m1._mem_stat f = ⟨(Function.update w.procs k p1 r.slot).pid, _, _⟩
      rw [hpid, post.other f (hfresh r hr j f hj)]
      exact h2
  · -- live_map
    intro r hr j f hj hpg
    rcases List.mem_cons.1 hr with e | hr
    · subst e
      have hjn := hfsj j f hj
      show vidx cfg (Function.update w.procs k p1 k) (ret / cfg.PAGE_SIZE + j) = _ ∧
        pidx cfg (Function.update w.procs k p1 k) (ret / cfg.PAGE_SIZE + j) = f
      rw [Function.update_same, post.vmap, post.pmap, post.ret_eq]
      rw [if_pos ⟨by omega, by omega⟩, if_pos ⟨by omega, by omega⟩]
      refine ⟨rfl, ?_⟩
      have : (w.procs k).bp / cfg.PAGE_SIZE + j - (w.procs k).bp / cfg.PAGE_SIZE = j := by omega
      rw [this, hj]
      rfl
    · obtain ⟨h1, h2⟩ := h.live_map r hr j f hj hpg
      by_cases e : r.slot = k
      · have hb := h.hist_bp r (h.live_sub r hr)
        have hpe := page_end_le cfg _ _ _ hb
        have hjl := getElem?_lt hj
        rw [e] at hpe h1 h2
        show vidx cfg (Function.update w.procs k p1 r.slot) _ = _ ∧
          pidx cfg (Function.update w.procs k p1 r.slot) _ = f
        rw [e, Function.update_same, post.vmap, post.pmap]
        rw [if_neg (by omega), if_neg (by omega)]
        exact ⟨h1, h2⟩
      · show vidx cfg (Function.update w.procs k p1 r.slot) _ = _ ∧
          pidx cfg (Function.update w.procs k p1 r.slot) _ = f
        rw [Function.update_noteq e]
        exact ⟨h1, h2⟩
  · -- live_disj
    intro r hr r1 hr1 j j1 f hj hj1
    rcases List.mem_cons.1 hr with e | hr
    · rcases List.mem_cons.1 hr1 with e1 | hr1
      · subst e; subst e1
        refine ⟨rfl, ?_⟩
        apply List.getElem?_inj (getElem?_lt hj) (sorted_nodup fs post.sorted)
        rw [hj, hj1]
      · subst e
        exact absurd (List.getElem?_mem hj) (hfresh r1 hr1 j1 f hj1)
    · rcases List.mem_cons.1 hr1 with e1 | hr1
      · subst e1
        exact absurd (List.getElem?_mem hj1) (hfresh r hr j f hj)
      · exact h.live_disj r hr r1 hr1 j j1 f hj hj1
  · -- owned
    intro f hf hne
    by_cases hm : f ∈ fs
    · exact ⟨⟨k, ret, fs⟩, List.mem_cons_self _ _, hm⟩
    · have : m1._mem_stat f = w.mem._mem_stat f := post.other f hm
      have hne1 : (w.mem._mem_stat f).proc ≠ 0 := by rw [← this]; exact hne
      obtain ⟨r, hr, hfr⟩ := h.owned f hf hne1
      exact ⟨r, List.mem_cons_of_mem _ hr, hfr⟩

theorem inv_alloc_ok (cfg : Config) (hwf : cfg.WF) (w : World) (h : Inv cfg w)
    (k junk size ret : Nat) (p1 : pcb_t) (m1 : Mem)
    (hn1 : 1 ≤ num_pages_of cfg size)
    (hav : mem_avail cfg size (w.procs k) w.mem = true)
    (hres : alloc_mem cfg junk size (w.procs k) w.mem = .ok (ret, p1, m1)) :
    Inv cfg ⟨m1, Function.update w.procs k p1,
      ⟨k, ret, frames_of cfg p1 ret (num_pages_of cfg size)⟩ :: w.hist,
      ⟨k, ret, frames_of cfg p1 ret (num_pages_of cfg size)⟩ :: w.live⟩ := by
  obtain ⟨fs, post⟩ := alloc_mem_spec cfg hwf junk size _ _ hav hn1 (h.bp_le k) h.ffl_le
    (inv_unset cfg w h k) ret p1 m1 hres
  rw [frames_of_post cfg _ _ _ _ _ _ _ post]
  exact inv_alloc_post cfg w h k _ ret p1 m1 fs post

theorem inv_chain_at (cfg : Config) (w : World) (h : Inv cfg w) (r : alloc_rec)
    (hr : r ∈ w.live) (hpg : r.addr / cfg.PAGE_SIZE ≠ 0) :
    ChainAt cfg r.addr r.frames (w.procs r.slot) w.mem := by
  intro j f hj
  have hne : r.addr / cfg.PAGE_SIZE + j ≠ 0 := fun e => hpg (Nat.add_eq_zero_iff.1 e).1
  obtain ⟨h1, h2⟩ := h.live_map r hr j f hj hne
  obtain ⟨h3, h4⟩ := h.live_stat r hr j f hj
  refine ⟨by rw [h1]; exact hne, h2, h3, ?_⟩
  rw [h4]

theorem addr_page_ne_zero (cfg : Config) (a : Nat) (hal : a % cfg.PAGE_SIZE = 0)
    (ha : a ≠ 0) : a / cfg.PAGE_SIZE ≠ 0 := by
  have hPS : 0 < cfg.PAGE_SIZE := Nat.two_pow_pos _
  have hge : cfg.PAGE_SIZE ≤ a := by
    by_contra hlt
    have := Nat.mod_eq_of_lt (Nat.lt_of_not_le hlt)
    omega
  exact Nat.ne_of_gt (Nat.div_pos hge hPS)

theorem free_live_spec (cfg : Config) (hwf : cfg.WF) (w : World) (h : Inv cfg w)
    (r : alloc_rec) (hr : r ∈ w.live) (ha : r.addr ≠ 0) (junk : Nat → Nat) (fuel ret : Nat)
    (p1 : pcb_t) (m1 : Mem)
    (hres : free_mem cfg fuel junk r.addr (w.procs r.slot) w.mem = .ok (ret, p1, m1)) :
    ret = 0 ∧ r.addr / cfg.PAGE_SIZE ≠ 0 ∧ r.frames.length ≤ fuel ∧
      FreePost cfg r.addr r.frames (w.procs r.slot) w.mem p1 m1 := by
  have hbound : r.addr + r.frames.length * cfg.PAGE_SIZE ≤ max_virtual_addr cfg :=
    le_trans (h.hist_bp r (h.live_sub r hr)) (h.bp_le _)
  have hpg : r.addr / cfg.PAGE_SIZE ≠ 0 :=
    addr_page_ne_zero cfg r.addr (h.hist_al r (h.live_sub r hr)) ha
  obtain ⟨h1, h2⟩ := free_mem_chain cfg hwf r.frames r.addr (w.procs r.slot) w.mem junk
    (h.hist_ne r (h.live_sub r hr)) hbound (inv_chain_at cfg w h r hr hpg) fuel
  by_cases hf : fuel < r.frames.length
  · rw [h1 hf] at hres
    cases hres
  · obtain ⟨p2, m2, hres2, hpost⟩ := h2 (by omega)
    rw [hres2] at hres
    injection hres with hres
    injection hres with e1 hres
    injection hres with e2 e3
    subst e1; subst e2; subst e3
    exact ⟨rfl, hpg, by omega, hpost⟩

theorem inv_free_post (cfg : Config) (w : World) (h : Inv cfg w) (r : alloc_rec)
    (hr : r ∈ w.live) (p1 : pcb_t) (m1 : Mem)
    (post : FreePost cfg r.addr r.frames (w.procs r.slot) w.mem p1 m1) :
    Inv cfg ⟨m1, Function.update w.procs r.slot p1, w.hist, w.live.erase r⟩ := by
  have hpid : ∀ k1, (Function.update w.procs r.slot p1 k1).pid = (w.procs k1).pid := by
    intro k1
    by_cases e : k1 = r.slot
    · rw [e, Function.update_same, post.pid]
    · rw [Function.update_noteq e]
  have hbp : ∀ k1, (Function.update w.procs r.slot p1 k1).bp = (w.procs k1).bp := by
    intro k1
    by_cases e : k1 = r.slot
    · rw [e, Function.update_same, post.bp]
    · rw [Function.update_noteq e]
  have hmem : ∀ r1, r1 ∈ w.live.erase r → r1 ∈ w.live ∧ r1 ≠ r := by
    intro r1 hm
    exact ⟨List.mem_of_mem_erase hm, fun e => (List.Nodup.mem_erase_iff h.live_nodup).1 hm |>.1 e⟩
  have hother : ∀ r1, r1 ∈ w.live → r1 ≠ r → ∀ (j f : Nat), r1.frames[j]? = some f →
      f ∉ r.frames := by
    intro r1 hr1 hne j f hj hf
    obtain ⟨j1, hj1⟩ := List.mem_iff_getElem?.1 hf
    exact hne (h.live_disj r1 hr1 r hr j j1 f hj hj1).1
  have hpages : ∀ r1, r1 ∈ w.live → r1 ≠ r → r1.slot = r.slot → ∀ j, j < r1.frames.length →
      ¬ (r.addr / cfg.PAGE_SIZE ≤ r1.addr / cfg.PAGE_SIZE + j ∧
        r1.addr / cfg.PAGE_SIZE + j < r.addr / cfg.PAGE_SIZE + r.frames.length) := by
    intro r1 hr1 hne hslot j hj
    rcases h.hist_disj r1 (h.live_sub r1 hr1) r (h.live_sub r hr) hne hslot with hd | hd
    · have := page_end_le cfg _ _ _ hd
      omega
    · have := page_end_le cfg _ _ _ hd
      omega
  constructor
  all_goals (try dsimp only)
  · intro k1; rw [hpid]; exact h.pid_ne k1
  · intro k1 k2; rw [hpid, hpid]; exact h.pid_inj k1 k2
  · intro k1; rw [hbp]; exact h.bp_al k1
  · intro k1; rw [hbp]; exact h.bp_le k1
  · rw [post.ffl]; exact h.ffl_le
  · exact h.hist_al
  · exact h.hist_ne
  · intro r1 hr1; rw [hbp]; exact h.hist_bp r1 hr1
  · exact h.hist_disj
  · exact h.hist_nodup
  · intro r1 hr1; exact h.live_sub r1 (hmem r1 hr1).1
  · exact h.live_nodup.erase r
  · -- mapped
    intro k1 v hne
    by_cases e : k1 = r.slot
    · subst e
      rw [Function.update_same] at hne ⊢
      rw [post.vmap] at hne ⊢
      rw [post.pmap]
      by_cases hrg : r.addr / cfg.PAGE_SIZE ≤ v ∧ v < r.addr / cfg.PAGE_SIZE + r.frames.length
      · rw [if_pos hrg] at hne
        exact absurd rfl hne
      · rw [if_neg hrg] at hne ⊢
        obtain ⟨h1, r1, hr1, h2, j, h3, h4⟩ := h.mapped r.slot v hne
        have hne1 : r1 ≠ r := by
          intro e
          subst e
          have := getElem?_lt h3
          omega
        exact ⟨h1, r1, (List.mem_erase_of_ne hne1).2 hr1, h2, j, h3, h4⟩
    · rw [Function.update_noteq e] at hne ⊢
      obtain ⟨h1, r1, hr1, h2, j, h3, h4⟩ := h.mapped k1 v hne
      have hne1 : r1 ≠ r := by
        intro e1
        rw [e1] at h2
        exact e h2.symm
      exact ⟨h1, r1, (List.mem_erase_of_ne hne1).2 hr1, h2, j, h3, h4⟩
  · -- live_stat
    intro r1 hr1 j f hj
    obtain ⟨hr1l, hne⟩ := hmem r1 hr1
    obtain ⟨h1, h2⟩ := h.live_stat r1 hr1l j f hj
    refine ⟨h1, ?_⟩
    rw [hpid, post.other f (hother r1 hr1l hne j f hj)]
    exact h2
  · -- live_map
    intro r1 hr1 j f hj hpg
    obtain ⟨hr1l, hne⟩ := hmem r1 hr1
    obtain ⟨h1, h2⟩ := h.live_map r1 hr1l j f hj hpg
    by_cases e : r1.slot = r.slot
    · rw [e, Function.update_same, post.vmap, post.pmap,
        if_neg (hpages r1 hr1l hne e j (getElem?_lt hj))]
      rw [e] at h1 h2
      exact ⟨h1, h2⟩
    · rw [Function.update_noteq e]
      exact ⟨h1, h2⟩
  · -- live_disj
    intro r1 hr1 r2 hr2 j j1 f hj hj1
    exact h.live_disj r1 (hmem r1 hr1).1 r2 (hmem r2 hr2).1 j j1 f hj hj1
  · -- owned
    intro f hf hne
    by_cases hm : f ∈ r.frames
    · rw [post.stat f hm] at hne
      exact absurd rfl hne
    · rw [post.other f hm] at hne
      obtain ⟨r1, hr1, hfr⟩ := h.owned f hf hne
      have hne1 : r1 ≠ r := by
        intro e; rw [e] at hfr; exact hm hfr
      exact ⟨r1, (List.mem_erase_of_ne hne1).2 hr1, hfr⟩

theorem inv_step (cfg : Config) (hwf : cfg.WF) (w w1 : World) (h : Inv cfg w)
    (hs : CleanStep cfg w w1) : Inv cfg w1 := by
  cases hs with
  | alloc_ok k junk size ret p1 m1 hn1 hav hres =>
    exact inv_alloc_ok cfg hwf w h k junk size ret p1 m1 hn1 hav hres
  | alloc_fail k junk size ret p1 m1 hav hres =>
    exact inv_alloc_fail cfg w h k junk size ret p1 m1 hav hres
  | free r junk fuel ret p1 m1 hr ha hres =>
    exact inv_free_post cfg w h r hr p1 m1
      (free_live_spec cfg hwf w h r hr ha junk fuel ret p1 m1 hres).2.2.2
  | write k address data => exact inv_write cfg w h k address data

theorem reach_inv (cfg : Config) (hwf : cfg.WF) (w : World) (h : CleanReach cfg w) :
    Inv cfg w := by
  induction h with
  | boot w hb => exact inv_boot cfg w hb
  | step w w1 _ hs ih => exact inv_step cfg hwf w w1 ih hs

/-! # Proofs: the concrete runs -/

theorem tame_step (cfg : Config) (w w1 : World) (h : TameStep cfg w w1) : Step cfg w w1 := by
  cases h with
  | alloc_ok k junk size ret p1 m1 hav hres => exact Step.alloc_ok w k junk size ret p1 m1 hav hres
  | alloc_fail k junk size ret p1 m1 hav hres =>
    exact Step.alloc_fail w k junk size ret p1 m1 hav hres
  | free r junk fuel ret p1 m1 hr _ _ hres => exact Step.free w r junk fuel ret p1 m1 hr hres
  | write k address data => exact Step.write w k address data

theorem clean_tame_step (cfg : Config) (w w1 : World) (hi : Inv cfg w)
    (h : CleanStep cfg w w1) : TameStep cfg w w1 := by
  cases h with
  | alloc_ok k junk size ret p1 m1 _ hav hres =>
    exact TameStep.alloc_ok w k junk size ret p1 m1 hav hres
  | alloc_fail k junk size ret p1 m1 hav hres =>
    exact TameStep.alloc_fail w k junk size ret p1 m1 hav hres
  | free r junk fuel ret p1 m1 hr ha hres =>
    exact TameStep.free w r junk fuel ret p1 m1 hr ha (hi.hist_ne r (hi.live_sub r hr)) hres
  | write k address data => exact TameStep.write w k address data

theorem tame_reach (cfg : Config) (w : World) (h : TameReach cfg w) : Reach cfg w := by
  induction h with
  | boot w hb => exact Reach.boot w hb
  | step w w1 _ hs ih => exact Reach.step w w1 ih (tame_step cfg w w1 hs)

theorem clean_tame (cfg : Config) (hwf : cfg.WF) (w : World) (h : CleanReach cfg w) :
    TameReach cfg w := by
  induction h with
  | boot w hb => exact TameReach.boot w hb
  | step w w1 hw hs ih =>
    exact TameReach.step w w1 ih (clean_tame_step cfg w w1 (reach_inv cfg hwf w hw) hs)

theorem clean_reach (cfg : Config) (hwf : cfg.WF) (w : World) (h : CleanReach cfg w) :
    Reach cfg w :=
  tame_reach cfg w (clean_tame cfg hwf w h)

theorem step_alloc (cfg : Config) (w : World) (k size : Nat) (x : Nat × pcb_t × Mem)
    (h : alloc_mem cfg 0 size (w.procs k) w.mem = .ok x) :
    TameStep cfg w (w.alloc cfg k size) := by
  obtain ⟨ret, p1, m1⟩ := x
  unfold World.alloc
  rw [h]
  by_cases hav : mem_avail cfg size (w.procs k) w.mem = true
  · simp only [hav, if_true]
    exact TameStep.alloc_ok w k 0 size ret p1 m1 hav h
  · have hav1 : mem_avail cfg size (w.procs k) w.mem = false := by
      cases hb : mem_avail cfg size (w.procs k) w.mem
      · rfl
      · exact absurd hb hav
    simp only [hav1]
    exact TameStep.alloc_fail w k 0 size ret p1 m1 hav1 h

theorem clean_step_alloc (cfg : Config) (w : World) (k size : Nat) (x : Nat × pcb_t × Mem)
    (hn1 : 1 ≤ num_pages_of cfg size)
    (h : alloc_mem cfg 0 size (w.procs k) w.mem = .ok x) :
    CleanStep cfg w (w.alloc cfg k size) := by
  obtain ⟨ret, p1, m1⟩ := x
  unfold World.alloc
  rw [h]
  by_cases hav : mem_avail cfg size (w.procs k) w.mem = true
  · simp only [hav, if_true]
    exact CleanStep.alloc_ok w k 0 size ret p1 m1 hn1 hav h
  · have hav1 : mem_avail cfg size (w.procs k) w.mem = false := by
      cases hb : mem_avail cfg size (w.procs k) w.mem
      · rfl
      · exact absurd hb hav
    simp only [hav1]
    exact CleanStep.alloc_fail w k 0 size ret p1 m1 hav1 h

theorem step_free (cfg : Config) (w : World) (r : alloc_rec) (fuel : Nat)
    (x : Nat × pcb_t × Mem) (hr : r ∈ w.live)
    (h : free_mem cfg fuel (fun _ => 0) r.addr (w.procs r.slot) w.mem = .ok x) :
    Step cfg w (w.free cfg r fuel) := by
  obtain ⟨ret, p1, m1⟩ := x
  unfold World.free
  rw [h]
  exact Step.free w r (fun _ => 0) fuel ret p1 m1 hr h

theorem clean_step_free (cfg : Config) (w : World) (r : alloc_rec) (fuel : Nat)
    (x : Nat × pcb_t × Mem) (hr : r ∈ w.live) (ha : r.addr ≠ 0)
    (h : free_mem cfg fuel (fun _ => 0) r.addr (w.procs r.slot) w.mem = .ok x) :
    CleanStep cfg w (w.free cfg r fuel) := by
  obtain ⟨ret, p1, m1⟩ := x
  unfold World.free
  rw [h]
  exact CleanStep.free w r (fun _ => 0) fuel ret p1 m1 hr ha h

theorem stdConfig_wf : stdConfig.WF :=
  ⟨by decide, by decide, by decide⟩

theorem tinyConfig_wf : tinyConfig.WF :=
  ⟨by decide, by decide, by decide⟩

theorem boot_world_boot (cfg : Config) (bp0 : Nat) (hal : bp0 % cfg.PAGE_SIZE = 0)
    (hle : bp0 ≤ max_virtual_addr cfg) : Boot cfg (boot_world cfg bp0) where
  mem := rfl
  hist := rfl
  live := rfl
  pid_ne := by intro k; exact Nat.succ_ne_zero k
  pid_inj := by intro k k1 h; exact Nat.succ_injective h
  seg := by intro k; rfl
  bp_al := by intro k; exact hal
  bp_le := by intro k; exact hle

theorem tiny1_reach : CleanReach tinyConfig tiny1 :=
  CleanReach.step _ _ (CleanReach.boot _ (boot_world_boot tinyConfig 0 (by decide) (by decide)))
    (clean_step_alloc _ _ 0 256 _ (by decide) rfl)

theorem tiny2_reach : CleanReach tinyConfig tiny2 :=
  CleanReach.step _ _ tiny1_reach (clean_step_alloc _ _ 0 512 _ (by decide) rfl)

theorem tiny3_reach : CleanReach tinyConfig tiny3 :=
  CleanReach.step _ _ tiny2_reach (clean_step_alloc _ _ 1 256 _ (by decide) rfl)

theorem tiny4_reach : CleanReach tinyConfig tiny4 :=
  CleanReach.step _ _ tiny3_reach
    (clean_step_free _ _ ⟨0, 256, [1, 2]⟩ 2 _ (by decide) (by decide) rfl)

theorem std1_reach : CleanReach stdConfig std1 :=
  CleanReach.step _ _ (CleanReach.boot _ (boot_world_boot stdConfig 0 (by decide) (by decide)))
    (clean_step_alloc _ _ 0 1 _ (by decide) rfl)

theorem std2_reach : CleanReach stdConfig std2 :=
  CleanReach.step _ _ std1_reach (clean_step_alloc _ _ 0 1 _ (by decide) rfl)

theorem addr_page_range (cfg : Config) (a n x : Nat) (hal : a % cfg.PAGE_SIZE = 0)
    (h1 : a ≤ x) (h2 : x < a + n * cfg.PAGE_SIZE) :
    a / cfg.PAGE_SIZE ≤ x / 2 ^ cfg.OFFSET_LEN ∧ x / 2 ^ cfg.OFFSET_LEN < a / cfg.PAGE_SIZE + n := by
  have hPS : 0 < cfg.PAGE_SIZE := Nat.two_pow_pos _
  have hdm := Nat.div_add_mod a cfg.PAGE_SIZE
  rw [hal, Nat.add_zero] at hdm
  constructor
  · exact Nat.div_le_div_right h1
  · show x / cfg.PAGE_SIZE < _
    rw [Nat.div_lt_iff_lt_mul hPS, Nat.add_mul, Nat.mul_comm (a / cfg.PAGE_SIZE), hdm]
    exact h2

theorem translate_mapped (cfg : Config) (hwf : cfg.WF) (p : pcb_t) (x f : Nat)
    (hx : x < 4294967296) (hv : vidx cfg p (x / 2 ^ cfg.OFFSET_LEN) ≠ 0)
    (hp : pidx cfg p (x / 2 ^ cfg.OFFSET_LEN) = f) (hf : f < cfg.NUM_PAGES) :
    ∃ pa, translate cfg x p = some pa ∧ pa >>> cfg.OFFSET_LEN = f := by
  have hO : cfg.OFFSET_LEN < 32 := by
    have := hwf.addr_lt
    unfold Config.ADDRESS_SIZE at this
    omega
  have hfs : f * 2 ^ cfg.OFFSET_LEN < 4294967296 := by
    have h1 := hwf.ram_fits
    have h2 : f * cfg.PAGE_SIZE < cfg.NUM_PAGES * cfg.PAGE_SIZE :=
      Nat.mul_lt_mul_of_pos_right hf (Nat.two_pow_pos _)
    unfold Config.PAGE_SIZE at h1 h2
    omega
  have hoff : x % 2 ^ cfg.OFFSET_LEN < 2 ^ cfg.OFFSET_LEN := Nat.mod_lt _ (Nat.two_pow_pos _)
  refine ⟨_, ?_, (frame_of_phys cfg f _ hfs hoff).2⟩
  rw [translate_eq cfg hO x hx p, if_neg hv, hp]

theorem translate_unmapped (cfg : Config) (hwf : cfg.WF) (p : pcb_t) (x : Nat)
    (hx : x < 4294967296) (hv : vidx cfg p (x / 2 ^ cfg.OFFSET_LEN) = 0) :
    translate cfg x p = none := by
  have hO : cfg.OFFSET_LEN < 32 := by
    have := hwf.addr_lt
    unfold Config.ADDRESS_SIZE at this
    omega
  rw [translate_eq cfg hO x hx p, if_pos hv]

theorem max_lt_u32 (cfg : Config) (hwf : cfg.WF) : max_virtual_addr cfg < 4294967296 := by
  have hmax := max_virtual_addr_eq cfg hwf.addr_lt
  have hA : 2 ^ cfg.ADDRESS_SIZE ≤ 2 ^ 31 :=
    Nat.pow_le_pow_right (by decide) (by have := hwf.addr_lt; omega)
  omega

/-! # Proofs: calls that read an unassigned local -/

theorem free_page_any (cfg : Config) (p : pcb_t) (va : Nat) (hva : va < 4294967296)
    (p1 : pcb_t) (h : free_page_table_entry cfg va p = some p1) :
    p1.pid = p.pid ∧ p1.priority = p.priority ∧ p1.bp = p.bp ∧
    (∀ v, vidx cfg p1 v = if v = va / 2 ^ cfg.OFFSET_LEN then 0 else vidx cfg p v) ∧
    (∀ v, pidx cfg p1 v = pidx cfg p v) := by
  by_cases hm : vidx cfg p (va / 2 ^ cfg.OFFSET_LEN) ≠ 0
  · obtain ⟨p2, h1, h2, h3, h4, h5, h6⟩ := free_page_spec cfg p va hva hm
    rw [h1] at h
    injection h with h
    subst h
    exact ⟨h2, h3, h4, h5, h6⟩
  · have hz : vidx cfg p (va / 2 ^ cfg.OFFSET_LEN) = 0 := not_not.1 hm
    unfold free_page_table_entry at h
    simp only [get_first_lv_eq, get_second_lv_eq cfg va hva] at h
    cases hpt : p.seg_table.pages (va / 2 ^ cfg.OFFSET_LEN / 2 ^ cfg.PAGE_LEN) with
    | none => rw [hpt] at h; cases h
    | some pt =>
      rw [hpt] at h
      injection h with h
      subst h
      refine ⟨rfl, rfl, rfl, ?_, ?_⟩
      · intro v
        have hsp := page_split cfg v (va / 2 ^ cfg.OFFSET_LEN)
        unfold vidx
        by_cases hseg : v / 2 ^ cfg.PAGE_LEN = va / 2 ^ cfg.OFFSET_LEN / 2 ^ cfg.PAGE_LEN
        · by_cases hpg : v % 2 ^ cfg.PAGE_LEN = va / 2 ^ cfg.OFFSET_LEN % 2 ^ cfg.PAGE_LEN
          · have hv : v = va / 2 ^ cfg.OFFSET_LEN := hsp.1 ⟨hseg, hpg⟩
            subst hv
            simp
          · have hv : ¬ v = va / 2 ^ cfg.OFFSET_LEN := fun e => hpg (hsp.2 e).2
            rw [hseg]
            simp [hpt, hv, Function.update_noteq hpg]
        · have hv : ¬ v = va / 2 ^ cfg.OFFSET_LEN := fun e => hseg (hsp.2 e).1
          simp [hv, Function.update_noteq hseg]
      · intro v
        have hsp := page_split cfg v (va / 2 ^ cfg.OFFSET_LEN)
        unfold pidx
        by_cases hseg : v / 2 ^ cfg.PAGE_LEN = va / 2 ^ cfg.OFFSET_LEN / 2 ^ cfg.PAGE_LEN
        · by_cases hpg : v % 2 ^ cfg.PAGE_LEN = va / 2 ^ cfg.OFFSET_LEN % 2 ^ cfg.PAGE_LEN
          · have hv : v = va / 2 ^ cfg.OFFSET_LEN := hsp.1 ⟨hseg, hpg⟩
            subst hv
            simp [hpt]
          · rw [hseg]
            simp [hpt, Function.update_noteq hpg]
        · simp [Function.update_noteq hseg]

theorem free_mem_any (cfg : Config) :
    ∀ (fuel : Nat) (junk : Nat → Nat) (a : Nat) (p : pcb_t) (m : Mem) (ret : Nat)
      (p1 : pcb_t) (m1 : Mem), a < 4294967296 →
      free_mem cfg fuel junk a p m = .ok (ret, p1, m1) →
      ret = 0 ∧ p1.pid = p.pid ∧ p1.priority = p.priority ∧ p1.bp = p.bp ∧
      m1._ram = m._ram ∧ m1.free_frame_left = m.free_frame_left ∧
      (∀ f, m1._mem_stat f = m._mem_stat f ∨
        m1._mem_stat f = ⟨0, (m._mem_stat f).index, (m._mem_stat f).next⟩) ∧
      (∀ v, vidx cfg p1 v = vidx cfg p v ∨ vidx cfg p1 v = 0) ∧
      (∀ v, pidx cfg p1 v = pidx cfg p v) := by
  intro fuel
  induction fuel with
  | zero =>
    intro junk a p m ret p1 m1 _ h
    unfold free_mem at h
    cases h
  | succ fuel ih =>
    intro junk a p m ret p1 m1 ha h
    unfold free_mem at h
    dsimp only at h
    generalize (translate cfg a p).getD (junk 0) >>> cfg.OFFSET_LEN = c at h
    cases hfp : free_page_table_entry cfg a p with
    | none => rw [hfp] at h; cases h
    | some q =>
      rw [hfp] at h
      dsimp only at h
      obtain ⟨q1, q2, q3, q4, q5⟩ := free_page_any cfg p a ha q hfp
      have hstat : ∀ f, Function.update m._mem_stat c
          ⟨0, (m._mem_stat c).index, (m._mem_stat c).next⟩ f = m._mem_stat f ∨
          Function.update m._mem_stat c
            ⟨0, (m._mem_stat c).index, (m._mem_stat c).next⟩ f =
            ⟨0, (m._mem_stat f).index, (m._mem_stat f).next⟩ := by
        intro f
        by_cases e : f = c
        · right; rw [e, Function.update_same]
        · left; rw [Function.update_noteq e]
      have hvid : ∀ v, vidx cfg q v = vidx cfg p v ∨ vidx cfg q v = 0 := by
        intro v
        rw [q4 v]
        by_cases e : v = a / 2 ^ cfg.OFFSET_LEN
        · right; rw [if_pos e]
        · left; rw [if_neg e]
      split_ifs at h with h1 h2
      · injection h with h
        injection h with e1 h
        injection h with e2 e3
        subst e1; subst e2; subst e3
        exact ⟨rfl, q1, q2, q3, rfl, rfl, hstat, hvid, q5⟩
      · have ha1 : u32 (a + cfg.PAGE_SIZE) < 4294967296 := Nat.mod_lt _ (by decide)
        obtain ⟨r1, r2, r3, r4, r5, r6, r7, r8, r9⟩ := ih _ _ _ _ _ _ _ ha1 h
        refine ⟨r1, by rw [r2, q1], by rw [r3, q2], by rw [r4, q3], r5, r6, ?_, ?_, ?_⟩
        · intro f
          rcases r7 f with e | e
          · rw [e]; exact hstat f
          · right
            rw [e]
            dsimp only
            by_cases e1 : f = c
            · rw [e1, Function.update_same]
            · rw [Function.update_noteq e1]
        · intro v
          rcases r8 v with e | e
          · rw [e]; exact hvid v
          · right; exact e
        · intro v
          rw [r9, q5]

theorem alloc_loop_zero (cfg : Config) (k i : Nat) (st : alloc_scan) :
    alloc_loop cfg 0 k i st = st := by
  cases k with
  | zero => rfl
  | succ k =>
    unfold alloc_loop
    rw [if_neg (Nat.not_lt_zero _)]

theorem u32_sub_zero (x : Nat) (h : x < 4294967296) : u32_sub x 0 = x := by
  unfold u32_sub u32
  omega

/-- A request that is counted as 0 pages and passes the checks: the call returns
the break pointer; the process, the memory and the free counter are what they
were, and the `next` field of the frame record that the unassigned
`last_frame_index` names is -1. -/
theorem alloc_mem_zero (cfg : Config) (junk size : Nat) (p : pcb_t) (m : Mem)
    (hav : mem_avail cfg size p m = true) (hn : num_pages_of cfg size = 0)
    (hffl : m.free_frame_left < 4294967296) :
    alloc_mem cfg junk size p m = .ok (p.bp, p, ⟨m._ram, m.free_frame_left,
      Function.update m._mem_stat junk
        ⟨(m._mem_stat junk).proc, (m._mem_stat junk).index, -1⟩⟩) := by
  unfold alloc_mem
  rw [hav, hn]
  simp only [alloc_loop_zero, if_true, Option.getD_none, Nat.lt_irrefl, if_false,
    u32_sub_zero _ hffl]

/-! # Proofs: the free-frame counter -/

theorem free_count_eq (cfg : Config) (m : Mem) :
    free_count cfg m = (free_frames cfg m).length := rfl

theorem mem_free_frames (cfg : Config) (m : Mem) (x : Nat) :
    x ∈ free_frames cfg m ↔ x < cfg.NUM_PAGES ∧ (m._mem_stat x).proc = 0 := by
  unfold free_frames
  rw [List.mem_filter, List.mem_range, decide_eq_true_iff]

theorem free_frames_nodup (cfg : Config) (m : Mem) : (free_frames cfg m).Nodup :=
  List.Nodup.filter _ (List.nodup_range _)

theorem free_count_boot (cfg : Config) :
    free_count cfg (init_mem cfg (start_mem cfg)) = cfg.NUM_PAGES := by
  unfold free_count
  have : (List.range cfg.NUM_PAGES).filter
      (fun f => decide (((init_mem cfg (start_mem cfg))._mem_stat f).proc = 0)) =
      List.range cfg.NUM_PAGES := by
    rw [List.filter_eq_self]
    intro a _
    unfold init_mem start_mem
    simp
  rw [this, List.length_range]

theorem free_count_le (cfg : Config) (m : Mem) : free_count cfg m ≤ cfg.NUM_PAGES := by
  unfold free_count
  exact le_trans (List.length_filter_le _ _) (by rw [List.length_range])

theorem free_count_mono (cfg : Config) (m m1 : Mem)
    (h : ∀ f, (m._mem_stat f).proc = 0 → (m1._mem_stat f).proc = 0) :
    free_count cfg m ≤ free_count cfg m1 := by
  have hsub : free_frames cfg m ⊆ free_frames cfg m1 := by
    intro x hx
    rw [mem_free_frames] at hx ⊢
    exact ⟨hx.1, h x hx.2⟩
  exact (List.subperm_of_subset (free_frames_nodup cfg m) hsub).length_le

theorem free_count_alloc (cfg : Config) (n : Nat) (p : pcb_t) (m : Mem) (ret : Nat)
    (p1 : pcb_t) (m1 : Mem) (fs : List Nat) (post : AllocPost cfg n p m ret p1 m1 fs) :
    free_count cfg m ≤ free_count cfg m1 + n := by
  have hsub : free_frames cfg m ⊆ free_frames cfg m1 ++ fs := by
    intro x hx
    rw [mem_free_frames] at hx
    by_cases hm : x ∈ fs
    · exact List.mem_append.2 (Or.inr hm)
    · refine List.mem_append.2 (Or.inl ?_)
      rw [mem_free_frames, post.other x hm]
      exact hx
  have hlen := (List.subperm_of_subset (free_frames_nodup cfg m) hsub).length_le
  rw [List.length_append, post.len] at hlen
  exact hlen

/-! # Proofs: the walk of `free_mem` up to the first terminator -/

theorem base_unset (cfg : Config) (w : World) (h : BaseInv cfg w) (k v : Nat)
    (hv : (w.procs k).bp / cfg.PAGE_SIZE ≤ v) : vidx cfg (w.procs k) v = 0 := by
  by_contra hne
  have := (h.rows k v hne).2
  omega

theorem base_ffl_le (cfg : Config) (w : World) (h : BaseInv cfg w) :
    w.mem.free_frame_left ≤ cfg.NUM_PAGES :=
  le_trans h.ffl_free (free_count_le cfg w.mem)

theorem base_boot (cfg : Config) (w : World) (hb : Boot cfg w) : BaseInv cfg w := by
  have hv : ∀ k v, vidx cfg (w.procs k) v = 0 := by
    intro k v
    unfold vidx
    rw [hb.seg k]
    unfold init_segment_table
    simp
  constructor
  · exact hb.pid_ne
  · exact hb.pid_inj
  · exact hb.bp_al
  · exact hb.bp_le
  · rw [hb.mem, free_count_boot]
    exact Nat.le_refl _
  · intro k v hne; exact absurd (hv k v) hne
  · intro r hr; rw [hb.hist] at hr; cases hr
  · intro r hr; rw [hb.hist] at hr; cases hr
  · rw [hb.hist]; exact List.Pairwise.nil
  · rw [hb.live, hb.hist]

theorem base_ram (cfg : Config) (w : World) (h : BaseInv cfg w) (ram : Nat → Nat) :
    BaseInv cfg ⟨⟨ram, w.mem.free_frame_left, w.mem._mem_stat⟩, w.procs, w.hist, w.live⟩ :=
  ⟨h.pid_ne, h.pid_inj, h.bp_al, h.bp_le, h.ffl_free, h.rows, h.hist_al, h.hist_bp,
    h.hist_sep, h.live_sub⟩

theorem base_write (cfg : Config) (w : World) (h : BaseInv cfg w) (k address data : Nat) :
    BaseInv cfg ⟨(write_mem cfg address (w.procs k) data w.mem).2, w.procs, w.hist, w.live⟩ := by
  unfold write_mem
  cases translate cfg address (w.procs k) with
  | none => exact h
  | some pa => exact base_ram cfg w h _

theorem base_alloc_fail (cfg : Config) (w : World) (h : BaseInv cfg w) (k junk size ret : Nat)
    (p1 : pcb_t) (m1 : Mem) (hav : mem_avail cfg size (w.procs k) w.mem = false)
    (hres : alloc_mem cfg junk size (w.procs k) w.mem = .ok (ret, p1, m1)) :
    BaseInv cfg ⟨m1, Function.update w.procs k p1, w.hist, w.live⟩ := by
  rw [alloc_mem_refused cfg junk size _ _ hav] at hres
  injection hres with hres
  injection hres with _ hres
  injection hres with hp hm
  subst hp; subst hm
  rw [Function.update_eq_self]
  exact h

theorem base_alloc_post (cfg : Config) (w : World) (h : BaseInv cfg w) (k n ret : Nat)
    (p1 : pcb_t) (m1 : Mem) (fs : List Nat)
    (post : AllocPost cfg n (w.procs k) w.mem ret p1 m1 fs) :
    BaseInv cfg ⟨m1, Function.update w.procs k p1, ⟨k, ret, fs⟩ :: w.hist,
      ⟨k, ret, fs⟩ :: w.live⟩ := by
  have hPS : 0 < cfg.PAGE_SIZE := Nat.two_pow_pos _
  have hpid : ∀ k1, (Function.update w.procs k p1 k1).pid = (w.procs k1).pid := by
    intro k1
    by_cases e : k1 = k
    · subst e; rw [Function.update_same, post.pid]
    · rw [Function.update_noteq e]
  have hbp : ∀ k1, (w.procs k1).bp ≤ (Function.update w.procs k p1 k1).bp := by
    intro k1
    by_cases e : k1 = k
    · subst e; rw [Function.update_same, post.bp]; omega
    · rw [Function.update_noteq e]
  have hnew : (Function.update w.procs k p1 k).bp = (w.procs k).bp + n * cfg.PAGE_SIZE := by
    rw [Function.update_same, post.bp]
  have hpage : ((w.procs k).bp + n * cfg.PAGE_SIZE) / cfg.PAGE_SIZE =
      (w.procs k).bp / cfg.PAGE_SIZE + n := Nat.add_mul_div_right _ _ hPS
  constructor
  all_goals (try dsimp only)
  · intro k1; rw [hpid]; exact h.pid_ne k1
  · intro k1 k2; rw [hpid, hpid]; exact h.pid_inj k1 k2
  · intro k1
    by_cases e : k1 = k
    · subst e
      rw [hnew, Nat.add_mul_mod_self_right]
      exact h.bp_al k1
    · rw [Function.update_noteq e]; exact h.bp_al k1
  · intro k1
    by_cases e : k1 = k
    · subst e; rw [hnew]; exact post.bp_le
    · rw [Function.update_noteq e]; exact h.bp_le k1
  · have h1 := free_count_alloc cfg n _ _ _ _ _ _ post
    have h2 := h.ffl_free
    have h3 := post.ffl_le
    rw [post.ffl]
    omega
  · intro k1 v hne
    by_cases e : k1 = k
    · subst e
      rw [Function.update_same] at hne ⊢
      rw [post.bp, hpage]
      rw [post.vmap] at hne ⊢
      by_cases hrg : (w.procs k1).bp / cfg.PAGE_SIZE ≤ v ∧ v < (w.procs k1).bp / cfg.PAGE_SIZE + n
      · rw [if_pos hrg]
        exact ⟨rfl, hrg.2⟩
      · rw [if_neg hrg] at hne ⊢
        obtain ⟨h1, h2⟩ := h.rows k1 v hne
        exact ⟨h1, by omega⟩
    · rw [Function.update_noteq e] at hne ⊢
      exact h.rows k1 v hne
  · intro r hr
    rcases List.mem_cons.1 hr with e | hr
    · rw [e]
      show ret % cfg.PAGE_SIZE = 0
      rw [post.ret_eq]
      exact h.bp_al k
    · exact h.hist_al r hr
  · intro r hr
    rcases List.mem_cons.1 hr with e | hr
    · rw [e]
      show ret + fs.length * cfg.PAGE_SIZE ≤ (Function.update w.procs k p1 k).bp
      rw [hnew, post.ret_eq, post.len]
    · exact le_trans (h.hist_bp r hr) (hbp r.slot)
  · rw [List.pairwise_cons]
    refine ⟨?_, h.hist_sep⟩
    intro r1 hr1 hslot
    show r1.addr + r1.frames.length * cfg.PAGE_SIZE ≤ ret
    have := h.hist_bp r1 hr1
    rw [← hslot] at this
    rw [post.ret_eq]
    exact this
  · exact List.Sublist.cons₂ _ h.live_sub

theorem base_alloc_zero (cfg : Config) (w : World) (h : BaseInv cfg w) (k junk : Nat) :
    BaseInv cfg ⟨⟨w.mem._ram, w.mem.free_frame_left,
        Function.update w.mem._mem_stat junk
          ⟨(w.mem._mem_stat junk).proc, (w.mem._mem_stat junk).index, -1⟩⟩,
      Function.update w.procs k (w.procs k), ⟨k, (w.procs k).bp, []⟩ :: w.hist,
      ⟨k, (w.procs k).bp, []⟩ :: w.live⟩ := by
  rw [Function.update_eq_self]
  constructor
  all_goals (try dsimp only)
  · exact h.pid_ne
  · exact h.pid_inj
  · exact h.bp_al
  · exact h.bp_le
  · refine le_trans h.ffl_free (free_count_mono cfg _ _ ?_)
    intro f hf
    dsimp only
    by_cases e : f = junk
    · rw [e, Function.update_same]
      rw [e] at hf
      exact hf
    · rw [Function.update_noteq e]
      exact hf
  · exact h.rows
  · intro r hr
    rcases List.mem_cons.1 hr with e | hr
    · rw [e]; exact h.bp_al k
    · exact h.hist_al r hr
  · intro r hr
    rcases List.mem_cons.1 hr with e | hr
    · rw [e]
      show (w.procs k).bp + 0 * cfg.PAGE_SIZE ≤ (w.procs k).bp
      omega
    · exact h.hist_bp r hr
  · rw [List.pairwise_cons]
    refine ⟨?_, h.hist_sep⟩
    intro r1 hr1 hslot
    show r1.addr + r1.frames.length * cfg.PAGE_SIZE ≤ (w.procs k).bp
    have := h.hist_bp r1 hr1
    rw [← hslot] at this
    exact this
  · exact List.Sublist.cons₂ _ h.live_sub

theorem num_pages_lt (cfg : Config) (size : Nat) : num_pages_of cfg size < 4294967296 :=
  Nat.mod_lt _ (by decide)

theorem base_ffl_lt (cfg : Config) (hwf : cfg.WF) (w : World) (h : BaseInv cfg w) :
    w.mem.free_frame_left < 4294967296 := by
  have h1 := base_ffl_le cfg w h
  have h2 := hwf.ram_fits
  have h3 : cfg.NUM_PAGES ≤ cfg.NUM_PAGES * cfg.PAGE_SIZE :=
    Nat.le_mul_of_pos_right _ (Nat.two_pow_pos _)
  omega

/-- Effect of a call of `alloc_mem` that takes the allocation branch in a
reachable state and returns: for a page count of at least 1 the effect is
`AllocPost`; for a page count of 0 the only change is the store of -1 into the
`next` field of the record that the unassigned `last_frame_index` names. -/
theorem base_alloc_cases (cfg : Config) (hwf : cfg.WF) (w : World) (h : BaseInv cfg w)
    (k junk size ret : Nat) (p1 : pcb_t) (m1 : Mem)
    (hav : mem_avail cfg size (w.procs k) w.mem = true)
    (hres : alloc_mem cfg junk size (w.procs k) w.mem = .ok (ret, p1, m1)) :
    (0 < num_pages_of cfg size ∧
      ∃ fs, AllocPost cfg (num_pages_of cfg size) (w.procs k) w.mem ret p1 m1 fs) ∨
    (num_pages_of cfg size = 0 ∧ ret = (w.procs k).bp ∧ p1 = w.procs k ∧
      m1 = ⟨w.mem._ram, w.mem.free_frame_left,
        Function.update w.mem._mem_stat junk
          ⟨(w.mem._mem_stat junk).proc, (w.mem._mem_stat junk).index, -1⟩⟩) := by
  by_cases hn : 0 < num_pages_of cfg size
  · left
    exact ⟨hn, alloc_mem_spec cfg hwf junk size _ _ hav hn (h.bp_le k) (base_ffl_le cfg w h)
      (base_unset cfg w h k) ret p1 m1 hres⟩
  · right
    have hn0 : num_pages_of cfg size = 0 := by omega
    rw [alloc_mem_zero cfg junk size _ _ hav hn0 (base_ffl_lt cfg hwf w h)] at hres
    injection hres with hres
    injection hres with e1 hres
    injection hres with e2 e3
    exact ⟨hn0, e1.symm, e2.symm, e3.symm⟩

theorem base_alloc_ok (cfg : Config) (hwf : cfg.WF) (w : World) (h : BaseInv cfg w)
    (k junk size ret : Nat) (p1 : pcb_t) (m1 : Mem)
    (hav : mem_avail cfg size (w.procs k) w.mem = true)
    (hres : alloc_mem cfg junk size (w.procs k) w.mem = .ok (ret, p1, m1)) :
    BaseInv cfg ⟨m1, Function.update w.procs k p1,
      ⟨k, ret, frames_of cfg p1 ret (num_pages_of cfg size)⟩ :: w.hist,
      ⟨k, ret, frames_of cfg p1 ret (num_pages_of cfg size)⟩ :: w.live⟩ := by
  rcases base_alloc_cases cfg hwf w h k junk size ret p1 m1 hav hres with
    ⟨_, fs, post⟩ | ⟨hn0, e1, e2, e3⟩
  · rw [frames_of_post cfg _ _ _ _ _ _ _ post]
    exact base_alloc_post cfg w h k _ ret p1 m1 fs post
  · rw [hn0, e1, e2, e3]
    exact base_alloc_zero cfg w h k junk

theorem base_live_addr (cfg : Config) (hwf : cfg.WF) (w : World) (h : BaseInv cfg w)
    (r : alloc_rec) (hr : r ∈ w.live) :
    r.addr + r.frames.length * cfg.PAGE_SIZE ≤ max_virtual_addr cfg ∧ r.addr < 4294967296 := by
  have h1 := h.hist_bp r (h.live_sub.subset hr)
  have h2 := h.bp_le r.slot
  have h3 := max_lt_u32 cfg hwf
  exact ⟨by omega, by omega⟩

theorem base_free (cfg : Config) (hwf : cfg.WF) (w : World) (h : BaseInv cfg w)
    (r : alloc_rec) (hr : r ∈ w.live) (junk : Nat → Nat) (fuel ret : Nat) (p1 : pcb_t)
    (m1 : Mem)
    (hres : free_mem cfg fuel junk r.addr (w.procs r.slot) w.mem = .ok (ret, p1, m1)) :
    BaseInv cfg ⟨m1, Function.update w.procs r.slot p1, w.hist, w.live.erase r⟩ := by
  obtain ⟨_, e2, _, e4, _, e6, e7, e8, _⟩ := free_mem_any cfg fuel junk r.addr _ _ ret p1 m1
    (base_live_addr cfg hwf w h r hr).2 hres
  have hpid : ∀ k1, (Function.update w.procs r.slot p1 k1).pid = (w.procs k1).pid := by
    intro k1
    by_cases e : k1 = r.slot
    · rw [e, Function.update_same, e2]
    · rw [Function.update_noteq e]
  have hbp : ∀ k1, (Function.update w.procs r.slot p1 k1).bp = (w.procs k1).bp := by
    intro k1
    by_cases e : k1 = r.slot
    · rw [e, Function.update_same, e4]
    · rw [Function.update_noteq e]
  constructor
  all_goals (try dsimp only)
  · intro k1; rw [hpid]; exact h.pid_ne k1
  · intro k1 k2; rw [hpid, hpid]; exact h.pid_inj k1 k2
  · intro k1; rw [hbp]; exact h.bp_al k1
  · intro k1; rw [hbp]; exact h.bp_le k1
  · rw [e6]
    refine le_trans h.ffl_free (free_count_mono cfg _ _ ?_)
    intro f hf
    rcases e7 f with e | e
    · rw [e]; exact hf
    · rw [e]
  · intro k1 v hne
    rw [hbp]
    by_cases e : k1 = r.slot
    · rw [e, Function.update_same] at hne ⊢
      rcases e8 v with e1 | e1
      · rw [e1] at hne ⊢
        exact h.rows r.slot v hne
      · exact absurd e1 hne
    · rw [Function.update_noteq e] at hne ⊢
      exact h.rows k1 v hne
  · exact h.hist_al
  · intro r1 hr1; rw [hbp]; exact h.hist_bp r1 hr1
  · exact h.hist_sep
  · exact (List.erase_sublist r w.live).trans h.live_sub

theorem base_step (cfg : Config) (hwf : cfg.WF) (w w1 : World) (h : BaseInv cfg w)
    (hs : Step cfg w w1) : BaseInv cfg w1 := by
  cases hs with
  | alloc_ok k junk size ret p1 m1 hav hres =>
    exact base_alloc_ok cfg hwf w h k junk size ret p1 m1 hav hres
  | alloc_fail k junk size ret p1 m1 hav hres =>
    exact base_alloc_fail cfg w h k junk size ret p1 m1 hav hres
  | free r junk fuel ret p1 m1 hr hres =>
    exact base_free cfg hwf w h r hr junk fuel ret p1 m1 hres
  | write k address data => exact base_write cfg w h k address data

theorem reach_base (cfg : Config) (hwf : cfg.WF) (w : World) (h : Reach cfg w) :
    BaseInv cfg w := by
  induction h with
  | boot w hb => exact base_boot cfg w hb
  | step w w1 _ hs ih => exact base_step cfg hwf w w1 ih hs

theorem reach_run (cfg : Config) (w w1 : World) (hr : Reach cfg w)
    (hrun : Relation.ReflTransGen (Step cfg) w w1) : Reach cfg w1 := by
  induction hrun with
  | refl => exact hr
  | tail _ hs ih => exact Reach.step _ _ ih hs

theorem step_bp_mono (cfg : Config) (hwf : cfg.WF) (w w1 : World) (h : BaseInv cfg w)
    (hs : Step cfg w w1) (k : Nat) : (w.procs k).bp ≤ (w1.procs k).bp := by
  cases hs with
  | alloc_ok k1 junk size ret p1 m1 hav hres =>
    show _ ≤ (Function.update w.procs k1 p1 k).bp
    by_cases e : k = k1
    · subst e
      rw [Function.update_same]
      rcases base_alloc_cases cfg hwf w h k junk size ret p1 m1 hav hres with
        ⟨_, fs, post⟩ | ⟨_, _, e2, _⟩
      · rw [post.bp]; omega
      · rw [e2]
    · rw [Function.update_noteq e]
  | alloc_fail k1 junk size ret p1 m1 hav hres =>
    rw [alloc_mem_refused cfg junk size _ _ hav] at hres
    injection hres with hres
    injection hres with _ hres
    injection hres with hp _
    subst hp
    show _ ≤ (Function.update w.procs k1 (w.procs k1) k).bp
    rw [Function.update_eq_self]
  | free r junk fuel ret p1 m1 hr hres =>
    obtain ⟨_, _, _, e4, _⟩ := free_mem_any cfg fuel junk r.addr _ _ ret p1 m1
      (base_live_addr cfg hwf w h r hr).2 hres
    show _ ≤ (Function.update w.procs r.slot p1 k).bp
    by_cases e : k = r.slot
    · rw [e, Function.update_same, e4]
    · rw [Function.update_noteq e]
  | write k1 address data => exact Nat.le_refl _

theorem run_bp_mono (cfg : Config) (hwf : cfg.WF) (w w1 : World) (hr : Reach cfg w)
    (hrun : Relation.ReflTransGen (Step cfg) w w1) (k : Nat) :
    (w.procs k).bp ≤ (w1.procs k).bp := by
  induction hrun with
  | refl => exact Nat.le_refl _
  | tail hrun1 hs ih =>
    exact le_trans ih (step_bp_mono cfg hwf _ _
      (reach_base cfg hwf _ (reach_run cfg w _ hr hrun1)) hs k)

/-! # Proofs: the invariant of the runs without a `free_mem` that reads junk -/

theorem num_pages_of_page_len (cfg : Config) (h0 : 0 < cfg.PAGE_LEN)
    (h1 : cfg.PAGE_LEN < cfg.PAGE_SIZE) :
    num_pages_of cfg cfg.PAGE_LEN = 0 ∧ ceil_pages cfg cfg.PAGE_LEN = 1 := by
  constructor
  · unfold num_pages_of
    rw [Nat.div_eq_of_lt h1, Nat.mod_self]
    rfl
  · unfold ceil_pages
    have h2 : cfg.PAGE_LEN + cfg.PAGE_SIZE - 1 = (cfg.PAGE_LEN - 1) + 1 * cfg.PAGE_SIZE := by omega
    rw [h2, Nat.add_mul_div_right _ _ (by omega), Nat.div_eq_of_lt (by omega)]

/-! # The claims -/

/-- C2 (frame conservation) does not hold on the code: `free_mem` clears the
owner of the frames it releases and never adds them back to `free_frame_left`.
On the four-frame layout, with memory full (counter 0, four owned frames),
process 1 frees its two-frame allocation at address 256: afterwards the counter
is still 0 and two frames are owned, so the sum is 2 and not `NUM_PAGES = 4`.
No call of the run reads an unassigned local: every request is counted as at
least one page and the freed allocation does not start at address 0. -/
theorem C2_frame_conservation_fails :
    Reach tinyConfig tiny3 ∧
    tiny3.mem.free_frame_left + owned_count tinyConfig tiny3.mem = tinyConfig.NUM_PAGES ∧
    (⟨0, 256, [1, 2]⟩ : alloc_rec) ∈ tiny3.live ∧
    Reach tinyConfig tiny4 ∧
    tiny4.mem.free_frame_left = 0 ∧
    owned_count tinyConfig tiny4.mem = 2 ∧
    tiny4.mem.free_frame_left + owned_count tinyConfig tiny4.mem ≠ tinyConfig.NUM_PAGES ∧
    CleanReach tinyConfig tiny3 ∧ CleanReach tinyConfig tiny4 ∧
    free_mem tinyConfig 2 (fun _ => 0) 256 (tiny3.procs 0) tiny3.mem =
      .ok (0, tiny4.procs 0, tiny4.mem) :=
  ⟨clean_reach _ tinyConfig_wf _ tiny3_reach, by decide, by decide, clean_reach _ tinyConfig_wf _ tiny4_reach, by decide,
    by decide, by decide, tiny3_reach, tiny4_reach, rfl⟩

/-- C5 (page count is the ceiling of `size / PAGE_SIZE`) does not hold on the
code: the remainder is taken modulo `PAGE_LEN`, not `PAGE_SIZE`.  On the standard
layout a request of `PAGE_SIZE = 1024` bytes is counted as 2 pages and claims the
two frames 0 and 1, and a request of 5 bytes is counted as 0 pages. -/
theorem C5_page_count_diverges :
    stdConfig.PAGE_SIZE = 1024 ∧
    num_pages_of stdConfig 1024 = 2 ∧ ceil_pages stdConfig 1024 = 1 ∧
    std_page.live = [⟨0, 0, [0, 1]⟩] ∧
    num_pages_of stdConfig 5 = 0 ∧ ceil_pages stdConfig 5 = 1 :=
  ⟨by decide, by decide, by decide, by decide, by decide, by decide⟩

/-- C6 (reuse after free) does not hold on the code.  On the four-frame layout
memory is full; process 1 frees its two-frame allocation at address 256, so two
frame records have owner 0.  Process 2 then asks for 256 bytes (one page, which
fits in its address space): the request is refused, because `free_frame_left` is
still 0, and the call returns 0 and changes nothing.  No call of the run reads
an unassigned local. -/
theorem C6_no_reuse_after_free :
    Reach tinyConfig tiny4 ∧
    owned_count tinyConfig tiny3.mem = tinyConfig.NUM_PAGES ∧
    free_count tinyConfig tiny4.mem = 2 ∧
    num_pages_of tinyConfig 256 = 1 ∧
    (tiny4.procs 1).bp + 1 * tinyConfig.PAGE_SIZE ≤ max_virtual_addr tinyConfig ∧
    mem_avail tinyConfig 256 (tiny4.procs 1) tiny4.mem = false ∧
    (∀ junk, alloc_mem tinyConfig junk 256 (tiny4.procs 1) tiny4.mem =
      .ok (0, tiny4.procs 1, tiny4.mem)) ∧
    CleanReach tinyConfig tiny4 :=
  ⟨clean_reach _ tinyConfig_wf _ tiny4_reach, by decide, by decide, by decide, by decide, by decide,
    fun junk => alloc_mem_refused _ junk _ _ _ (by decide), tiny4_reach⟩

/-- C7: when the page count of a request exceeds `free_frame_left`, `alloc_mem`
returns 0 and the process (break pointer, segment table, page tables) and the
globals (frame table, free counter, memory) are exactly what they were. -/
theorem C7_alloc_refused_unchanged (cfg : Config) (junk size : Nat) (proc : pcb_t) (mem : Mem)
    (h : mem.free_frame_left < num_pages_of cfg size) :
    alloc_mem cfg junk size proc mem = .ok (0, proc, mem) := by
  apply alloc_mem_refused
  unfold mem_avail
  simp only [h, if_true]
  split_ifs <;> rfl

theorem C7_alloc_refused_unchanged_witness :
    tiny3.mem.free_frame_left < num_pages_of tinyConfig 256 ∧
    ∀ junk, alloc_mem tinyConfig junk 256 (tiny3.procs 1) tiny3.mem =
      .ok (0, tiny3.procs 1, tiny3.mem) :=
  ⟨by decide, fun junk =>
    C7_alloc_refused_unchanged tinyConfig junk 256 (tiny3.procs 1) tiny3.mem (by decide)⟩

/-- C3 as stated does not hold: on the standard layout a fresh process with break
pointer 0 allocates one byte; the call succeeds and returns address 0, and
`translate` of that address fails, because the page-table row of virtual page 0
stores the page number 0, which is the mark of an unused row. -/
theorem C3_counterexample :
    Reach stdConfig (boot_world stdConfig 0) ∧
    ((boot_world stdConfig 0).procs 0).bp = 0 ∧
    mem_avail stdConfig 1 ((boot_world stdConfig 0).procs 0) (boot_world stdConfig 0).mem = true ∧
    (∀ junk, alloc_mem stdConfig junk 1 ((boot_world stdConfig 0).procs 0)
      (boot_world stdConfig 0).mem = .ok (0, std1.procs 0, std1.mem)) ∧
    translate stdConfig 0 (std1.procs 0) = none :=
  ⟨Reach.boot _ (boot_world_boot stdConfig 0 (by decide) (by decide)), rfl, by decide,
    fun _ => rfl, by decide⟩

/-- C3, amended: in every reachable machine state, whatever the calls before,
after a successful `alloc_mem(size, proc)` the returned address is the old break
pointer, and every address of the allocated range
`[a, a + num_pages * PAGE_SIZE)` that does not lie on virtual page 0 (that is,
every address of the range that is at least `PAGE_SIZE`) translates to a
physical address inside a frame with index below `NUM_PAGES` whose record names
the requesting process as owner. -/
theorem C3_translation_round_trip (cfg : Config) (hwf : cfg.WF) (w : World)
    (hr : Reach cfg w) (k junk size ret : Nat) (p1 : pcb_t) (m1 : Mem)
    (hav : mem_avail cfg size (w.procs k) w.mem = true)
    (hres : alloc_mem cfg junk size (w.procs k) w.mem = .ok (ret, p1, m1)) :
    ret = (w.procs k).bp ∧
    ∀ x, ret ≤ x → x < ret + num_pages_of cfg size * cfg.PAGE_SIZE → cfg.PAGE_SIZE ≤ x →
      ∃ pa, translate cfg x p1 = some pa ∧
        pa >>> cfg.OFFSET_LEN < cfg.NUM_PAGES ∧
        (m1._mem_stat (pa >>> cfg.OFFSET_LEN)).proc = p1.pid := by
  have h := reach_base cfg hwf w hr
  rcases base_alloc_cases cfg hwf w h k junk size ret p1 m1 hav hres with
    ⟨_, fs, post⟩ | ⟨hn0, e1, _, _⟩
  · refine ⟨post.ret_eq, ?_⟩
    intro x hx1 hx2 hx3
    rw [post.ret_eq] at hx1 hx2
    have hPS : 0 < cfg.PAGE_SIZE := Nat.two_pow_pos _
    obtain ⟨hv1, hv2⟩ := addr_page_range cfg _ _ x (h.bp_al k) hx1 hx2
    have hv0 : 0 < x / 2 ^ cfg.OFFSET_LEN := Nat.div_pos hx3 hPS
    have hxlt : x < 4294967296 := by
      have := post.bp_le
      have := max_lt_u32 cfg hwf
      omega
    have hj : x / 2 ^ cfg.OFFSET_LEN - (w.procs k).bp / cfg.PAGE_SIZE < fs.length := by
      rw [post.len]; omega
    have hvid : vidx cfg p1 (x / 2 ^ cfg.OFFSET_LEN) ≠ 0 := by
      rw [post.vmap, if_pos ⟨hv1, hv2⟩]; omega
    have hpid : pidx cfg p1 (x / 2 ^ cfg.OFFSET_LEN) =
        fs[x / 2 ^ cfg.OFFSET_LEN - (w.procs k).bp / cfg.PAGE_SIZE] := by
      rw [post.pmap, if_pos ⟨hv1, hv2⟩, List.getElem?_eq_getElem hj]
      rfl
    have hfm := List.getElem?_eq_getElem hj
    obtain ⟨pa, hpa1, hpa2⟩ := translate_mapped cfg hwf p1 x _ hxlt hvid hpid
      (post.lt_num _ (List.getElem?_mem hfm))
    refine ⟨pa, hpa1, ?_, ?_⟩
    · rw [hpa2]; exact post.lt_num _ (List.getElem?_mem hfm)
    · rw [hpa2, post.stat _ _ hfm, post.pid]
  · refine ⟨e1, ?_⟩
    intro x hx1 hx2
    rw [hn0] at hx2
    omega

theorem C3_translation_round_trip_witness :
    Reach stdConfig std1 ∧
    mem_avail stdConfig 1 (std1.procs 0) std1.mem = true ∧
    alloc_mem stdConfig 0 1 (std1.procs 0) std1.mem = .ok (1024, std2.procs 0, std2.mem) ∧
    (1024 = (std1.procs 0).bp ∧
      ∀ x, 1024 ≤ x → x < 1024 + num_pages_of stdConfig 1 * stdConfig.PAGE_SIZE →
        stdConfig.PAGE_SIZE ≤ x →
        ∃ pa, translate stdConfig x (std2.procs 0) = some pa ∧
          pa >>> stdConfig.OFFSET_LEN < stdConfig.NUM_PAGES ∧
          (std2.mem._mem_stat (pa >>> stdConfig.OFFSET_LEN)).proc = (std2.procs 0).pid) :=
  ⟨clean_reach _ stdConfig_wf _ std1_reach, by decide, rfl,
    C3_translation_round_trip stdConfig stdConfig_wf std1 (clean_reach _ stdConfig_wf _ std1_reach) 0 0 1
      1024 (std2.procs 0) std2.mem (by decide) rfl⟩

/-- C4 as stated does not hold, on the standard layout.
(1) Process 2 and then process 1 allocate one byte each; both get address 0,
process 2 gets frame 0 and process 1 frame 1.  Process 1 calls `free_mem(0)` on
its live allocation: `translate` fails on virtual page 0, the call goes on with
the unassigned `physical_addr`; with the value 0 there it clears the owner of
frame 0 and returns, and frame 1, the frame of the freed allocation, still
carries pid 1.
(2) With break pointers at 1024 at the start, process 1 allocates 1024 bytes
(two pages at address 1024, frames 0 and 1) and then asks for 5 bytes, which are
counted as 0 pages: the store through the unassigned `last_frame_index`, holding
0, sets `next` of frame 0 to -1.  `free_mem(1024)` on the live two-page
allocation then returns after one round; frame 1 keeps pid 1 and address 2048
still translates.
(3) Process 2 allocates one byte (address 0, frame 0), frees it and allocates
one byte again (address 1024, frame 0).  Process 1 allocates one byte
(address 0, frame 1) and calls `free_mem(0)`, which clears the owner of frame 0,
and then allocates 1024 bytes: two pages, frames 0 and 2, so that `next` of
frame 0 is 2.  One round of `free_mem(1024)` by process 2 on its live one-page
allocation, which does not start at address 0, does not reach a terminator. -/
theorem C4_counterexample :
    (Reach stdConfig za2 ∧ (⟨0, 0, [1]⟩ : alloc_rec) ∈ za2.live ∧
      free_mem stdConfig 1 (fun _ => 0) 0 (za2.procs 0) za2.mem =
        .ok (0, za3.procs 0, za3.mem) ∧
      (za3.mem._mem_stat 1).proc = (za3.procs 0).pid ∧ (za3.procs 0).pid = 1) ∧
    (TameReach stdConfig zc2 ∧ (⟨0, 1024, [0, 1]⟩ : alloc_rec) ∈ zc2.live ∧
      (zc1.mem._mem_stat 0).next = 1 ∧ (zc2.mem._mem_stat 0).next = -1 ∧
      free_mem stdConfig 1 (fun _ => 0) 1024 (zc2.procs 0) zc2.mem =
        .ok (0, zc3.procs 0, zc3.mem) ∧
      (zc3.mem._mem_stat 1).proc = 1 ∧
      translate stdConfig 2048 (zc3.procs 0) = some 1024) ∧
    (Reach stdConfig zf7 ∧ (⟨1, 1024, [0]⟩ : alloc_rec) ∈ zf7.live ∧
      (zf7.mem._mem_stat 0).next = 2 ∧
      free_mem stdConfig 1 (fun _ => 0) 1024 (zf7.procs 1) zf7.mem = .timeout) := by
  have hb := boot_world_boot stdConfig 0 (by decide) (by decide)
  have hb1 := boot_world_boot stdConfig 1024 (by decide) (by decide)
  have h1 : Reach stdConfig za1 :=
    Reach.step _ _ (Reach.boot _ hb) (tame_step _ _ _ (step_alloc _ _ 1 1 _ rfl))
  have h2 : Reach stdConfig za2 := Reach.step _ _ h1 (tame_step _ _ _ (step_alloc _ _ 0 1 _ rfl))
  have g2 : Reach stdConfig zf2 := Reach.step _ _ h1 (step_free _ _ ⟨1, 0, [0]⟩ 1 _ (by decide) rfl)
  have g3 : Reach stdConfig zf3 := Reach.step _ _ g2 (tame_step _ _ _ (step_alloc _ _ 1 1 _ rfl))
  have g4 : Reach stdConfig zf4 := Reach.step _ _ g3 (tame_step _ _ _ (step_alloc _ _ 0 1 _ rfl))
  have g5 : Reach stdConfig zf5 := Reach.step _ _ g4 (step_free _ _ ⟨0, 0, [1]⟩ 1 _ (by decide) rfl)
  have g7 : Reach stdConfig zf7 :=
    Reach.step _ _ g5 (tame_step _ _ _ (step_alloc _ _ 0 1024 _ rfl))
  have c1 : TameReach stdConfig zc1 :=
    TameReach.step _ _ (TameReach.boot _ hb1) (step_alloc _ _ 0 1024 _ rfl)
  have c2 : TameReach stdConfig zc2 := TameReach.step _ _ c1 (step_alloc _ _ 0 5 _ rfl)
  exact ⟨⟨h2, by decide, rfl, by decide, by decide⟩,
    ⟨c2, by decide, by decide, by decide, rfl, by decide, by decide⟩,
    ⟨g7, by decide, by decide, rfl⟩⟩

/-- C4, amended: in every machine state reached by calls among which no request
was counted as 0 pages and no `free_mem` was made on an allocation starting at
address 0, for every live allocation that does not start at address 0,
`free_mem` on its start address needs exactly as many rounds as the allocation
has frames, returns 0 without reaching the fatal branch, and afterwards every
frame of the allocation has owner 0, every page-table row of its pages stores
the unused mark 0, and `translate` fails on every address of its range. -/
theorem C4_full_reclamation (cfg : Config) (hwf : cfg.WF) (w : World)
    (hr : CleanReach cfg w) (r : alloc_rec) (hl : r ∈ w.live) (ha : r.addr ≠ 0)
    (junk : Nat → Nat) :
    (∀ fuel, fuel < r.frames.length →
      free_mem cfg fuel junk r.addr (w.procs r.slot) w.mem = .timeout) ∧
    (∀ fuel, r.frames.length ≤ fuel →
      ∃ p1 m1, free_mem cfg fuel junk r.addr (w.procs r.slot) w.mem = .ok (0, p1, m1) ∧
        (∀ f ∈ r.frames, (m1._mem_stat f).proc = 0) ∧
        (∀ j, j < r.frames.length → vidx cfg p1 (r.addr / cfg.PAGE_SIZE + j) = 0) ∧
        (∀ x, r.addr ≤ x → x < r.addr + r.frames.length * cfg.PAGE_SIZE →
          translate cfg x p1 = none)) := by
  have h := reach_inv cfg hwf w hr
  have hPS : 0 < cfg.PAGE_SIZE := Nat.two_pow_pos _
  have hal := h.hist_al r (h.live_sub r hl)
  have hpg : r.addr / cfg.PAGE_SIZE ≠ 0 := addr_page_ne_zero cfg r.addr hal ha
  have hbound : r.addr + r.frames.length * cfg.PAGE_SIZE ≤ max_virtual_addr cfg :=
    le_trans (h.hist_bp r (h.live_sub r hl)) (h.bp_le _)
  constructor
  · intro fuel hf
    exact (free_mem_chain cfg hwf r.frames r.addr _ _ junk (h.hist_ne r (h.live_sub r hl))
      hbound (inv_chain_at cfg w h r hl hpg) fuel).1 hf
  · intro fuel hf
    obtain ⟨p1, m1, hres, post⟩ := (free_mem_chain cfg hwf r.frames r.addr _ _ junk
      (h.hist_ne r (h.live_sub r hl)) hbound (inv_chain_at cfg w h r hl hpg) fuel).2 hf
    refine ⟨p1, m1, hres, ?_, ?_, ?_⟩
    · intro f hfm
      rw [post.stat f hfm]
    · intro j hj
      rw [post.vmap, if_pos ⟨by omega, by omega⟩]
    · intro x hx1 hx2
      obtain ⟨hv1, hv2⟩ := addr_page_range cfg _ _ x hal hx1 hx2
      apply translate_unmapped cfg hwf
      · have := max_lt_u32 cfg hwf
        omega
      · rw [post.vmap, if_pos ⟨hv1, hv2⟩]

theorem C4_full_reclamation_witness :
    CleanReach tinyConfig tiny3 ∧ (⟨0, 256, [1, 2]⟩ : alloc_rec) ∈ tiny3.live ∧
    ((∀ fuel, fuel < 2 →
        free_mem tinyConfig fuel (fun _ => 0) 256 (tiny3.procs 0) tiny3.mem = .timeout) ∧
      (∀ fuel, 2 ≤ fuel →
        ∃ p1 m1, free_mem tinyConfig fuel (fun _ => 0) 256 (tiny3.procs 0) tiny3.mem =
            .ok (0, p1, m1) ∧
          (∀ f ∈ [1, 2], (m1._mem_stat f).proc = 0) ∧
          (∀ j, j < 2 → vidx tinyConfig p1 (256 / tinyConfig.PAGE_SIZE + j) = 0) ∧
          (∀ x, 256 ≤ x → x < 256 + 2 * tinyConfig.PAGE_SIZE →
            translate tinyConfig x p1 = none))) :=
  ⟨tiny3_reach, by decide,
    C4_full_reclamation tinyConfig tinyConfig_wf tiny3 tiny3_reach ⟨0, 256, [1, 2]⟩
      (by decide) (by decide) (fun _ => 0)⟩

/-- C9 as stated does not hold: on the standard layout process 1 makes two
one-page allocations.  Frames 0 and 1 both carry its pid, both have `index = 0`
and `next = -1`: they are two chains, not one.  Nor does every live allocation
keep its own chain in every reachable state: a request counted as 0 pages
stores -1 into `next` of frame 0, the first of the two frames of a live
allocation (third scenario), and a `free_mem(0)` clears the owner of frame 0,
the frame of a live allocation of another process (first scenario); in both the
unassigned local holds 0. -/
theorem C9_counterexample :
    (Reach stdConfig std2 ∧ (std2.procs 0).pid = 1 ∧ ¬ OneChain stdConfig std2.mem 1) ∧
    (TameReach stdConfig zc2 ∧ (⟨0, 1024, [0, 1]⟩ : alloc_rec) ∈ zc2.live ∧
      (zc2.mem._mem_stat 0).next = -1) ∧
    (Reach stdConfig za3 ∧ (⟨1, 0, [0]⟩ : alloc_rec) ∈ za3.live ∧
      (za3.procs 1).pid = 2 ∧ (za3.mem._mem_stat 0).proc = 0) := by
  have hb := boot_world_boot stdConfig 0 (by decide) (by decide)
  have hb1 := boot_world_boot stdConfig 1024 (by decide) (by decide)
  have h1 : Reach stdConfig za1 :=
    Reach.step _ _ (Reach.boot _ hb) (tame_step _ _ _ (step_alloc _ _ 1 1 _ rfl))
  have h2 : Reach stdConfig za2 := Reach.step _ _ h1 (tame_step _ _ _ (step_alloc _ _ 0 1 _ rfl))
  have h3 : Reach stdConfig za3 := Reach.step _ _ h2 (step_free _ _ ⟨0, 0, [1]⟩ 1 _ (by decide) rfl)
  have c1 : TameReach stdConfig zc1 :=
    TameReach.step _ _ (TameReach.boot _ hb1) (step_alloc _ _ 0 1024 _ rfl)
  have c2 : TameReach stdConfig zc2 := TameReach.step _ _ c1 (step_alloc _ _ 0 5 _ rfl)
  refine ⟨⟨clean_reach _ stdConfig_wf _ std2_reach, by decide, ?_⟩, ⟨c2, by decide, by decide⟩,
    ⟨h3, by decide, by decide, by decide⟩⟩
  rintro ⟨chain, hmem, _, hst⟩
  have h0 : 0 ∈ chain := (hmem 0 (by decide)).2 (by decide)
  have h1 : 1 ∈ chain := (hmem 1 (by decide)).2 (by decide)
  obtain ⟨j0, hj0⟩ := List.mem_iff_getElem?.1 h0
  obtain ⟨j1, hj1⟩ := List.mem_iff_getElem?.1 h1
  have e0 := (hst j0 0 hj0).1
  have e1 := (hst j1 1 hj1).1
  have i0 : (std2.mem._mem_stat 0).index = 0 := by decide
  have i1 : (std2.mem._mem_stat 1).index = 0 := by decide
  rw [i0] at e0
  rw [i1] at e1
  have z0 : j0 = 0 := by omega
  have z1 : j1 = 0 := by omega
  rw [z0] at hj0
  rw [z1, hj0] at hj1
  cases hj1

/-- C9, amended: in every machine state reached by calls among which no request
was counted as 0 pages and no `free_mem` was made on an allocation starting at
address 0, the frames of every live allocation form one singly linked chain:
they are pairwise distinct frames below `NUM_PAGES`, the record of the `j`-th of
them names the owner of the allocation, has `index = j` and has the following
frame as `next`, or -1 at the last one.  Chains of different live allocations
share no frame, and every frame with a non-zero owner lies on the chain of a
live allocation. -/
theorem C9_chain_per_allocation (cfg : Config) (hwf : cfg.WF) (w : World)
    (hr : CleanReach cfg w) :
    (∀ r ∈ w.live, r.frames ≠ [] ∧ r.frames.Nodup ∧
      ∀ (j f : Nat), r.frames[j]? = some f →
        f < cfg.NUM_PAGES ∧
        (w.mem._mem_stat f).proc = (w.procs r.slot).pid ∧
        (w.mem._mem_stat f).index = (j : Int) ∧
        (w.mem._mem_stat f).next =
          match r.frames[j + 1]? with
          | some g => (g : Int)
          | none => -1) ∧
    (∀ r ∈ w.live, ∀ r1 ∈ w.live, r ≠ r1 → ∀ f, f ∈ r.frames → f ∉ r1.frames) ∧
    (∀ f, f < cfg.NUM_PAGES → (w.mem._mem_stat f).proc ≠ 0 →
      ∃ r ∈ w.live, f ∈ r.frames) := by
  have h := reach_inv cfg hwf w hr
  refine ⟨?_, ?_, h.owned⟩
  · intro r hrl
    refine ⟨h.hist_ne r (h.live_sub r hrl), ?_, ?_⟩
    · rw [List.nodup_iff_getElem?_ne_getElem?]
      intro i j hij hj e
      have hjf := List.getElem?_eq_getElem hj
      rw [hjf] at e
      have := (h.live_disj r hrl r hrl i j _ e hjf).2
      omega
    · intro j f hj
      obtain ⟨h1, h2⟩ := h.live_stat r hrl j f hj
      rw [h2]
      exact ⟨h1, rfl, rfl, rfl⟩
  · intro r hrl r1 hr1 hne f hf hf1
    obtain ⟨j, hj⟩ := List.mem_iff_getElem?.1 hf
    obtain ⟨j1, hj1⟩ := List.mem_iff_getElem?.1 hf1
    exact hne (h.live_disj r hrl r1 hr1 j j1 f hj hj1).1

theorem C9_chain_per_allocation_witness :
    CleanReach stdConfig std2 ∧
    std2.live = [⟨0, 1024, [1]⟩, ⟨0, 0, [0]⟩] ∧
    ((∀ r ∈ std2.live, r.frames ≠ [] ∧ r.frames.Nodup ∧
        ∀ (j f : Nat), r.frames[j]? = some f →
          f < stdConfig.NUM_PAGES ∧
          (std2.mem._mem_stat f).proc = (std2.procs r.slot).pid ∧
          (std2.mem._mem_stat f).index = (j : Int) ∧
          (std2.mem._mem_stat f).next =
            match r.frames[j + 1]? with
            | some g => (g : Int)
            | none => -1) ∧
      (∀ r ∈ std2.live, ∀ r1 ∈ std2.live, r ≠ r1 → ∀ f, f ∈ r.frames → f ∉ r1.frames) ∧
      (∀ f, f < stdConfig.NUM_PAGES → (std2.mem._mem_stat f).proc ≠ 0 →
        ∃ r ∈ std2.live, f ∈ r.frames)) :=
  ⟨std2_reach, by decide, C9_chain_per_allocation stdConfig stdConfig_wf std2 std2_reach⟩

/-- C10: in every reachable machine state, whatever the calls before, a
successful `alloc_mem(size, proc)` returns the old break pointer `b` and leaves
the break pointer at `b + n * PAGE_SIZE`, where `n` is the page count of the
request; along every further run of `alloc_mem`, `free_mem` and `write_mem`
calls no break pointer decreases; and the virtual ranges
`[addr, addr + n * PAGE_SIZE)` of any two successful allocations of one process
are disjoint: the later one starts where the earlier one ends, or above. -/
theorem C10_break_pointer (cfg : Config) (hwf : cfg.WF) (w : World) (hr : Reach cfg w) :
    (∀ k junk size ret p1 m1, mem_avail cfg size (w.procs k) w.mem = true →
      alloc_mem cfg junk size (w.procs k) w.mem = .ok (ret, p1, m1) →
      ret = (w.procs k).bp ∧
      p1.bp = (w.procs k).bp + num_pages_of cfg size * cfg.PAGE_SIZE) ∧
    (∀ w1, Relation.ReflTransGen (Step cfg) w w1 →
      ∀ k, (w.procs k).bp ≤ (w1.procs k).bp) ∧
    w.hist.Pairwise (fun r r1 => r.slot = r1.slot →
      r.addr + r.frames.length * cfg.PAGE_SIZE ≤ r1.addr ∨
      r1.addr + r1.frames.length * cfg.PAGE_SIZE ≤ r.addr) ∧
    w.hist.Pairwise (fun r r1 => r.slot = r1.slot →
      r1.addr + r1.frames.length * cfg.PAGE_SIZE ≤ r.addr) := by
  have h := reach_base cfg hwf w hr
  refine ⟨?_, ?_, ?_, h.hist_sep⟩
  · intro k junk size ret p1 m1 hav hres
    rcases base_alloc_cases cfg hwf w h k junk size ret p1 m1 hav hres with
      ⟨_, fs, post⟩ | ⟨hn0, e1, e2, _⟩
    · exact ⟨post.ret_eq, post.bp⟩
    · rw [hn0, e2]
      exact ⟨e1, by omega⟩
  · intro w1 hrun k
    exact run_bp_mono cfg hwf w w1 hr hrun k
  · exact h.hist_sep.imp (fun hab hs => Or.inr (hab hs))

theorem C10_break_pointer_witness :
    Reach stdConfig std2 ∧
    std2.hist = [⟨0, 1024, [1]⟩, ⟨0, 0, [0]⟩] ∧
    ((∀ k junk size ret p1 m1, mem_avail stdConfig size (std2.procs k) std2.mem = true →
        alloc_mem stdConfig junk size (std2.procs k) std2.mem = .ok (ret, p1, m1) →
        ret = (std2.procs k).bp ∧
        p1.bp = (std2.procs k).bp + num_pages_of stdConfig size * stdConfig.PAGE_SIZE) ∧
      (∀ w1, Relation.ReflTransGen (Step stdConfig) std2 w1 →
        ∀ k, (std2.procs k).bp ≤ (w1.procs k).bp) ∧
      std2.hist.Pairwise (fun r r1 => r.slot = r1.slot →
        r.addr + r.frames.length * stdConfig.PAGE_SIZE ≤ r1.addr ∨
        r1.addr + r1.frames.length * stdConfig.PAGE_SIZE ≤ r.addr) ∧
      std2.hist.Pairwise (fun r r1 => r.slot = r1.slot →
        r1.addr + r1.frames.length * stdConfig.PAGE_SIZE ≤ r.addr)) :=
  ⟨clean_reach _ stdConfig_wf _ std2_reach, by decide,
    C10_break_pointer stdConfig stdConfig_wf std2 (clean_reach _ stdConfig_wf _ std2_reach)⟩

/-- C12: for every process and every address on which `translate` succeeds,
`write_mem` of a byte returns 0, a following `read_mem` of the same address
returns 0 and delivers that byte, and the content of every other physical
address is what it was before the write. -/
theorem C12_write_read_round_trip (cfg : Config) (a v d pa : Nat) (proc : pcb_t) (mem : Mem)
    (h : translate cfg a proc = some pa) :
    (write_mem cfg a proc v mem).1 = 0 ∧
    read_mem cfg a proc d (write_mem cfg a proc v mem).2 = (0, v) ∧
    (∀ x, x ≠ pa → (write_mem cfg a proc v mem).2._ram x = mem._ram x) ∧
    (write_mem cfg a proc v mem).2.free_frame_left = mem.free_frame_left ∧
    (write_mem cfg a proc v mem).2._mem_stat = mem._mem_stat := by
  unfold read_mem write_mem
  rw [h]
  refine ⟨rfl, ?_, ?_, rfl, rfl⟩
  · show (0, Function.update mem._ram pa v pa) = (0, v)
    rw [Function.update_same]
  · intro x hx
    show Function.update mem._ram pa v x = mem._ram x
    rw [Function.update_noteq hx]

theorem C12_write_read_round_trip_witness :
    translate stdConfig 1030 (std4.procs 1) = some 3078 ∧
    ((write_mem stdConfig 1030 (std4.procs 1) 77 std4.mem).1 = 0 ∧
      read_mem stdConfig 1030 (std4.procs 1) 0
        (write_mem stdConfig 1030 (std4.procs 1) 77 std4.mem).2 = (0, 77) ∧
      (∀ x, x ≠ 3078 →
        (write_mem stdConfig 1030 (std4.procs 1) 77 std4.mem).2._ram x = std4.mem._ram x) ∧
      (write_mem stdConfig 1030 (std4.procs 1) 77 std4.mem).2.free_frame_left =
        std4.mem.free_frame_left ∧
      (write_mem stdConfig 1030 (std4.procs 1) 77 std4.mem).2._mem_stat =
        std4.mem._mem_stat) :=
  ⟨by decide, C12_write_read_round_trip stdConfig 1030 77 0 3078 (std4.procs 1) std4.mem
    (by decide)⟩

/-- C13: when `size == MAX_QUEUE_SIZE`, `enqueue` returns the queue it was
given: the size and every slot are the same and the new handle is not
inserted. -/
theorem C13_enqueue_full_unchanged (cfg : Config) (q : queue_t) (proc : pcb_t)
    (h : q.size = cfg.MAX_QUEUE_SIZE) : enqueue cfg q proc = some q := by
  unfold enqueue
  rw [if_pos (by omega)]

theorem C13_enqueue_full_unchanged_witness :
    demo_queue.size = tinyConfig.MAX_QUEUE_SIZE ∧
    enqueue tinyConfig demo_queue (new_pcb 4 7 0) = some demo_queue :=
  ⟨by decide, C13_enqueue_full_unchanged tinyConfig demo_queue (new_pcb 4 7 0) (by decide)⟩

/-- C15: in every reachable machine state, whatever the calls before,
`translate` fails (returns 0) for every address below `PAGE_SIZE` of every
process: virtual page 0 can never be referenced, not even right after an
`alloc_mem` that gave that page a frame. -/
theorem C15_page_zero_unusable (cfg : Config) (hwf : cfg.WF) (w : World) (hr : Reach cfg w)
    (k a : Nat) (ha : a < cfg.PAGE_SIZE) : translate cfg a (w.procs k) = none := by
  have h := reach_base cfg hwf w hr
  have hA : 2 ^ cfg.OFFSET_LEN ≤ 2 ^ 31 :=
    Nat.pow_le_pow_right (by decide) (by
      have := hwf.addr_lt
      unfold Config.ADDRESS_SIZE at this
      omega)
  have ha1 : a < 4294967296 := by
    unfold Config.PAGE_SIZE at ha
    omega
  apply translate_unmapped cfg hwf _ a ha1
  have : a / 2 ^ cfg.OFFSET_LEN = 0 := Nat.div_eq_of_lt ha
  rw [this]
  by_contra hne
  exact hne (h.rows k 0 hne).1

theorem C15_page_zero_unusable_witness :
    Reach stdConfig std1 ∧ std1.live = [⟨0, 0, [0]⟩] ∧ 5 < stdConfig.PAGE_SIZE ∧
    translate stdConfig 5 (std1.procs 0) = none :=
  ⟨clean_reach _ stdConfig_wf _ std1_reach, by decide, by decide,
    C15_page_zero_unusable stdConfig stdConfig_wf std1 (clean_reach _ stdConfig_wf _ std1_reach) 0 5
      (by decide)⟩

/-! # Proofs: decomposition of a virtual address -/

theorem decompose_sum (cfg : Config) (addr : Nat) :
    addr / 2 ^ cfg.OFFSET_LEN / 2 ^ cfg.PAGE_LEN * 2 ^ (cfg.PAGE_LEN + cfg.OFFSET_LEN) +
      addr / 2 ^ cfg.OFFSET_LEN % 2 ^ cfg.PAGE_LEN * 2 ^ cfg.OFFSET_LEN +
      addr % 2 ^ cfg.OFFSET_LEN = addr := by
  have h1 := Nat.div_add_mod addr (2 ^ cfg.OFFSET_LEN)
  have h2 := Nat.div_add_mod (addr / 2 ^ cfg.OFFSET_LEN) (2 ^ cfg.PAGE_LEN)
  rw [Nat.pow_add, ← Nat.mul_assoc, ← Nat.add_mul]
  rw [Nat.mul_comm (addr / 2 ^ cfg.OFFSET_LEN / 2 ^ cfg.PAGE_LEN), h2, Nat.mul_comm]
  exact h1

theorem first_lv_lt (cfg : Config) (addr : Nat) (ha : addr < 2 ^ cfg.ADDRESS_SIZE) :
    addr / 2 ^ cfg.OFFSET_LEN / 2 ^ cfg.PAGE_LEN < 2 ^ cfg.SEGMENT_LEN := by
  rw [Nat.div_div_eq_div_mul, Nat.div_lt_iff_lt_mul (Nat.mul_pos (Nat.two_pow_pos _)
    (Nat.two_pow_pos _))]
  unfold Config.ADDRESS_SIZE at ha
  rw [Nat.pow_add, Nat.pow_add, Nat.mul_assoc, Nat.mul_comm (2 ^ cfg.PAGE_LEN)] at ha
  exact ha

theorem compose_parts (cfg : Config) (s p o : Nat) (hs : s < 2 ^ cfg.SEGMENT_LEN)
    (hp : p < 2 ^ cfg.PAGE_LEN) (ho : o < 2 ^ cfg.OFFSET_LEN) :
    (s * 2 ^ cfg.PAGE_LEN + p) * 2 ^ cfg.OFFSET_LEN + o < 2 ^ cfg.ADDRESS_SIZE ∧
    ((s * 2 ^ cfg.PAGE_LEN + p) * 2 ^ cfg.OFFSET_LEN + o) / 2 ^ cfg.OFFSET_LEN / 2 ^ cfg.PAGE_LEN
      = s ∧
    ((s * 2 ^ cfg.PAGE_LEN + p) * 2 ^ cfg.OFFSET_LEN + o) / 2 ^ cfg.OFFSET_LEN % 2 ^ cfg.PAGE_LEN
      = p ∧
    ((s * 2 ^ cfg.PAGE_LEN + p) * 2 ^ cfg.OFFSET_LEN + o) % 2 ^ cfg.OFFSET_LEN = o := by
  have hO : 0 < 2 ^ cfg.OFFSET_LEN := Nat.two_pow_pos _
  have hP : 0 < 2 ^ cfg.PAGE_LEN := Nat.two_pow_pos _
  have hdiv : ((s * 2 ^ cfg.PAGE_LEN + p) * 2 ^ cfg.OFFSET_LEN + o) / 2 ^ cfg.OFFSET_LEN =
      s * 2 ^ cfg.PAGE_LEN + p := by
    rw [Nat.add_comm, Nat.add_mul_div_right _ _ hO, Nat.div_eq_of_lt ho, Nat.zero_add]
  refine ⟨?_, ?_, ?_, ?_⟩
  · unfold Config.ADDRESS_SIZE
    have h1 : s * 2 ^ cfg.PAGE_LEN + p < 2 ^ cfg.SEGMENT_LEN * 2 ^ cfg.PAGE_LEN := by
      have : (s + 1) * 2 ^ cfg.PAGE_LEN ≤ 2 ^ cfg.SEGMENT_LEN * 2 ^ cfg.PAGE_LEN :=
        Nat.mul_le_mul_right _ hs
      rw [Nat.succ_mul] at this
      omega
    have h2 : (s * 2 ^ cfg.PAGE_LEN + p + 1) * 2 ^ cfg.OFFSET_LEN ≤
        2 ^ cfg.SEGMENT_LEN * 2 ^ cfg.PAGE_LEN * 2 ^ cfg.OFFSET_LEN :=
      Nat.mul_le_mul_right _ h1
    rw [Nat.succ_mul] at h2
    rw [Nat.pow_add, Nat.pow_add]
    omega
  · rw [hdiv, Nat.add_comm, Nat.add_mul_div_right _ _ hP, Nat.div_eq_of_lt hp, Nat.zero_add]
  · rw [hdiv, Nat.add_comm, Nat.add_mul_mod_self_right, Nat.mod_eq_of_lt hp]
  · rw [Nat.add_comm, Nat.add_mul_mod_self_right, Nat.mod_eq_of_lt ho]

/-- C19: for every virtual address below `2 ^ ADDRESS_SIZE` the segment index is
below `2 ^ SEGMENT_LEN`, the page index below `2 ^ PAGE_LEN` and the offset below
`2 ^ OFFSET_LEN` (so both table lookups of `translate` are in bounds), the
subtraction in `get_second_lv` does not underflow, and the address is the
bitwise or of the three parts shifted to their places.  The decomposition is a
bijection: two valid addresses with the same three parts are equal, and every
triple of parts in range is the decomposition of a valid address. -/
theorem C19_address_decomposition (cfg : Config) (hA : cfg.ADDRESS_SIZE < 32) (addr : Nat)
    (ha : addr < 2 ^ cfg.ADDRESS_SIZE) :
    get_first_lv cfg addr < 2 ^ cfg.SEGMENT_LEN ∧
    get_second_lv cfg addr < 2 ^ cfg.PAGE_LEN ∧
    get_offset cfg addr < 2 ^ cfg.OFFSET_LEN ∧
    u32_shl (get_first_lv cfg addr) cfg.PAGE_LEN ≤ addr >>> cfg.OFFSET_LEN ∧
    addr = u32_shl (get_first_lv cfg addr) (cfg.PAGE_LEN + cfg.OFFSET_LEN) |||
      u32_shl (get_second_lv cfg addr) cfg.OFFSET_LEN ||| get_offset cfg addr ∧
    (∀ b, b < 2 ^ cfg.ADDRESS_SIZE → get_first_lv cfg b = get_first_lv cfg addr →
      get_second_lv cfg b = get_second_lv cfg addr → get_offset cfg b = get_offset cfg addr →
      b = addr) ∧
    (∀ s p o, s < 2 ^ cfg.SEGMENT_LEN → p < 2 ^ cfg.PAGE_LEN → o < 2 ^ cfg.OFFSET_LEN →
      ∃ b, b < 2 ^ cfg.ADDRESS_SIZE ∧ get_first_lv cfg b = s ∧ get_second_lv cfg b = p ∧
        get_offset cfg b = o) := by
  have hO : cfg.OFFSET_LEN < 32 := by unfold Config.ADDRESS_SIZE at hA; omega
  have hpow : 2 ^ cfg.ADDRESS_SIZE ≤ 2 ^ 31 := Nat.pow_le_pow_right (by decide) (by omega)
  have h32 : ∀ b, b < 2 ^ cfg.ADDRESS_SIZE → b < 4294967296 := by intro b hb; omega
  have hoffp : 0 < 2 ^ cfg.OFFSET_LEN := Nat.two_pow_pos _
  have hpgp : 0 < 2 ^ cfg.PAGE_LEN := Nat.two_pow_pos _
  have hsum := decompose_sum cfg addr
  have hoff : addr % 2 ^ cfg.OFFSET_LEN < 2 ^ cfg.OFFSET_LEN := Nat.mod_lt _ hoffp
  have hpg : addr / 2 ^ cfg.OFFSET_LEN % 2 ^ cfg.PAGE_LEN < 2 ^ cfg.PAGE_LEN := Nat.mod_lt _ hpgp
  have hx : addr / 2 ^ cfg.OFFSET_LEN ≤ addr := Nat.div_le_self _ _
  have hy : addr / 2 ^ cfg.OFFSET_LEN / 2 ^ cfg.PAGE_LEN * 2 ^ cfg.PAGE_LEN ≤
      addr / 2 ^ cfg.OFFSET_LEN := Nat.div_mul_le_self _ _
  rw [get_first_lv_eq, get_second_lv_eq cfg addr (h32 addr ha), get_offset_eq cfg hO]
  refine ⟨first_lv_lt cfg addr ha, hpg, hoff, ?_, ?_, ?_, ?_⟩
  · unfold u32_shl
    rw [Nat.shiftLeft_eq, Nat.shiftRight_eq_div_pow, u32_of_lt (by omega)]
    exact hy
  · unfold u32_shl
    rw [Nat.shiftLeft_eq, Nat.shiftLeft_eq]
    have hb2 : addr / 2 ^ cfg.OFFSET_LEN % 2 ^ cfg.PAGE_LEN * 2 ^ cfg.OFFSET_LEN <
        2 ^ (cfg.PAGE_LEN + cfg.OFFSET_LEN) := by
      rw [Nat.pow_add]
      exact Nat.mul_lt_mul_of_pos_right hpg hoffp
    rw [u32_of_lt (by omega), u32_of_lt (by omega)]
    rw [Nat.mul_comm _ (2 ^ (cfg.PAGE_LEN + cfg.OFFSET_LEN)), ← Nat.mul_add_lt_is_or hb2]
    have hfac : 2 ^ (cfg.PAGE_LEN + cfg.OFFSET_LEN) *
          (addr / 2 ^ cfg.OFFSET_LEN / 2 ^ cfg.PAGE_LEN) +
        addr / 2 ^ cfg.OFFSET_LEN % 2 ^ cfg.PAGE_LEN * 2 ^ cfg.OFFSET_LEN =
        2 ^ cfg.OFFSET_LEN * (addr / 2 ^ cfg.OFFSET_LEN) := by
      have h2 := Nat.div_add_mod (addr / 2 ^ cfg.OFFSET_LEN) (2 ^ cfg.PAGE_LEN)
      rw [Nat.pow_add]
      calc 2 ^ cfg.PAGE_LEN * 2 ^ cfg.OFFSET_LEN *
              (addr / 2 ^ cfg.OFFSET_LEN / 2 ^ cfg.PAGE_LEN) +
            addr / 2 ^ cfg.OFFSET_LEN % 2 ^ cfg.PAGE_LEN * 2 ^ cfg.OFFSET_LEN
          = 2 ^ cfg.OFFSET_LEN * (2 ^ cfg.PAGE_LEN *
              (addr / 2 ^ cfg.OFFSET_LEN / 2 ^ cfg.PAGE_LEN) +
              addr / 2 ^ cfg.OFFSET_LEN % 2 ^ cfg.PAGE_LEN) := by ring
        _ = 2 ^ cfg.OFFSET_LEN * (addr / 2 ^ cfg.OFFSET_LEN) := by rw [h2]
    rw [hfac, ← Nat.mul_add_lt_is_or hoff]
    exact (Nat.div_add_mod addr (2 ^ cfg.OFFSET_LEN)).symm
  · intro b hb e1 e2 e3
    rw [get_first_lv_eq] at e1
    rw [get_second_lv_eq cfg b (h32 b hb)] at e2
    rw [get_offset_eq cfg hO] at e3
    have hb1 := decompose_sum cfg b
    rw [e1, e2, e3, hsum] at hb1
    exact hb1.symm
  · intro s p o hs hp ho
    obtain ⟨c1, c2, c3, c4⟩ := compose_parts cfg s p o hs hp ho
    refine ⟨(s * 2 ^ cfg.PAGE_LEN + p) * 2 ^ cfg.OFFSET_LEN + o, c1, ?_, ?_, ?_⟩
    · rw [get_first_lv_eq]; exact c2
    · rw [get_second_lv_eq cfg _ (h32 _ c1)]; exact c3
    · rw [get_offset_eq cfg hO]; exact c4

theorem C19_address_decomposition_witness :
    stdConfig.ADDRESS_SIZE < 32 ∧ 1030 < 2 ^ stdConfig.ADDRESS_SIZE ∧
    get_first_lv stdConfig 1030 = 0 ∧ get_second_lv stdConfig 1030 = 1 ∧
    get_offset stdConfig 1030 = 6 ∧
    (get_first_lv stdConfig 1030 < 2 ^ stdConfig.SEGMENT_LEN ∧
      get_second_lv stdConfig 1030 < 2 ^ stdConfig.PAGE_LEN ∧
      get_offset stdConfig 1030 < 2 ^ stdConfig.OFFSET_LEN ∧
      u32_shl (get_first_lv stdConfig 1030) stdConfig.PAGE_LEN ≤ 1030 >>> stdConfig.OFFSET_LEN ∧
      1030 = u32_shl (get_first_lv stdConfig 1030) (stdConfig.PAGE_LEN + stdConfig.OFFSET_LEN) |||
        u32_shl (get_second_lv stdConfig 1030) stdConfig.OFFSET_LEN |||
        get_offset stdConfig 1030 ∧
      (∀ b, b < 2 ^ stdConfig.ADDRESS_SIZE →
        get_first_lv stdConfig b = get_first_lv stdConfig 1030 →
        get_second_lv stdConfig b = get_second_lv stdConfig 1030 →
        get_offset stdConfig b = get_offset stdConfig 1030 → b = 1030) ∧
      (∀ s p o, s < 2 ^ stdConfig.SEGMENT_LEN → p < 2 ^ stdConfig.PAGE_LEN →
        o < 2 ^ stdConfig.OFFSET_LEN →
        ∃ b, b < 2 ^ stdConfig.ADDRESS_SIZE ∧ get_first_lv stdConfig b = s ∧
          get_second_lv stdConfig b = p ∧ get_offset stdConfig b = o)) :=
  ⟨by decide, by decide, by decide, by decide, by decide,
    C19_address_decomposition stdConfig (by decide) 1030 (by decide)⟩

/-- C18 as stated does not hold: in `tie_queue` both children have priority 5
and the root has priority 1; `sift_down` moves the left child (handle 2) to the
root and leaves the right child (handle 3) in its slot.  The same happens inside
`dequeue` on `tie_heap`. -/
theorem C18_counterexample :
    (tie_queue.proc 1).priority = (tie_queue.proc 2).priority ∧
    (tie_queue.proc 0).priority < (tie_queue.proc 1).priority ∧
    (sift_down tie_queue 0).map (fun q => ((q.proc 0).pid, (q.proc 1).pid, (q.proc 2).pid))
      = some (2, 1, 3) ∧
    (dequeue tie_heap).map
      (fun r => (r.1.map (fun t => t.pid), (r.2.proc 0).pid, (r.2.proc 1).pid, (r.2.proc 2).pid))
      = some (some 4, 2, 1, 3) := by
  decide

/-- C18, amended: when a node has two children of equal priority that both
exceed the priority of the node, one round of `sift_down` swaps the node with its
left child and goes on from the left child: the left child wins the tie. -/
theorem C18_sift_down_tie_left (fuel : Nat) (q : queue_t) (ci : Nat)
    (hboth : get_right_child_index ci < q.size)
    (htie : (q.proc (get_left_child_index ci)).priority =
      (q.proc (get_right_child_index ci)).priority)
    (hgt : (q.proc ci).priority < (q.proc (get_left_child_index ci)).priority) :
    sift_down_loop (fuel + 1) q ci =
      sift_down_loop fuel ⟨swap_elem q.proc ci (get_left_child_index ci), q.size⟩
        (get_left_child_index ci) := by
  have h1 : ci < q.size := by unfold get_right_child_index at hboth; omega
  have h2 : ¬ get_left_child_index ci ≥ q.size := by
    unfold get_right_child_index at hboth
    unfold get_left_child_index
    omega
  have h3 : ¬ get_right_child_index ci ≥ q.size := by omega
  have h4 : compare_pcb_smaller (q.proc (get_left_child_index ci))
      (q.proc (get_right_child_index ci)) = false := by
    unfold compare_pcb_smaller
    rw [htie]
    simp
  have h5 : compare_pcb_smaller (q.proc ci) (q.proc (get_left_child_index ci)) = true := by
    unfold compare_pcb_smaller
    simpa using hgt
  rw [sift_down_loop]
  simp only [h1, h2, h3, h4, h5, if_true, if_false, Bool.false_eq_true]

theorem C18_sift_down_tie_left_witness :
    get_right_child_index 0 < tie_queue.size ∧
    (tie_queue.proc (get_left_child_index 0)).priority =
      (tie_queue.proc (get_right_child_index 0)).priority ∧
    (tie_queue.proc 0).priority < (tie_queue.proc (get_left_child_index 0)).priority ∧
    sift_down_loop (3 + 1) tie_queue 0 =
      sift_down_loop 3 ⟨swap_elem tie_queue.proc 0 (get_left_child_index 0), tie_queue.size⟩
        (get_left_child_index 0) :=
  ⟨by decide, by decide, by decide,
    C18_sift_down_tie_left 3 tie_queue 0 (by decide) (by decide) (by decide)⟩

/-! # Proofs: the sift loops permute the occupied slots -/

theorem swap_lt (n i j x : Nat) (hi : i < n) (hj : j < n) (hx : x < n) :
    Equiv.swap i j x < n := by
  rw [Equiv.swap_apply_def]
  split_ifs <;> assumption

theorem swap_elem_perm (a : Nat → pcb_t) (n i j : Nat) (hi : i < n) (hj : j < n) :
    ((List.range n).map (swap_elem a i j)).Perm ((List.range n).map a) := by
  have hfun : swap_elem a i j = a ∘ (Equiv.swap i j) := by
    funext k
    rw [swap_elem_apply, Function.comp_apply, Equiv.swap_apply_def]
    by_cases h1 : k = j
    · by_cases h2 : k = i
      · rw [if_pos h1, if_pos h2, ← h1, h2]
      · rw [if_pos h1, if_neg h2, if_pos h1]
    · by_cases h2 : k = i
      · rw [if_neg h1, if_pos h2, if_pos h2]
      · rw [if_neg h1, if_neg h2, if_neg h2, if_neg h1]
  rw [hfun, ← List.map_map]
  apply List.Perm.map
  rw [List.perm_ext_iff_of_nodup
    (List.Nodup.map (Equiv.swap i j).injective (List.nodup_range n)) (List.nodup_range n)]
  intro x
  rw [List.mem_map, List.mem_range]
  constructor
  · rintro ⟨y, hy, rfl⟩
    exact swap_lt n i j y hi hj (List.mem_range.1 hy)
  · intro hx
    exact ⟨Equiv.swap i j x, List.mem_range.2 (swap_lt n i j x hi hj hx),
      Equiv.swap_apply_self i j x⟩

theorem sift_up_loop_perm (fuel : Nat) :
    ∀ (q : queue_t) (ci : Nat) (q1 : queue_t), ci < q.size →
      sift_up_loop fuel q ci = some q1 →
      q1.size = q.size ∧ (queue_handles q1).Perm (queue_handles q) := by
  induction fuel with
  | zero => intro q ci q1 _ h; simp [sift_up_loop] at h
  | succ n ih =>
    intro q ci q1 hci h
    unfold sift_up_loop at h
    have hpar : get_parent_index ci < q.size := by
      unfold get_parent_index
      split_ifs <;> omega
    dsimp only at h
    split_ifs at h
    · obtain ⟨h1, h2⟩ := ih ⟨swap_elem q.proc (get_parent_index ci) ci, q.size⟩ _ q1 hpar h
      exact ⟨h1, h2.trans (swap_elem_perm q.proc q.size _ _ hpar hci)⟩
    · injection h with h; subst h; exact ⟨rfl, List.Perm.refl _⟩
    · injection h with h; subst h; exact ⟨rfl, List.Perm.refl _⟩

theorem sift_down_loop_perm (fuel : Nat) :
    ∀ (q : queue_t) (ci : Nat) (q1 : queue_t),
      sift_down_loop fuel q ci = some q1 →
      q1.size = q.size ∧ (queue_handles q1).Perm (queue_handles q) := by
  induction fuel with
  | zero => intro q ci q1 h; simp [sift_down_loop] at h
  | succ n ih =>
    intro q ci q1 h
    unfold sift_down_loop at h
    simp only [get_left_child_index, get_right_child_index, ge_iff_le] at h
    split_ifs at h
    all_goals first
      | (injection h with h; subst h; exact ⟨rfl, List.Perm.refl _⟩)
      | (injection h with h; subst h
         exact ⟨rfl, swap_elem_perm q.proc q.size _ _ (by omega) (by omega)⟩)
      | (obtain ⟨h1, h2⟩ := ih ⟨_, q.size⟩ _ q1 h
         exact ⟨h1, h2.trans (swap_elem_perm q.proc q.size _ _ (by omega) (by omega))⟩)

theorem queue_handles_add_to_end (q : queue_t) (p : pcb_t) :
    queue_handles (add_to_end q p) = queue_handles q ++ [p] := by
  unfold queue_handles add_to_end
  simp only [List.range_succ, List.map_append, List.map_cons, List.map_nil,
    Function.update_same]
  congr 1
  apply List.map_congr_left
  intro x hx
  have : x ≠ q.size := Nat.ne_of_lt (List.mem_range.1 hx)
  rw [Function.update_noteq this]

/-- C20: `enqueue` on a queue that is not full adds exactly the new handle to the
multiset of handles in `proc[0..size-1]` and raises `size` by one; `dequeue` on a
non-empty queue returns the handle that was in `proc[0]`, lowers `size` by one,
and the old multiset is the returned handle together with the handles that
remain: sifting neither loses nor duplicates a handle. -/
theorem C20_queue_elements (cfg : Config) (q : queue_t) (h : pcb_t) :
    (q.size < cfg.MAX_QUEUE_SIZE →
      ∃ q1, enqueue cfg q h = some q1 ∧ q1.size = q.size + 1 ∧
        (queue_handles q1 : Multiset pcb_t) = h ::ₘ (queue_handles q : Multiset pcb_t)) ∧
    (0 < q.size →
      ∃ q1, dequeue q = some (some (q.proc 0), q1) ∧ q1.size = q.size - 1 ∧
        (queue_handles q : Multiset pcb_t) =
          q.proc 0 ::ₘ (queue_handles q1 : Multiset pcb_t)) := by
  constructor
  · intro hlt
    unfold enqueue
    rw [if_neg (by omega)]
    have hsz : (add_to_end q h).size = q.size + 1 := rfl
    obtain ⟨q1, hq1⟩ := sift_up_loop_total ((add_to_end q h).size - 1 + 1) (add_to_end q h)
      ((add_to_end q h).size - 1) (Nat.lt_succ_self _)
    obtain ⟨h1, h2⟩ := sift_up_loop_perm _ (add_to_end q h) _ q1
      (by rw [hsz]; omega) hq1
    refine ⟨q1, hq1, by rw [h1, hsz], ?_⟩
    rw [Multiset.cons_coe, Multiset.coe_eq_coe]
    rw [queue_handles_add_to_end] at h2
    exact h2.trans (List.perm_append_comm)
  · intro hpos
    unfold dequeue
    rw [if_neg (by omega)]
    simp only [sift_down, swap_start_with_end]
    obtain ⟨q3, hq3⟩ := sift_down_loop_total (q.size - 1 + 1)
      ⟨swap_elem q.proc 0 (q.size - 1), q.size - 1⟩ 0 (Nat.zero_le _) (by simp)
    obtain ⟨h1, h2⟩ := sift_down_loop_perm _ _ _ q3 hq3
    rw [hq3]
    refine ⟨q3, rfl, h1, ?_⟩
    rw [Multiset.cons_coe, Multiset.coe_eq_coe]
    have hsw := swap_elem_perm q.proc q.size 0 (q.size - 1) hpos (by omega)
    have hgen : ∀ n, (List.range (n + 1)).map (swap_elem q.proc 0 n) =
        (List.range n).map (swap_elem q.proc 0 n) ++ [q.proc 0] := by
      intro n
      rw [List.range_succ, List.map_append, List.map_cons, List.map_nil, swap_elem_apply,
        if_pos rfl]
    have hsplit : (List.range q.size).map (swap_elem q.proc 0 (q.size - 1)) =
        queue_handles ⟨swap_elem q.proc 0 (q.size - 1), q.size - 1⟩ ++ [q.proc 0] := by
      have hs := hgen (q.size - 1)
      rw [show q.size - 1 + 1 = q.size by omega] at hs
      exact hs
    rw [hsplit] at hsw
    have h3 : (queue_handles q).Perm
        (q.proc 0 :: queue_handles ⟨swap_elem q.proc 0 (q.size - 1), q.size - 1⟩) :=
      hsw.symm.trans List.perm_append_comm
    exact h3.trans (List.Perm.cons _ h2.symm)

theorem C20_queue_elements_witness :
    demo_queue2.size < tinyConfig.MAX_QUEUE_SIZE ∧ 0 < demo_queue2.size ∧
    (∃ q1, enqueue tinyConfig demo_queue2 (new_pcb 3 1 0) = some q1 ∧
      q1.size = demo_queue2.size + 1 ∧
      (queue_handles q1 : Multiset pcb_t) =
        new_pcb 3 1 0 ::ₘ (queue_handles demo_queue2 : Multiset pcb_t)) ∧
    (∃ q1, dequeue demo_queue2 = some (some (demo_queue2.proc 0), q1) ∧
      q1.size = demo_queue2.size - 1 ∧
      (queue_handles demo_queue2 : Multiset pcb_t) =
        demo_queue2.proc 0 ::ₘ (queue_handles q1 : Multiset pcb_t)) :=
  ⟨by decide, by decide,
    (C20_queue_elements tinyConfig demo_queue2 (new_pcb 3 1 0)).1 (by decide),
    (C20_queue_elements tinyConfig demo_queue2 (new_pcb 3 1 0)).2 (by decide)⟩

/-! # Proofs: first fit, progress of `alloc_mem` -/

theorem sorted_eq_filter_range (fs : List Nat) (P : Nat → Prop) [DecidablePred P] (i : Nat)
    (hs : fs.Pairwise (fun a b => a < b)) (hmem : ∀ x, x ∈ fs ↔ x < i ∧ P x) :
    fs = (List.range i).filter (fun x => decide (P x)) := by
  have hs2 : ((List.range i).filter (fun x => decide (P x))).Pairwise (fun a b => a < b) :=
    List.Pairwise.filter _ (List.pairwise_lt_range i)
  have hperm : fs.Perm ((List.range i).filter (fun x => decide (P x))) := by
    rw [List.perm_ext_iff_of_nodup (sorted_nodup fs hs) (sorted_nodup _ hs2)]
    intro x
    rw [hmem, List.mem_filter, List.mem_range, decide_eq_true_iff]
  exact List.eq_of_perm_of_sorted (r := fun a b => a ≤ b) hperm
    (hs.imp (fun h => Nat.le_of_lt h)) (hs2.imp (fun h => Nat.le_of_lt h))

theorem alloc_inv_exact (cfg : Config) (n : Nat) (ms0 : Nat → frame_stat) (p0 : pcb_t)
    (i : Nat) (st : alloc_scan) (fs : List Nat) (h : AllocInv cfg n ms0 p0 i st fs) :
    fs = (List.range i).filter (fun f => decide ((ms0 f).proc = 0)) := by
  apply sorted_eq_filter_range fs (fun f => (ms0 f).proc = 0) i h.sorted
  intro x
  constructor
  · intro hx
    exact ⟨h.below x hx, h.was_free x hx⟩
  · rintro ⟨h1, h2⟩
    exact h.complete x h1 h2

theorem alloc_post_first_fit (cfg : Config) (n : Nat) (p : pcb_t) (m : Mem) (ret : Nat)
    (p1 : pcb_t) (m1 : Mem) (fs : List Nat) (post : AllocPost cfg n p m ret p1 m1 fs) :
    fs = first_free cfg m n := by
  have hne : fs ≠ [] := by
    intro e
    have h1 := post.len
    have h2 := post.pos
    rw [e] at h1
    simp at h1
    omega
  have hsplit := List.dropLast_append_getLast hne
  generalize fs.getLast hne = g at hsplit
  have hg : g ∈ fs := by rw [← hsplit]; simp
  have hsorted := post.sorted
  rw [← hsplit, List.pairwise_append] at hsorted
  have hle : ∀ x, x ∈ fs → x < g + 1 := by
    intro x hx
    rw [← hsplit] at hx
    rcases List.mem_append.1 hx with hx | hx
    · have := hsorted.2.2 x hx g (List.mem_singleton.2 rfl)
      omega
    · rw [List.mem_singleton.1 hx]
      omega
  have hfs : fs = (List.range (g + 1)).filter (fun f => decide ((m._mem_stat f).proc = 0)) := by
    apply sorted_eq_filter_range fs (fun f => (m._mem_stat f).proc = 0) (g + 1) post.sorted
    intro x
    constructor
    · intro hx
      exact ⟨hle x hx, post.was_free x hx⟩
    · rintro ⟨h1, h2⟩
      by_cases e : x = g
      · rw [e]; exact hg
      · exact post.lowest x g hg (by omega) h2
  have hgN : g + 1 ≤ cfg.NUM_PAGES := post.lt_num g hg
  unfold first_free free_frames
  have hN : cfg.NUM_PAGES = (g + 1) + (cfg.NUM_PAGES - (g + 1)) := by omega
  rw [hN, List.range_add, List.filter_append, ← hfs]
  exact (List.take_left' post.len).symm

/-- In a state where the free counter is at most the number of frame records
with owner 0, a request that passes the checks is served: the scan claims all
its pages, the fatal branch is not entered and the call returns the break
pointer, whatever the unassigned local holds. -/
theorem alloc_mem_progress (cfg : Config) (hwf : cfg.WF) (junk size : Nat) (p : pcb_t)
    (m : Mem)
    (hav : mem_avail cfg size p m = true)
    (hbp : p.bp ≤ max_virtual_addr cfg)
    (hffl : m.free_frame_left ≤ cfg.NUM_PAGES)
    (hunset : ∀ v, p.bp / cfg.PAGE_SIZE ≤ v → vidx cfg p v = 0)
    (hcnt : m.free_frame_left ≤ free_count cfg m) :
    ¬ ((alloc_loop cfg (num_pages_of cfg size) cfg.NUM_PAGES 0
        ⟨m._mem_stat, p, 0, none⟩).alloc_frame_count < num_pages_of cfg size) ∧
    alloc_mem cfg junk size p m ≠ .fatal ∧
    ∃ p1 m1, alloc_mem cfg junk size p m = .ok (p.bp, p1, m1) := by
  obtain ⟨hle, hchk⟩ := mem_avail_true cfg size p m hav
  have hPS : 0 < cfg.PAGE_SIZE := Nat.two_pow_pos _
  have hmax := max_virtual_addr_eq cfg hwf.addr_lt
  have hA : 2 ^ cfg.ADDRESS_SIZE ≤ 2 ^ 31 :=
    Nat.pow_le_pow_right (by decide) (by have := hwf.addr_lt; omega)
  have hApos : 0 < 2 ^ cfg.ADDRESS_SIZE := Nat.two_pow_pos _
  have hnps : num_pages_of cfg size * cfg.PAGE_SIZE ≤ cfg.NUM_PAGES * cfg.PAGE_SIZE :=
    Nat.mul_le_mul_right _ (le_trans hle hffl)
  have hram := hwf.ram_fits
  have hsum : p.bp + num_pages_of cfg size * cfg.PAGE_SIZE < 4294967296 := by omega
  obtain ⟨i1, fs, hi1, hinv, hexit⟩ := alloc_loop_inv cfg (num_pages_of cfg size) m._mem_stat p
    hsum (fun j _ => hunset _ (Nat.le_add_right _ _)) cfg.NUM_PAGES 0 _ _
    (alloc_inv_init cfg (num_pages_of cfg size) m._mem_stat p)
  have hlen : fs.length = num_pages_of cfg size := by
    rcases hexit with h1 | h1
    · exact h1
    · have hex := alloc_inv_exact cfg _ _ _ _ _ _ hinv
      rw [h1, Nat.zero_add] at hex
      have hc : fs.length = free_count cfg m := by rw [hex]; rfl
      have := hinv.count_le
      omega
  have hcount : ¬ ((alloc_loop cfg (num_pages_of cfg size) cfg.NUM_PAGES 0
      ⟨m._mem_stat, p, 0, none⟩).alloc_frame_count < num_pages_of cfg size) := by
    rw [hinv.count, hlen]
    exact Nat.lt_irrefl _
  have hok : ∃ p1 m1, alloc_mem cfg junk size p m = .ok (p.bp, p1, m1) := by
    unfold alloc_mem
    rw [hav]
    simp only [if_true]
    rw [if_neg hcount]
    exact ⟨_, _, rfl⟩
  refine ⟨hcount, ?_, hok⟩
  obtain ⟨p1, m1, e⟩ := hok
  rw [e]
  intro e1
  cases e1

/-- C17: in every reachable machine state, whatever the calls before,
`free_frame_left` is at most the number of frame records with owner 0; hence,
whenever the checks of `alloc_mem` pass, the scan of the frame table ends with
`alloc_frame_count < num_pages` false, and the call does not enter the fatal
branch: it returns. -/
theorem C17_fatal_unreachable (cfg : Config) (hwf : cfg.WF) (w : World) (hr : Reach cfg w)
    (k junk size : Nat) (hav : mem_avail cfg size (w.procs k) w.mem = true) :
    w.mem.free_frame_left ≤ free_count cfg w.mem ∧
    num_pages_of cfg size ≤ free_count cfg w.mem ∧
    ¬ ((alloc_loop cfg (num_pages_of cfg size) cfg.NUM_PAGES 0
        ⟨w.mem._mem_stat, w.procs k, 0, none⟩).alloc_frame_count < num_pages_of cfg size) ∧
    alloc_mem cfg junk size (w.procs k) w.mem ≠ .fatal ∧
    ∃ p1 m1, alloc_mem cfg junk size (w.procs k) w.mem = .ok ((w.procs k).bp, p1, m1) := by
  have h := reach_base cfg hwf w hr
  have hc := h.ffl_free
  have hp := alloc_mem_progress cfg hwf junk size (w.procs k) w.mem hav (h.bp_le k)
    (base_ffl_le cfg w h) (base_unset cfg w h k) hc
  exact ⟨hc, le_trans (mem_avail_true cfg size _ _ hav).1 hc, hp.1, hp.2.1, hp.2.2⟩

theorem C17_fatal_unreachable_witness :
    Reach stdConfig zf5 ∧
    (zf5.mem._mem_stat 0).proc = 0 ∧ zf5.mem.free_frame_left = 1021 ∧
    num_pages_of stdConfig 1024 = 2 ∧
    mem_avail stdConfig 1024 (zf5.procs 0) zf5.mem = true ∧
    (zf5.mem.free_frame_left ≤ free_count stdConfig zf5.mem ∧
      num_pages_of stdConfig 1024 ≤ free_count stdConfig zf5.mem ∧
      ¬ ((alloc_loop stdConfig (num_pages_of stdConfig 1024) stdConfig.NUM_PAGES 0
          ⟨zf5.mem._mem_stat, zf5.procs 0, 0, none⟩).alloc_frame_count <
        num_pages_of stdConfig 1024) ∧
      alloc_mem stdConfig 0 1024 (zf5.procs 0) zf5.mem ≠ .fatal ∧
      ∃ p1 m1, alloc_mem stdConfig 0 1024 (zf5.procs 0) zf5.mem =
        .ok ((zf5.procs 0).bp, p1, m1)) := by
  have hb := boot_world_boot stdConfig 0 (by decide) (by decide)
  have h1 : Reach stdConfig za1 :=
    Reach.step _ _ (Reach.boot _ hb) (tame_step _ _ _ (step_alloc _ _ 1 1 _ rfl))
  have g2 : Reach stdConfig zf2 := Reach.step _ _ h1 (step_free _ _ ⟨1, 0, [0]⟩ 1 _ (by decide) rfl)
  have g3 : Reach stdConfig zf3 := Reach.step _ _ g2 (tame_step _ _ _ (step_alloc _ _ 1 1 _ rfl))
  have g4 : Reach stdConfig zf4 := Reach.step _ _ g3 (tame_step _ _ _ (step_alloc _ _ 0 1 _ rfl))
  have g5 : Reach stdConfig zf5 := Reach.step _ _ g4 (step_free _ _ ⟨0, 0, [1]⟩ 1 _ (by decide) rfl)
  exact ⟨g5, by decide, by decide, by decide, by decide,
    C17_fatal_unreachable stdConfig stdConfig_wf zf5 g5 0 0 1024 (by decide)⟩

/-- C16: in every reachable machine state, whatever the calls before, a
successful `alloc_mem` with page count `n ≥ 1` and old break pointer `b` claims
exactly the `n` lowest-indexed frames whose owner was 0 before the call.  The
`k`-th of them, in ascending order of the frame index, gets `proc = pid`,
`index = k` and as `next` the index of the following claimed frame, or -1 for
the last; the page-table row of virtual page `(b >> OFFSET_LEN) + k` stores that
page number and that frame; no other frame record changes. -/
theorem C16_first_fit (cfg : Config) (hwf : cfg.WF) (w : World) (hr : Reach cfg w)
    (k junk size ret : Nat) (p1 : pcb_t) (m1 : Mem)
    (hn : 1 ≤ num_pages_of cfg size)
    (hav : mem_avail cfg size (w.procs k) w.mem = true)
    (hres : alloc_mem cfg junk size (w.procs k) w.mem = .ok (ret, p1, m1)) :
    (first_free cfg w.mem (num_pages_of cfg size)).length = num_pages_of cfg size ∧
    (∀ (j f : Nat), (first_free cfg w.mem (num_pages_of cfg size))[j]? = some f →
      (w.mem._mem_stat f).proc = 0 ∧
      m1._mem_stat f =
        ⟨(w.procs k).pid, (j : Int),
          match (first_free cfg w.mem (num_pages_of cfg size))[j + 1]? with
          | some g => (g : Int)
          | none => -1⟩ ∧
      vidx cfg p1 ((w.procs k).bp >>> cfg.OFFSET_LEN + j) =
        (w.procs k).bp >>> cfg.OFFSET_LEN + j ∧
      pidx cfg p1 ((w.procs k).bp >>> cfg.OFFSET_LEN + j) = f) ∧
    (∀ f, f ∉ first_free cfg w.mem (num_pages_of cfg size) →
      m1._mem_stat f = w.mem._mem_stat f) := by
  have h := reach_base cfg hwf w hr
  obtain ⟨fs, post⟩ := alloc_mem_spec cfg hwf junk size _ _ hav hn (h.bp_le k)
    (base_ffl_le cfg w h) (base_unset cfg w h k) ret p1 m1 hres
  have hfs := alloc_post_first_fit cfg _ _ _ _ _ _ _ post
  rw [← hfs]
  refine ⟨post.len, ?_, post.other⟩
  intro j f hj
  have hjn : j < num_pages_of cfg size := by
    rw [← post.len]; exact getElem?_lt hj
  have hsh : (w.procs k).bp >>> cfg.OFFSET_LEN = (w.procs k).bp / cfg.PAGE_SIZE :=
    Nat.shiftRight_eq_div_pow _ _
  rw [hsh, post.vmap, post.pmap, if_pos ⟨by omega, by omega⟩, if_pos ⟨by omega, by omega⟩]
  refine ⟨post.was_free f (List.getElem?_mem hj), post.stat j f hj, rfl, ?_⟩
  have : (w.procs k).bp / cfg.PAGE_SIZE + j - (w.procs k).bp / cfg.PAGE_SIZE = j := by omega
  rw [this, hj]
  rfl

theorem C16_first_fit_witness :
    Reach tinyConfig tiny1 ∧
    num_pages_of tinyConfig 512 = 2 ∧
    mem_avail tinyConfig 512 (tiny1.procs 0) tiny1.mem = true ∧
    alloc_mem tinyConfig 0 512 (tiny1.procs 0) tiny1.mem = .ok (256, tiny2.procs 0, tiny2.mem) ∧
    first_free tinyConfig tiny1.mem (num_pages_of tinyConfig 512) = [1, 2] ∧
    ((first_free tinyConfig tiny1.mem (num_pages_of tinyConfig 512)).length =
        num_pages_of tinyConfig 512 ∧
      (∀ (j f : Nat), (first_free tinyConfig tiny1.mem (num_pages_of tinyConfig 512))[j]? =
          some f →
        (tiny1.mem._mem_stat f).proc = 0 ∧
        tiny2.mem._mem_stat f =
          ⟨(tiny1.procs 0).pid, (j : Int),
            match (first_free tinyConfig tiny1.mem (num_pages_of tinyConfig 512))[j + 1]? with
            | some g => (g : Int)
            | none => -1⟩ ∧
        vidx tinyConfig (tiny2.procs 0) ((tiny1.procs 0).bp >>> tinyConfig.OFFSET_LEN + j) =
          (tiny1.procs 0).bp >>> tinyConfig.OFFSET_LEN + j ∧
        pidx tinyConfig (tiny2.procs 0) ((tiny1.procs 0).bp >>> tinyConfig.OFFSET_LEN + j) = f) ∧
      (∀ f, f ∉ first_free tinyConfig tiny1.mem (num_pages_of tinyConfig 512) →
        tiny2.mem._mem_stat f = tiny1.mem._mem_stat f)) :=
  ⟨clean_reach _ tinyConfig_wf _ tiny1_reach, by decide, by decide, rfl, by decide,
    C16_first_fit tinyConfig tinyConfig_wf tiny1 (clean_reach _ tinyConfig_wf _ tiny1_reach) 0 0 512 256
      (tiny2.procs 0) tiny2.mem (by decide) (by decide) rfl⟩

/-- C11: `max_virtual_addr` is `2 ^ ADDRESS_SIZE - 1`.  In every state, when the
32-bit sum `proc->bp + num_pages * PAGE_SIZE` that the code compares exceeds it,
`alloc_mem` returns 0 and leaves the process and the globals as they were.  In
every state whose break pointer is at most `max_virtual_addr` and whose free
counter is at most `NUM_PAGES`, the same holds for the exact sum, and
conversely: when the exact sum does not exceed `max_virtual_addr` and
`free_frame_left` is at least the page count, `mem_avail` stays 1, so the
allocation branch is taken.  Every reachable machine state, whatever the calls
before, is such a state, and there the call on the allocation branch returns the
old break pointer and advances the break pointer by `num_pages * PAGE_SIZE`. -/
theorem C11_virtual_space_check (cfg : Config) (hwf : cfg.WF) (junk size : Nat) :
    max_virtual_addr cfg = 2 ^ cfg.ADDRESS_SIZE - 1 ∧
    (∀ (p : pcb_t) (m : Mem),
      u32 (p.bp + u32 (num_pages_of cfg size * cfg.PAGE_SIZE)) > max_virtual_addr cfg →
      alloc_mem cfg junk size p m = .ok (0, p, m)) ∧
    (∀ (p : pcb_t) (m : Mem), p.bp ≤ max_virtual_addr cfg →
      m.free_frame_left ≤ cfg.NUM_PAGES →
      (p.bp + num_pages_of cfg size * cfg.PAGE_SIZE > max_virtual_addr cfg →
        alloc_mem cfg junk size p m = .ok (0, p, m)) ∧
      (p.bp + num_pages_of cfg size * cfg.PAGE_SIZE ≤ max_virtual_addr cfg →
        num_pages_of cfg size ≤ m.free_frame_left →
        mem_avail cfg size p m = true)) ∧
    (∀ (w : World), Reach cfg w → ∀ k,
      (w.procs k).bp ≤ max_virtual_addr cfg ∧
      w.mem.free_frame_left ≤ cfg.NUM_PAGES ∧
      ((w.procs k).bp + num_pages_of cfg size * cfg.PAGE_SIZE ≤ max_virtual_addr cfg →
        num_pages_of cfg size ≤ w.mem.free_frame_left →
        ∃ p1 m1, alloc_mem cfg junk size (w.procs k) w.mem = .ok ((w.procs k).bp, p1, m1) ∧
          p1.bp = (w.procs k).bp + num_pages_of cfg size * cfg.PAGE_SIZE)) := by
  have hPS : 0 < cfg.PAGE_SIZE := Nat.two_pow_pos _
  have hmax := max_virtual_addr_eq cfg hwf.addr_lt
  have hA : 2 ^ cfg.ADDRESS_SIZE ≤ 2 ^ 31 :=
    Nat.pow_le_pow_right (by decide) (by have := hwf.addr_lt; omega)
  have hApos : 0 < 2 ^ cfg.ADDRESS_SIZE := Nat.two_pow_pos _
  have hram := hwf.ram_fits
  have hwrap : ∀ (p : pcb_t) (m : Mem), p.bp ≤ max_virtual_addr cfg →
      m.free_frame_left ≤ cfg.NUM_PAGES → num_pages_of cfg size ≤ m.free_frame_left →
      u32 (p.bp + u32 (num_pages_of cfg size * cfg.PAGE_SIZE)) =
        p.bp + num_pages_of cfg size * cfg.PAGE_SIZE := by
    intro p m hbp hffl hle
    have hnps : num_pages_of cfg size * cfg.PAGE_SIZE ≤ cfg.NUM_PAGES * cfg.PAGE_SIZE :=
      Nat.mul_le_mul_right _ (le_trans hle hffl)
    rw [u32_of_lt (x := num_pages_of cfg size * cfg.PAGE_SIZE) (by omega),
      u32_of_lt (by omega)]
  have hconv : ∀ (p : pcb_t) (m : Mem), p.bp ≤ max_virtual_addr cfg →
      m.free_frame_left ≤ cfg.NUM_PAGES →
      p.bp + num_pages_of cfg size * cfg.PAGE_SIZE ≤ max_virtual_addr cfg →
      num_pages_of cfg size ≤ m.free_frame_left →
      mem_avail cfg size p m = true := by
    intro p m hbp hffl hsum hle
    unfold mem_avail
    have h1 : ¬ u32 (p.bp + u32 (num_pages_of cfg size * cfg.PAGE_SIZE)) >
        max_virtual_addr cfg := by rw [hwrap p m hbp hffl hle]; omega
    have h2 : ¬ m.free_frame_left < num_pages_of cfg size := by omega
    simp only [h1, h2, if_false]
  refine ⟨hmax, ?_, ?_, ?_⟩
  · intro p m hgt
    apply alloc_mem_refused
    unfold mem_avail
    simp only [hgt, if_true]
  · intro p m hbp hffl
    refine ⟨?_, hconv p m hbp hffl⟩
    intro hgt
    apply alloc_mem_refused
    unfold mem_avail
    by_cases hle : num_pages_of cfg size ≤ m.free_frame_left
    · have hgt2 : u32 (p.bp + u32 (num_pages_of cfg size * cfg.PAGE_SIZE)) >
          max_virtual_addr cfg := by rw [hwrap p m hbp hffl hle]; exact hgt
      simp only [hgt2, if_true]
    · have hlt : m.free_frame_left < num_pages_of cfg size := by omega
      simp only [hlt, if_true]
      split_ifs <;> rfl
  · intro w hr k
    have h := reach_base cfg hwf w hr
    refine ⟨h.bp_le k, base_ffl_le cfg w h, ?_⟩
    intro hsum hle
    have hav := hconv (w.procs k) w.mem (h.bp_le k) (base_ffl_le cfg w h) hsum hle
    obtain ⟨p1, m1, hres⟩ := (alloc_mem_progress cfg hwf junk size (w.procs k) w.mem hav
      (h.bp_le k) (base_ffl_le cfg w h) (base_unset cfg w h k) h.ffl_free).2.2
    refine ⟨p1, m1, hres, ?_⟩
    rcases base_alloc_cases cfg hwf w h k junk size _ p1 m1 hav hres with
      ⟨_, fs, post⟩ | ⟨hn0, _, e2, _⟩
    · exact post.bp
    · rw [hn0, e2]
      omega

theorem C11_virtual_space_check_witness :
    Reach stdConfig zc2 ∧ (zc2.procs 0).bp = 3072 ∧
    num_pages_of stdConfig 1045504 = 1022 ∧ max_virtual_addr stdConfig = 1048575 ∧
    zc2.mem.free_frame_left = 1022 ∧
    alloc_mem stdConfig 0 1045504 (zc2.procs 0) zc2.mem = .ok (0, zc2.procs 0, zc2.mem) ∧
    (max_virtual_addr stdConfig = 2 ^ stdConfig.ADDRESS_SIZE - 1 ∧
      (∀ (p : pcb_t) (m : Mem),
        u32 (p.bp + u32 (num_pages_of stdConfig 1045504 * stdConfig.PAGE_SIZE)) >
          max_virtual_addr stdConfig →
        alloc_mem stdConfig 0 1045504 p m = .ok (0, p, m)) ∧
      (∀ (p : pcb_t) (m : Mem), p.bp ≤ max_virtual_addr stdConfig →
        m.free_frame_left ≤ stdConfig.NUM_PAGES →
        (p.bp + num_pages_of stdConfig 1045504 * stdConfig.PAGE_SIZE >
            max_virtual_addr stdConfig →
          alloc_mem stdConfig 0 1045504 p m = .ok (0, p, m)) ∧
        (p.bp + num_pages_of stdConfig 1045504 * stdConfig.PAGE_SIZE ≤
            max_virtual_addr stdConfig →
          num_pages_of stdConfig 1045504 ≤ m.free_frame_left →
          mem_avail stdConfig 1045504 p m = true)) ∧
      (∀ (w : World), Reach stdConfig w → ∀ k,
        (w.procs k).bp ≤ max_virtual_addr stdConfig ∧
        w.mem.free_frame_left ≤ stdConfig.NUM_PAGES ∧
        ((w.procs k).bp + num_pages_of stdConfig 1045504 * stdConfig.PAGE_SIZE ≤
            max_virtual_addr stdConfig →
          num_pages_of stdConfig 1045504 ≤ w.mem.free_frame_left →
          ∃ p1 m1, alloc_mem stdConfig 0 1045504 (w.procs k) w.mem =
              .ok ((w.procs k).bp, p1, m1) ∧
            p1.bp = (w.procs k).bp + num_pages_of stdConfig 1045504 * stdConfig.PAGE_SIZE))) := by
  have hb1 := boot_world_boot stdConfig 1024 (by decide) (by decide)
  have c1 : Reach stdConfig zc1 :=
    Reach.step _ _ (Reach.boot _ hb1) (tame_step _ _ _ (step_alloc _ _ 0 1024 _ rfl))
  have c2 : Reach stdConfig zc2 := Reach.step _ _ c1 (tame_step _ _ _ (step_alloc _ _ 0 5 _ rfl))
  have hc := C11_virtual_space_check stdConfig stdConfig_wf 0 1045504
  exact ⟨c2, by decide, by decide, by decide, by decide,
    (hc.2.2.1 (zc2.procs 0) zc2.mem (by decide) (by decide)).1 (by decide), hc⟩

/-! # Proofs: what `free_mem` leaves alone -/

end OSim
